import Mathlib

/-!
# Char-Recognition-RaspberryPi

A shallow embedding of the C sources of the hand-written character
recognition appliance (periodic tasks, start-up, weight files, forward pass,
key handling, result buffer), and theorems about it.

Conventions of the embedding.

* C `int`, `long` and `time_t` values are Lean integers.  Signed overflow is
  undefined behaviour in C; the theorems speak about executions in which it
  does not occur.  C integer division and remainder truncate toward zero and
  are `Int.tdiv` and `Int.tmod`.
* Global variables of a translation unit are the fields of a state record and
  every function takes the state and returns the new one.
* What a function obtains from outside the program (the monotonic clock, the
  status returned by `pthread_create`, the content of a file) is an explicit
  argument.
-/

namespace HWR

/-! ## ptask_handler.c -/

/-- Max number of active task (`MAX_TASK`). -/
abbrev MAX_TASK : Nat := 10

/-- The C `struct timespec`: seconds and nanoseconds. -/
structure timespec where
  tv_sec : Int
  tv_nsec : Int
deriving DecidableEq

/-- The `struct task_par` of ptask_handler.c.  The field `at` of the source is
spelled `at_` (the source name is a reserved word). -/
structure task_par where
  id : Int
  wcet : Int
  period : Int
  deadline : Int
  priority : Int
  dmiss : Int
  at_ : timespec
  dl : timespec
deriving DecidableEq

/-- The globals of ptask_handler.c: the array `tp[MAX_TASK]` and `task_counter`.
The array `tid` of thread handles is only passed to the pthread library and is
not represented. -/
structure ptask_state where
  tp : Fin MAX_TASK → task_par
  task_counter : Nat

/-- A zeroed record (C static storage is zero-initialised). -/
def task_par_zero : task_par :=
  { id := 0, wcet := 0, period := 0, deadline := 0, priority := 0, dmiss := 0,
    at_ := ⟨0, 0⟩, dl := ⟨0, 0⟩ }

/-- State of ptask_handler.c at program start. -/
def ptask_init : ptask_state :=
  { tp := fun _ => task_par_zero, task_counter := 0 }

/-- Assignment to one cell of `tp`. -/
def tp_set (tp : Fin MAX_TASK → task_par) (i : Fin MAX_TASK) (r : task_par) :
    Fin MAX_TASK → task_par :=
  fun j => if j = i then r else tp j

/-- The instant a timespec denotes, in nanoseconds: `tv_sec*10^9 + tv_nsec`. -/
def total_ns (t : timespec) : Int := t.tv_sec * 1000000000 + t.tv_nsec

/-- A timespec is normalised when `0 <= tv_nsec < 10^9`. -/
def normalised (t : timespec) : Prop := 0 ≤ t.tv_nsec ∧ t.tv_nsec < 1000000000

instance (t : timespec) : Decidable (normalised t) := by
  unfold normalised; infer_instance

/-- Function `time_copy`: the copy of a time structure. -/
def time_copy (ts : timespec) : timespec :=
  { tv_sec := ts.tv_sec, tv_nsec := ts.tv_nsec }

/-- Function `time_add_ms`: add `ms` milliseconds to a time structure. -/
def time_add_ms (t : timespec) (ms : Int) : timespec :=
  let t1 : timespec :=
    { tv_sec := t.tv_sec + Int.tdiv ms 1000,
      tv_nsec := t.tv_nsec + Int.tmod ms 1000 * 1000000 }
  if t1.tv_nsec > 1000000000 then
    { tv_sec := t1.tv_sec + 1, tv_nsec := t1.tv_nsec - 1000000000 }
  else t1

/-- Function `time_cmp`: compare two time structures. -/
def time_cmp (t1 t2 : timespec) : Int :=
  if t1.tv_sec > t2.tv_sec then 1
  else if t1.tv_sec < t2.tv_sec then -1
  else if t1.tv_nsec > t2.tv_nsec then 1
  else if t1.tv_nsec < t2.tv_nsec then -1
  else 0

/-- How a call of `task_create` ends: it returns a value, or `assert` aborts
the process.  Both carry the globals as they are at that point. -/
inductive create_result where
  | returned (s : ptask_state) (ret : Int)
  | assert_failed (s : ptask_state)

/-- Function `task_create`.  The handler is only passed on to `pthread_create`; the
status `pthread_create` returns is the argument `pthread_ret`. -/
def task_create (s : ptask_state) (period drel prio : Int) (pthread_ret : Int) :
    create_result :=
  let id := s.task_counter
  let s1 : ptask_state := { s with task_counter := s.task_counter + 1 }
  if h : id < MAX_TASK then
    let i : Fin MAX_TASK := ⟨id, h⟩
    let r : task_par :=
      { s1.tp i with id := (id : Int), period := period, deadline := drel,
                     priority := prio, dmiss := 0 }
    create_result.returned { s1 with tp := tp_set s1.tp i r } pthread_ret
  else
    create_result.assert_failed s1

/-- The globals at the point where a call of `task_create` ends. -/
def create_result.globals : create_result → ptask_state
  | create_result.returned s _ => s
  | create_result.assert_failed s => s

/-- The value a call of `task_create` returns, when it returns. -/
def create_result.ret : create_result → Option Int
  | create_result.returned _ r => some r
  | create_result.assert_failed _ => none

/-- Function `get_task_index`: `arg` points to the cell `tp[arg]` given to the thread. -/
def get_task_index (s : ptask_state) (arg : Fin MAX_TASK) : Int := (s.tp arg).id

/-- Function `set_activation`; `t` is what `clock_gettime` reads. -/
def set_activation (s : ptask_state) (id : Fin MAX_TASK) (t : timespec) : ptask_state :=
  let r := s.tp id
  let r1 : task_par := { r with at_ := time_copy t }
  let r2 : task_par := { r1 with dl := time_copy t }
  let r3 : task_par := { r2 with at_ := time_add_ms r2.at_ r2.period }
  let r4 : task_par := { r3 with dl := time_add_ms r3.dl r3.deadline }
  { s with tp := tp_set s.tp id r4 }

/-- Function `deadline_miss`; `t` is what `clock_gettime` reads.  Returns the new
globals and the C return value. -/
def deadline_miss (s : ptask_state) (i : Fin MAX_TASK) (t : timespec) : ptask_state × Int :=
  if time_cmp t (s.tp i).dl > 0 then
    ({ s with tp := tp_set s.tp i { s.tp i with dmiss := (s.tp i).dmiss + 1 } }, 1)
  else (s, 0)

/-- Function `wait_for_activation`: `clock_nanosleep` only suspends the caller, then the
two instants are advanced by one period. -/
def wait_for_activation (s : ptask_state) (i : Fin MAX_TASK) : ptask_state :=
  let r := s.tp i
  let r1 : task_par := { r with at_ := time_add_ms r.at_ r.period }
  let r2 : task_par := { r1 with dl := time_add_ms r1.dl r1.period }
  { s with tp := tp_set s.tp i r2 }

/-- A call a periodic worker makes on its own task after `set_activation`:
the deadline check at some clock reading, or the wait for the next period. -/
inductive sched_call where
  | miss (now : timespec)
  | wait
deriving DecidableEq

/-- Effect of one such call on the globals. -/
def apply_call (i : Fin MAX_TASK) (s : ptask_state) (c : sched_call) : ptask_state :=
  match c with
  | sched_call.miss now => (deadline_miss s i now).1
  | sched_call.wait => wait_for_activation s i

/-- Effect of a sequence of calls, in order. -/
def run_calls (i : Fin MAX_TASK) (s : ptask_state) (cs : List sched_call) : ptask_state :=
  cs.foldl (apply_call i) s

/-- Number of `wait_for_activation` calls in a sequence. -/
def waits (cs : List sched_call) : Nat := cs.count sched_call.wait

/-- The scheduler globals after the first two registrations made by `init()`:
`task_create(cam_task, PERIOD_CAM, DLINE_CAM, PRIO_CAM)` and
`task_create(nn_task, PERIOD_NN, DLINE_NN, PRIO_NN)`, both threads created
(`pthread_create` returning 0). -/
def two_registered : ptask_state :=
  (task_create (task_create ptask_init 40 40 90 0).globals 500 200 70 0).globals

/-- The scheduler globals after ten registrations, all threads created. -/
def ten_registered : ptask_state :=
  (List.range 10).foldl (fun s _ => (task_create s 40 40 50 0).globals) ptask_init

/-! ## common.h -/

/-- Camera display height (`CAM_HEIGHT`). -/
def CAM_HEIGHT : Int := 240
/-- Camera display width (`CAM_WIDTH`). -/
def CAM_WIDTH : Int := 320
/-- Camera display margin from top (`CAM_MRG_TOP`). -/
def CAM_MRG_TOP : Int := 30
/-- Max length of ROI (`ROI_MAX`). -/
def ROI_MAX : Int := 224
/-- Min length of ROI (`ROI_MIN`). -/
def ROI_MIN : Int := 56
/-- Thickness of ROI in the showed camera frame (`ROI_DEPTH`). -/
def ROI_DEPTH : Int := 3
/-- Height of input image in the neural network (`INPUT_DIM`). -/
def INPUT_DIM : Nat := 28

/-- The enumeration `network_target` of the different models. -/
inductive network_target where
  | DIGITS
  | LETTERS
  | MIXED
deriving DecidableEq

/-! ## display.h, display.c: the ROI record and `init_display` -/

/-- Constant `DISPLAY_SUCCESS`. -/
def DISPLAY_SUCCESS : Int := 0
/-- Constant `DISPLAY_ERROR_NO_FONT_FILE`. -/
def DISPLAY_ERROR_NO_FONT_FILE : Int := 1
/-- Constant `DISPLAY_ERROR_CREATE_BITMAP`. -/
def DISPLAY_ERROR_CREATE_BITMAP : Int := 2
/-- Constant `DISPLAY_ERROR_SHOW_VIDEO`. -/
def DISPLAY_ERROR_SHOW_VIDEO : Int := 3

/-- The struct `sqr_center_t`: position and dimension of the ROI. -/
structure sqr_center_t where
  centerX : Int
  centerY : Int
  radius : Int
deriving DecidableEq

/-- What the Allegro library answers during `init_display`: whether each
allocation and each font load gives a non-NULL pointer, in call order. -/
structure display_env where
  video_page_0 : Bool
  video_page_1 : Bool
  normal_font : Bool
  title_font : Bool
  extracted_image : Bool
  nn_ROI_0 : Bool
  nn_input_0 : Bool
  nn_ROI_1 : Bool
  nn_input_1 : Bool
  captured_image : Bool

/-- All resources available. -/
def display_env_ok : display_env :=
  { video_page_0 := true, video_page_1 := true, normal_font := true, title_font := true,
    extracted_image := true, nn_ROI_0 := true, nn_input_0 := true, nn_ROI_1 := true,
    nn_input_1 := true, captured_image := true }

/-- Function `init_display`, as far as the global `ROI_dim` and the return value go:
the new `ROI_dim` and the code returned.  The statements that only compute
screen coordinates, initialise mutexes or paint bitmaps are left out. -/
def init_display (env : display_env) (ROI_dim : sqr_center_t) : sqr_center_t × Int :=
  if !env.video_page_0 then (ROI_dim, DISPLAY_ERROR_CREATE_BITMAP)
  else if !env.video_page_1 then (ROI_dim, DISPLAY_ERROR_CREATE_BITMAP)
  else if !env.normal_font then (ROI_dim, DISPLAY_ERROR_NO_FONT_FILE)
  else if !env.title_font then (ROI_dim, DISPLAY_ERROR_NO_FONT_FILE)
  else
    let ROI_dim1 : sqr_center_t :=
      { centerX := Int.tdiv CAM_WIDTH 2,
        centerY := CAM_MRG_TOP + Int.tdiv CAM_HEIGHT 2,
        radius := Int.tdiv ROI_MAX 2 }
    if !env.extracted_image then (ROI_dim1, DISPLAY_ERROR_CREATE_BITMAP)
    else if !env.nn_ROI_0 then (ROI_dim1, DISPLAY_ERROR_CREATE_BITMAP)
    else if !env.nn_input_0 then (ROI_dim1, DISPLAY_ERROR_CREATE_BITMAP)
    else if !env.nn_ROI_1 then (ROI_dim1, DISPLAY_ERROR_CREATE_BITMAP)
    else if !env.nn_input_1 then (ROI_dim1, DISPLAY_ERROR_CREATE_BITMAP)
    else if !env.captured_image then (ROI_dim1, DISPLAY_ERROR_CREATE_BITMAP)
    else (ROI_dim1, DISPLAY_SUCCESS)

/-! ## user.c -/

/-- The Allegro key codes `key_pressed` switches on.  `allegro.h` is not part
of the sources, so the codes are a parameter of the model. -/
structure key_codes where
  KEY_ESC : Int
  KEY_X : Int
  KEY_C : Int
  KEY_V : Int
  KEY_B : Int
  KEY_D : Int
  KEY_F : Int
  KEY_A : Int
  KEY_S : Int
  KEY_LEFT : Int
  KEY_RIGHT : Int
  KEY_UP : Int
  KEY_DOWN : Int
  KEY_PLUS_PAD : Int
  KEY_MINUS_PAD : Int

/-- The key codes as Allegro 4 defines them in `allegro/keyboard.h`. -/
def allegro_keys : key_codes :=
  { KEY_ESC := 59, KEY_X := 24, KEY_C := 3, KEY_V := 22, KEY_B := 2, KEY_D := 4, KEY_F := 6,
    KEY_A := 1, KEY_S := 19, KEY_LEFT := 82, KEY_RIGHT := 83, KEY_UP := 84, KEY_DOWN := 85,
    KEY_PLUS_PAD := 89, KEY_MINUS_PAD := 88 }

/-- The globals `key_pressed` reads and writes: the four camera properties of
raspi_cam.c and `ROI_dim` of display.c. -/
structure user_state where
  contrast_value : Int
  brightness_value : Int
  saturation_value : Int
  sharpness_value : Int
  ROI_dim : sqr_center_t
deriving DecidableEq

/-- Body of `case KEY_X` of `key_pressed`: decrease the contrast by 5 when it is
at least 5.  Here and in the cases below a mutex is locked and unlocked around
each access of a global; the sequential effect is the one written. -/
def on_KEY_X (s : user_state) : user_state :=
  let property_local := s.contrast_value
  if property_local ≥ 5 then { s with contrast_value := property_local - 5 } else s

/-- Body of `case KEY_C`: increase the contrast by 5 when it is at most 95. -/
def on_KEY_C (s : user_state) : user_state :=
  let property_local := s.contrast_value
  if property_local ≤ 95 then { s with contrast_value := property_local + 5 } else s

/-- Body of `case KEY_V`: decrease the brightness. -/
def on_KEY_V (s : user_state) : user_state :=
  let property_local := s.brightness_value
  if property_local ≥ 5 then { s with brightness_value := property_local - 5 } else s

/-- Body of `case KEY_B`: increase the brightness. -/
def on_KEY_B (s : user_state) : user_state :=
  let property_local := s.brightness_value
  if property_local ≤ 95 then { s with brightness_value := property_local + 5 } else s

/-- Body of `case KEY_D`: decrease the saturation. -/
def on_KEY_D (s : user_state) : user_state :=
  let property_local := s.saturation_value
  if property_local ≥ 5 then { s with saturation_value := property_local - 5 } else s

/-- Body of `case KEY_F`: increase the saturation. -/
def on_KEY_F (s : user_state) : user_state :=
  let property_local := s.saturation_value
  if property_local ≤ 95 then { s with saturation_value := property_local + 5 } else s

/-- Body of `case KEY_A`: decrease the sharpness. -/
def on_KEY_A (s : user_state) : user_state :=
  let property_local := s.sharpness_value
  if property_local ≥ 5 then { s with sharpness_value := property_local - 5 } else s

/-- Body of `case KEY_S`: increase the sharpness. -/
def on_KEY_S (s : user_state) : user_state :=
  let property_local := s.sharpness_value
  if property_local ≤ 95 then { s with sharpness_value := property_local + 5 } else s

/-- Body of `case KEY_LEFT`. -/
def on_KEY_LEFT (s : user_state) : user_state :=
  if (s.ROI_dim.centerX - 2 - ROI_DEPTH) - s.ROI_dim.radius ≥ 0 then
    { s with ROI_dim := { s.ROI_dim with centerX := s.ROI_dim.centerX - 2 } }
  else s

/-- Body of `case KEY_RIGHT`. -/
def on_KEY_RIGHT (s : user_state) : user_state :=
  if (s.ROI_dim.centerX + 2 + ROI_DEPTH) + s.ROI_dim.radius ≤ CAM_WIDTH then
    { s with ROI_dim := { s.ROI_dim with centerX := s.ROI_dim.centerX + 2 } }
  else s

/-- Body of `case KEY_UP`. -/
def on_KEY_UP (s : user_state) : user_state :=
  if (s.ROI_dim.centerY - 2 - ROI_DEPTH) - s.ROI_dim.radius ≥ CAM_MRG_TOP then
    { s with ROI_dim := { s.ROI_dim with centerY := s.ROI_dim.centerY - 2 } }
  else s

/-- Body of `case KEY_DOWN`. -/
def on_KEY_DOWN (s : user_state) : user_state :=
  if (s.ROI_dim.centerY + 2 + ROI_DEPTH) + s.ROI_dim.radius ≤ CAM_HEIGHT + CAM_MRG_TOP then
    { s with ROI_dim := { s.ROI_dim with centerY := s.ROI_dim.centerY + 2 } }
  else s

/-- Body of `case KEY_PLUS_PAD: case 65:`. -/
def on_KEY_PLUS_PAD (s : user_state) : user_state :=
  let s1 : user_state :=
    if s.ROI_dim.radius < Int.tdiv ROI_MAX 2 then
      { s with ROI_dim := { s.ROI_dim with radius := s.ROI_dim.radius * 2 } }
    else s
  let s2 : user_state := { s1 with ROI_dim := { s1.ROI_dim with centerX := Int.tdiv CAM_WIDTH 2 } }
  { s2 with ROI_dim := { s2.ROI_dim with centerY := CAM_MRG_TOP + Int.tdiv CAM_HEIGHT 2 } }

/-- Body of `case KEY_MINUS_PAD: case 61:`. -/
def on_KEY_MINUS_PAD (s : user_state) : user_state :=
  let s1 : user_state :=
    if s.ROI_dim.radius > Int.tdiv ROI_MIN 2 then
      { s with ROI_dim := { s.ROI_dim with radius := Int.tdiv s.ROI_dim.radius 2 } }
    else s
  let s2 : user_state := { s1 with ROI_dim := { s1.ROI_dim with centerX := Int.tdiv CAM_WIDTH 2 } }
  { s2 with ROI_dim := { s2.ROI_dim with centerY := CAM_MRG_TOP + Int.tdiv CAM_HEIGHT 2 } }

/-- Function `key_pressed`: the new globals and the value returned (`end`, which starts
at 0 and is incremented by `case KEY_ESC`).  The `switch` is a chain of tests
in the order of its `case` labels (the labels of a C `switch` are pairwise
distinct, so the order does not matter). -/
def key_pressed (K : key_codes) (s : user_state) (key : Int) : user_state × Int :=
  if key = K.KEY_ESC then (s, 0 + 1)
  else if key = K.KEY_X then (on_KEY_X s, 0)
  else if key = K.KEY_C then (on_KEY_C s, 0)
  else if key = K.KEY_V then (on_KEY_V s, 0)
  else if key = K.KEY_B then (on_KEY_B s, 0)
  else if key = K.KEY_D then (on_KEY_D s, 0)
  else if key = K.KEY_F then (on_KEY_F s, 0)
  else if key = K.KEY_A then (on_KEY_A s, 0)
  else if key = K.KEY_S then (on_KEY_S s, 0)
  else if key = K.KEY_LEFT then (on_KEY_LEFT s, 0)
  else if key = K.KEY_RIGHT then (on_KEY_RIGHT s, 0)
  else if key = K.KEY_UP then (on_KEY_UP s, 0)
  else if key = K.KEY_DOWN then (on_KEY_DOWN s, 0)
  else if key = K.KEY_PLUS_PAD ∨ key = 65 then (on_KEY_PLUS_PAD s, 0)
  else if key = K.KEY_MINUS_PAD ∨ key = 61 then (on_KEY_MINUS_PAD s, 0)
  else (s, 0)

/-- The globals after a sequence of key events, each handled by `key_pressed`. -/
def keys_pressed (K : key_codes) (s : user_state) (keys : List Int) : user_state :=
  keys.foldl (fun st key => (key_pressed K st key).1) s

/-- The ROI square lies inside the camera frame as shown on the screen. -/
def ROI_in_frame (r : sqr_center_t) : Prop :=
  0 ≤ r.centerX - r.radius ∧ r.centerX + r.radius ≤ CAM_WIDTH ∧
  CAM_MRG_TOP ≤ r.centerY - r.radius ∧ r.centerY + r.radius ≤ CAM_MRG_TOP + CAM_HEIGHT

instance (r : sqr_center_t) : Decidable (ROI_in_frame r) := by
  unfold ROI_in_frame; infer_instance

/-- The invariant of `ROI_dim` kept by every key: the square is inside the
frame and the radius is one of the three sizes reachable from `ROI_MAX / 2` by
halving and doubling. -/
def ROI_inv (r : sqr_center_t) : Prop :=
  ROI_in_frame r ∧ (r.radius = 28 ∨ r.radius = 56 ∨ r.radius = 112)

/-! ## nn_handler.h, nn_handler.c

The C type `float` is a type parameter `F` of the model, taken to be a
linearly ordered field: sums, products and quotients are exact, and rounding,
overflow and NaN of IEEE floats are not represented (a quotient by 0, NaN or
infinite in C, is 0 in a Lean field).  The library functions `exp` and `atof`
are parameters, and a theorem states what it assumes of them. -/

/-- Constant `NN_SUCCESS` (nn_handler.h). -/
def NN_SUCCESS : Int := 0
/-- Constant `NN_ERROR_NO_FILE` (nn_handler.h). -/
def NN_ERROR_NO_FILE : Int := 1
/-- Constant `NN_ERROR_READING_FILE` (nn_handler.h). -/
def NN_ERROR_READING_FILE : Int := 2

/-- The macro `ERROR` local to nn_handler.c (`#define ERROR -1`). -/
def nn_handler_ERROR : Int := -1
/-- The macro `SUCCESS` local to nn_handler.c (`#define SUCCESS 1`). -/
def nn_handler_SUCCESS : Int := 1

/-- Constant `INPUT_SIZE`, that is `INPUT_DIM * INPUT_DIM`. -/
def INPUT_SIZE : Nat := INPUT_DIM * INPUT_DIM
/-- Constant `DIGIT_HID_SIZE_1`. -/
def DIGIT_HID_SIZE_1 : Nat := 64
/-- Constant `DIGIT_HID_SIZE_2`. -/
def DIGIT_HID_SIZE_2 : Nat := 32
/-- Constant `DIGIT_OUTPUT_SIZE`. -/
def DIGIT_OUTPUT_SIZE : Nat := 10
/-- Constant `LET_HID_SIZE`. -/
def LET_HID_SIZE : Nat := 128
/-- Constant `LETTER_OUTPUT_SIZE`. -/
def LETTER_OUTPUT_SIZE : Nat := 26
/-- Constant `MIX_HID_SIZE`. -/
def MIX_HID_SIZE : Nat := 512
/-- Constant `MIXED_OUTPUT_SIZE`. -/
def MIXED_OUTPUT_SIZE : Nat := 47
/-- Constant `HID_DIGITS`: number of hidden layers of digits. -/
def HID_DIGITS : Nat := 2
/-- Constant `HID_LET_MIX`: number of hidden layers of letters and mixed. -/
def HID_LET_MIX : Nat := 3
/-- Constant `MAX_HID_SIZE`. -/
def MAX_HID_SIZE : Nat := 512
/-- Constant `MAX_OUT_SIZE`. -/
def MAX_OUT_SIZE : Nat := 47
/-- Constant `MAX_HID_NUM`. -/
def MAX_HID_NUM : Nat := 3

/-- The structs `sinapsi_in_t`, `sinapsi_hid_t` and `sinapsi_out_t`, which
differ only in the capacity of their arrays.  Arrays are maps from the index;
the sizes `card_in` and `card_out` only ever hold the non-negative constants
assigned by `init_digits_net`, `init_letters_net` and `init_mixed_net`. -/
structure sinapsi_t (F : Type) where
  weights : Nat → Nat → F
  bias : Nat → F
  card_in : Nat
  card_out : Nat

/-- The structs `layer_in_t`, `layer_hid_t` and `layer_out_t`. -/
structure layer_t (F : Type) where
  z_value : Nat → F
  act_value : Nat → F
  num_neuron : Nat

/-- The struct `network_t`. -/
structure network_t (F : Type) where
  in_S : sinapsi_t F
  hid_S : Nat → sinapsi_t F
  out_S : sinapsi_t F
  in_L : layer_t F
  hid_L : Nat → layer_t F
  out_L : layer_t F
  num_hidden : Nat

/-- The struct `data_network_t`: recognized character and its percentage. -/
structure data_network_t (F : Type) where
  rec_char : Char
  prob : F

/-- The globals of nn_handler.c. -/
structure nn_state (F : Type) where
  neural_network : network_target → network_t F
  active_net : network_target
  requested_model : network_target
  nn_result : data_network_t F

/-- Assignment to one cell of an array. -/
def arr_set {α : Type} (a : Nat → α) (i : Nat) (v : α) : Nat → α :=
  fun j => if j = i then v else a j

/-- Update of `neural_network[t]`. -/
def net_upd {F : Type} (nn : network_target → network_t F) (t : network_target)
    (f : network_t F → network_t F) : network_target → network_t F :=
  fun u => if u = t then f (nn u) else nn u

/-- Table `digits_map`. -/
def digits_map : List Char := ['0', '1', '2', '3', '4', '5', '6', '7', '8', '9']

/-- Table `letters_map`. -/
def letters_map : List Char :=
  ['A', 'B', 'C', 'D', 'E', 'F', 'G', 'H', 'I', 'J',
   'K', 'L', 'M', 'N', 'O', 'P', 'Q', 'R', 'S', 'T',
   'U', 'V', 'W', 'X', 'Y', 'Z']

/-- Table `mixed_map`. -/
def mixed_map : List Char :=
  ['0', '1', '2', '3', '4', '5', '6', '7', '8', '9',
   'A', 'B', 'C', 'D', 'E', 'F', 'G', 'H', 'I', 'J',
   'K', 'L', 'M', 'N', 'O', 'P', 'Q', 'R', 'S', 'T',
   'U', 'V', 'W', 'X', 'Y', 'Z', 'a', 'b', 'd', 'e',
   'f', 'g', 'h', 'n', 'q', 'r', 't']

/-- Function `init_digits_net`. -/
def init_digits_net {F : Type} (nn : network_target → network_t F) :
    network_target → network_t F :=
  let nn1 := net_upd nn network_target.DIGITS (fun n => { n with num_hidden := HID_DIGITS })
  let nn2 := net_upd nn1 network_target.LETTERS (fun n => { n with num_hidden := HID_LET_MIX })
  let nn3 := net_upd nn2 network_target.MIXED (fun n => { n with num_hidden := HID_LET_MIX })
  net_upd nn3 network_target.DIGITS (fun n =>
    { n with
      in_S := { n.in_S with card_in := INPUT_SIZE, card_out := DIGIT_HID_SIZE_1 }
      hid_S := arr_set n.hid_S 0
        { n.hid_S 0 with card_in := DIGIT_HID_SIZE_1, card_out := DIGIT_HID_SIZE_2 }
      out_S := { n.out_S with card_in := DIGIT_HID_SIZE_2, card_out := DIGIT_OUTPUT_SIZE }
      in_L := { n.in_L with num_neuron := INPUT_SIZE }
      hid_L := arr_set
        (arr_set n.hid_L 0 { n.hid_L 0 with num_neuron := DIGIT_HID_SIZE_1 }) 1
        { n.hid_L 1 with num_neuron := DIGIT_HID_SIZE_2 }
      out_L := { n.out_L with num_neuron := DIGIT_OUTPUT_SIZE } })

/-- Function `init_letters_net`. -/
def init_letters_net {F : Type} (nn : network_target → network_t F) :
    network_target → network_t F :=
  net_upd nn network_target.LETTERS (fun n =>
    { n with
      in_S := { n.in_S with card_in := INPUT_SIZE, card_out := LET_HID_SIZE }
      hid_S := arr_set
        (arr_set n.hid_S 0 { n.hid_S 0 with card_in := LET_HID_SIZE, card_out := LET_HID_SIZE }) 1
        { n.hid_S 1 with card_in := LET_HID_SIZE, card_out := LET_HID_SIZE }
      out_S := { n.out_S with card_in := LET_HID_SIZE, card_out := LETTER_OUTPUT_SIZE }
      in_L := { n.in_L with num_neuron := INPUT_SIZE }
      hid_L := arr_set (arr_set
        (arr_set n.hid_L 0 { n.hid_L 0 with num_neuron := LET_HID_SIZE }) 1
        { n.hid_L 1 with num_neuron := LET_HID_SIZE }) 2
        { n.hid_L 2 with num_neuron := LET_HID_SIZE }
      out_L := { n.out_L with num_neuron := LETTER_OUTPUT_SIZE } })

/-- Function `init_mixed_net`. -/
def init_mixed_net {F : Type} (nn : network_target → network_t F) :
    network_target → network_t F :=
  net_upd nn network_target.MIXED (fun n =>
    { n with
      in_S := { n.in_S with card_in := INPUT_SIZE, card_out := MIX_HID_SIZE }
      hid_S := arr_set
        (arr_set n.hid_S 0 { n.hid_S 0 with card_in := MIX_HID_SIZE, card_out := MIX_HID_SIZE }) 1
        { n.hid_S 1 with card_in := MIX_HID_SIZE, card_out := MIX_HID_SIZE }
      out_S := { n.out_S with card_in := MIX_HID_SIZE, card_out := MIXED_OUTPUT_SIZE }
      in_L := { n.in_L with num_neuron := INPUT_SIZE }
      hid_L := arr_set (arr_set
        (arr_set n.hid_L 0 { n.hid_L 0 with num_neuron := MIX_HID_SIZE }) 1
        { n.hid_L 1 with num_neuron := MIX_HID_SIZE }) 2
        { n.hid_L 2 with num_neuron := MIX_HID_SIZE }
      out_L := { n.out_L with num_neuron := MIXED_OUTPUT_SIZE } })

/-! ### Weight files -/

/-- An open stream (`FILE*`, not NULL): the characters not yet read. -/
abbrev stream := List Char

/-- What `fgetc` leaves in a `char` at end of file (`EOF` converted to `char`). -/
def EOF_char : Char := Char.ofNat 255

/-- Function `fgetc`, its result stored in a `char`. -/
def fgetc (fp : stream) : Char × stream :=
  match fp with
  | [] => (EOF_char, [])
  | c :: rest => (c, rest)

/-- The locals shared by the reading loops of the three loaders: the stream
position, the buffer `char string[10]`, `char_count`, `ch`.  `string i` is the
cell `string[i]` for `i < 10`; no other value of the map is stored or read.
`writes` is the log of the indices used by the stores `string[i] = ...`
executed so far, oldest first.  `overrun` is true once one of these stores had
`i >= 10`, outside the array: from there on the behaviour of the C program is
undefined. -/
structure reader where
  fp : stream
  string : Nat → Char
  char_count : Nat
  ch : Char
  writes : List Nat
  overrun : Bool

/-- Statement `string[char_count] = c`.  With `char_count < 10` the cell is
assigned; with `char_count >= 10` the store is outside the 10 cells of the
array: no cell is assigned and `overrun` is set. -/
def reader.put (r : reader) (c : Char) : reader :=
  { r with
    string := if r.char_count < 10 then arr_set r.string r.char_count c else r.string,
    writes := r.writes ++ [r.char_count],
    overrun := r.overrun || decide (10 ≤ r.char_count) }

/-- Statement `ch = fgetc(fp)`. -/
def reader.get (r : reader) : reader :=
  { r with ch := (fgetc r.fp).1, fp := (fgetc r.fp).2 }

/-- The C string held by the 10 cells of `string`: the characters before the
first NUL.  It is read by `atof` right after the terminating NUL has been stored
inside the array. -/
def reader.c_str (r : reader) : List Char :=
  ((List.range 10).map r.string).takeWhile (fun c => c != Char.ofNat 0)

/-- The loop `while (ch != '_' && ch != '\n') { string[char_count] = ch;
char_count++; if (char_count > 10) return ERROR; ch = fgetc(fp); }` of
`load_input_sinapsi` and `load_out_sinapsi`.  The flag is true when
`return ERROR` is executed.  Every iteration increments `char_count` and the
loop is left once it exceeds 10, so `11 - char_count` iterations are enough:
that is the value given to `fuel`.  The test comes after the store: the 11th
character of a field is stored at `string[10]`, which sets `overrun`, before
`char_count > 10` is found true. -/
def weight_loop (fuel : Nat) (r : reader) : reader × Bool :=
  match fuel with
  | 0 => (r, true)
  | fuel + 1 =>
    if r.ch ≠ '_' ∧ r.ch ≠ '\n' then
      let r1 := r.put r.ch
      let r2 := { r1 with char_count := r1.char_count + 1 }
      if r2.char_count > 10 then (r2, true)
      else weight_loop fuel r2.get
    else (r, false)

/-- The same loop as written in `load_hidden_sinapsi`, where the next character
is read before `char_count` is tested. -/
def weight_loop_hidden (fuel : Nat) (r : reader) : reader × Bool :=
  match fuel with
  | 0 => (r, true)
  | fuel + 1 =>
    if r.ch ≠ '_' ∧ r.ch ≠ '\n' then
      let r1 := r.put r.ch
      let r2 := { r1 with char_count := r1.char_count + 1 }
      let r3 := r2.get
      if r3.char_count > 10 then (r3, true)
      else weight_loop_hidden fuel r3
    else (r, false)

/-- The loop `while ((ch = fgetc(fp)) != '\n') { string[char_count] = ch;
char_count++; if (char_count > 10) return ERROR; }` that reads a bias. -/
def bias_loop (fuel : Nat) (r : reader) : reader × Bool :=
  match fuel with
  | 0 => (r, true)
  | fuel + 1 =>
    let r0 := r.get
    if r0.ch ≠ '\n' then
      let r1 := r0.put r0.ch
      let r2 := { r1 with char_count := r1.char_count + 1 }
      if r2.char_count > 10 then (r2, true)
      else bias_loop fuel r2
    else (r0, false)

/-- Loop `for (i = first; i < first + count; ++i) body`, where the body may execute
`return` (flag true), which leaves the loop at once. -/
def for_return {σ : Type} (body : Nat → σ → σ × Bool) (first count : Nat) (s : σ) : σ × Bool :=
  match count with
  | 0 => (s, false)
  | count + 1 =>
    if (body first s).2 then (body first s)
    else for_return body (first + 1) count (body first s).1

/-- Loop `for (i = 0; i < count; ++i) body`. -/
def for_loop {σ : Type} (body : Nat → σ → σ) (count : Nat) (s : σ) : σ :=
  (List.range count).foldl (fun st i => body i st) s

/-- Body of the `j` loop of a loader: read one weight field with the loop
`loop`, terminate the string, store `atof(string)` in `weights[i][j]`, reset
`char_count`.  The flag is true when the loader is left at once: `return
ERROR` has been executed, or the terminating NUL has been stored outside the
array (`overrun`), where the defined behaviour of the program ends. -/
def load_weight {F : Type} (atof : List Char → F) (loop : Nat → reader → reader × Bool)
    (i j : Nat) (st : reader × sinapsi_t F) : (reader × sinapsi_t F) × Bool :=
  let r0 := st.1.get
  let res := loop (11 - r0.char_count) r0
  if res.2 then ((res.1, st.2), true)
  else
    let r1 := res.1.put (Char.ofNat 0)
    if r1.overrun then ((r1, st.2), true)
    else
      let S := { st.2 with weights := arr_set st.2.weights i (arr_set (st.2.weights i) j (atof r1.c_str)) }
      (({ r1 with char_count := 0 }, S), false)

/-- Body of the `i` loop of a loader: the `j` loop over the `card_in` weights
of output neuron `i`, then the bias.  The flag is as for `load_weight`. -/
def load_neuron {F : Type} (atof : List Char → F) (loop : Nat → reader → reader × Bool)
    (i : Nat) (st : reader × sinapsi_t F) : (reader × sinapsi_t F) × Bool :=
  let w := for_return (load_weight atof loop i) 0 st.2.card_in st
  if w.2 then w
  else
    let res := bias_loop (11 - w.1.1.char_count) w.1.1
    if res.2 then ((res.1, w.1.2), true)
    else
      let r1 := res.1.put (Char.ofNat 0)
      if r1.overrun then ((r1, w.1.2), true)
      else
        let S := { w.1.2 with bias := arr_set w.1.2.bias i (atof r1.c_str) }
        (({ r1 with char_count := 0 }, S), false)

/-- Loading of one sinapsi: the `i` loop over its `card_out` output neurons. -/
def load_sinapsi {F : Type} (atof : List Char → F) (loop : Nat → reader → reader × Bool)
    (st : reader × sinapsi_t F) : (reader × sinapsi_t F) × Bool :=
  for_return (load_neuron atof loop) 0 st.2.card_out st

/-- How a loader ends: `ret` is the value it returns, or `none` when it has
executed a store outside the array `string` (undefined behaviour: nothing is
known of a return value); then the stream position, the network
`neural_network[target]` and the log of the indices of the stores into
`string`, all three as they are when the loader returns or at the store
outside the array. -/
structure load_result (F : Type) where
  ret : Option Int
  fp : stream
  net : network_t F
  writes : List Nat

/-- The value a loader returns when its loops end with the locals `r` and the
flag `left`: none after a store outside `string`, otherwise `ERROR` when
`return ERROR` was executed and `SUCCESS` at the end of the function. -/
def loader_ret (r : reader) (left : Bool) : Option Int :=
  if r.overrun then none
  else some (if left then nn_handler_ERROR else nn_handler_SUCCESS)

/-- The locals of a loader on entry; `string0` is the initial content of the
buffer. -/
def reader_init (fp : stream) (string0 : Nat → Char) : reader :=
  { fp := fp, string := string0, char_count := 0, ch := Char.ofNat 0, writes := [],
    overrun := false }

/-- Function `load_input_sinapsi(fp, target)` on `net = neural_network[target]`. -/
def load_input_sinapsi {F : Type} (atof : List Char → F) (fp : stream) (net : network_t F) :
    load_result F :=
  let res := load_sinapsi atof weight_loop (reader_init fp (fun _ => Char.ofNat 0), net.in_S)
  { ret := loader_ret res.1.1 res.2,
    fp := res.1.1.fp, net := { net with in_S := res.1.2 }, writes := res.1.1.writes }

/-- Body of the `k` loop of `load_hidden_sinapsi`: loading of `hid_S[k]`. -/
def load_hidden_k {F : Type} (atof : List Char → F) (k : Nat)
    (st : reader × (Nat → sinapsi_t F)) : (reader × (Nat → sinapsi_t F)) × Bool :=
  let res := load_sinapsi atof weight_loop_hidden (st.1, st.2 k)
  ((res.1.1, arr_set st.2 k res.1.2), res.2)

/-- Function `load_hidden_sinapsi(fp, target)`; `string0` is the indeterminate initial
content of its buffer. -/
def load_hidden_sinapsi {F : Type} (atof : List Char → F) (string0 : Nat → Char)
    (fp : stream) (net : network_t F) : load_result F :=
  let res := for_return (load_hidden_k atof) 0 (net.num_hidden - 1)
    (reader_init fp string0, net.hid_S)
  { ret := loader_ret res.1.1 res.2,
    fp := res.1.1.fp, net := { net with hid_S := res.1.2 }, writes := res.1.1.writes }

/-- Function `load_out_sinapsi(fp, target)`; `string0` is the indeterminate initial
content of its buffer. -/
def load_out_sinapsi {F : Type} (atof : List Char → F) (string0 : Nat → Char)
    (fp : stream) (net : network_t F) : load_result F :=
  let res := load_sinapsi atof weight_loop (reader_init fp string0, net.out_S)
  { ret := loader_ret res.1.1 res.2,
    fp := res.1.1.fp, net := { net with out_S := res.1.2 }, writes := res.1.1.writes }

/-- State of a loader between two fields of a file that goes on with `m`
newline characters: nothing pending in `string`, sizes of the sinapsi as they
were in `S`, no store outside `string` so far. -/
def between_fields {F : Type} (S : sinapsi_t F) (m : Nat) (st : reader × sinapsi_t F) : Prop :=
  st.1.fp = List.replicate m '\n' ∧ st.1.char_count = 0 ∧
  st.2.card_in = S.card_in ∧ st.2.card_out = S.card_out ∧ st.1.overrun = false

/-- Number of fields (weights and biases) a loader reads for a sinapsi. -/
def sinapsi_fields {F : Type} (S : sinapsi_t F) : Nat := S.card_out * (S.card_in + 1)

/-- Number of fields read for the hidden sinapsi `hid_S[0] .. hid_S[k-1]`. -/
def hidden_fields {F : Type} (hid_S : Nat → sinapsi_t F) : Nat → Nat
  | 0 => 0
  | k + 1 => hidden_fields hid_S k + sinapsi_fields (hid_S k)

/-- Number of fields the three loaders read for a model. -/
def model_fields {F : Type} (net : network_t F) : Nat :=
  sinapsi_fields net.in_S + hidden_fields net.hid_S (net.num_hidden - 1) +
    sinapsi_fields net.out_S

/-- Two networks have the same sizes of sinapsi and the same number of hidden
layers. -/
def same_sizes {F : Type} (a b : network_t F) : Prop :=
  a.num_hidden = b.num_hidden ∧
  a.in_S.card_in = b.in_S.card_in ∧ a.in_S.card_out = b.in_S.card_out ∧
  (∀ k, (a.hid_S k).card_in = (b.hid_S k).card_in ∧ (a.hid_S k).card_out = (b.hid_S k).card_out) ∧
  a.out_S.card_in = b.out_S.card_in ∧ a.out_S.card_out = b.out_S.card_out

/-! ### Forward pass -/

/-- Function `logistic_function`. -/
def logistic_function {F : Type} [LinearOrderedField F] (exp : F → F) (z : F) : F :=
  1 / (1 + exp (-z))

/-- Function `softmax`. -/
def softmax {F : Type} [LinearOrderedField F] (exp : F → F) (z sum max : F) : F :=
  exp (z + max) / sum

/-- The value of `sum_up` for output neuron `i` of a sinapsi fed with the
activations `act`: 0, plus `weights[i][j] * act[j]` for `j` from 0 to
`card_in - 1` in this order, plus `bias[i]`. -/
def sum_up {F : Type} [LinearOrderedField F] (S : sinapsi_t F) (act : Nat → F) (i : Nat) : F :=
  for_loop (fun j acc => acc + S.weights i j * act j) S.card_in 0 + S.bias i

/-- Function `propagate_from_in_layer` on the active network. -/
def propagate_from_in_layer {F : Type} [LinearOrderedField F] (exp : F → F)
    (net : network_t F) : network_t F :=
  for_loop (fun i n =>
      let s := sum_up n.in_S n.in_L.act_value i
      { n with
        hid_L := arr_set n.hid_L 0
          { n.hid_L 0 with
            z_value := arr_set (n.hid_L 0).z_value i s
            act_value := arr_set (n.hid_L 0).act_value i (logistic_function exp s) } })
    net.in_S.card_out net

/-- Function `propagate_into_hid_layer` on the active network. -/
def propagate_into_hid_layer {F : Type} [LinearOrderedField F] (exp : F → F)
    (net : network_t F) : network_t F :=
  for_loop (fun k n0 =>
      for_loop (fun i n =>
          let s := sum_up (n.hid_S k) (n.hid_L k).act_value i
          { n with
            hid_L := arr_set n.hid_L (k + 1)
              { n.hid_L (k + 1) with
                z_value := arr_set (n.hid_L (k + 1)).z_value i s
                act_value := arr_set (n.hid_L (k + 1)).act_value i (logistic_function exp s) } })
        (n0.hid_S k).card_out n0)
    (net.num_hidden - 1) net

/-- First loop of `propagate_to_out_layer`: the raw scores are stored in
`out_L.z_value` and `max_softmax`, which starts at 0, follows their maximum.
The result is the network and `max_softmax`. -/
def out_scores {F : Type} [LinearOrderedField F] (net : network_t F) : network_t F × F :=
  for_loop (fun i (st : network_t F × F) =>
      let s := sum_up st.1.out_S (st.1.hid_L (net.num_hidden - 1)).act_value i
      ({ st.1 with out_L := { st.1.out_L with z_value := arr_set st.1.out_L.z_value i s } },
       if st.2 < s then s else st.2))
    net.out_S.card_out (net, 0)

/-- Second loop of `propagate_to_out_layer`: `sum_softmax`, which starts at 0. -/
def out_sum {F : Type} [LinearOrderedField F] (exp : F → F) (net : network_t F)
    (max_softmax : F) : F :=
  for_loop (fun i acc => acc + exp (net.out_L.z_value i + max_softmax)) net.out_S.card_out 0

/-- Function `propagate_to_out_layer` on the active network. -/
def propagate_to_out_layer {F : Type} [LinearOrderedField F] (exp : F → F)
    (net : network_t F) : network_t F :=
  let net1 := (out_scores net).1
  let max_softmax := (out_scores net).2
  let sum_softmax := out_sum exp net1 max_softmax
  for_loop (fun i n =>
      { n with
        out_L :=
          { n.out_L with
            act_value := arr_set n.out_L.act_value i
              (softmax exp (n.out_L.z_value i) sum_softmax max_softmax) } })
    net1.out_S.card_out net1

/-- The loops of `recognize_character` that fill the input layer; `image i j`
tells whether `getpixel(image, i, j) == BLACK`. -/
def fill_input {F : Type} [LinearOrderedField F] (image : Nat → Nat → Bool)
    (net : network_t F) : network_t F :=
  for_loop (fun i n0 =>
      for_loop (fun j n =>
          let v : F := if image i j then 1 else 0
          { n with
            in_L :=
              { n.in_L with
                z_value := arr_set n.in_L.z_value (i * INPUT_DIM + j) v
                act_value := arr_set n.in_L.act_value (i * INPUT_DIM + j) v } })
        INPUT_DIM n0)
    INPUT_DIM net

/-- The search loop of `recognize_character`: `max_prob`, which starts at 0,
and `max_prob_index`, which starts at -1. -/
def max_search {F : Type} [LinearOrderedField F] (L : layer_t F) : F × Int :=
  for_loop (fun i (st : F × Int) =>
      if st.1 < L.act_value i then (L.act_value i, (i : Int)) else st)
    L.num_neuron (0, -1)

/-- Entry `i` of a symbol table.  The tables are read only at an index that
`max_search` returns, which is below `out_L.num_neuron`. -/
def map_at (map : List Char) (i : Int) : Char := map.getD i.toNat (Char.ofNat 0)

/-- Function `recognize_character`. -/
def recognize_character {F : Type} [LinearOrderedField F] (exp : F → F)
    (image : Nat → Nat → Bool) (s : nn_state F) : nn_state F :=
  let s1 : nn_state F := { s with active_net := s.requested_model }
  let net := propagate_to_out_layer exp (propagate_into_hid_layer exp
    (propagate_from_in_layer exp (fill_input image (s1.neural_network s1.active_net))))
  let s2 : nn_state F :=
    { s1 with neural_network := net_upd s1.neural_network s1.active_net (fun _ => net) }
  let max_prob := (max_search net.out_L).1
  let max_prob_index := (max_search net.out_L).2
  match s2.active_net with
  | network_target.DIGITS =>
    if max_prob_index ≥ 0 then
      { s2 with nn_result := { rec_char := map_at digits_map max_prob_index, prob := max_prob * 100 } }
    else s2
  | network_target.LETTERS =>
    if max_prob_index ≥ 0 then
      { s2 with nn_result := { rec_char := map_at letters_map max_prob_index, prob := max_prob * 100 } }
    else s2
  | network_target.MIXED =>
    if max_prob_index ≥ 0 then
      { s2 with nn_result := { rec_char := map_at mixed_map max_prob_index, prob := max_prob * 100 } }
    else s2

/-! ### Inputs used to exercise the forward pass -/

/-- A sinapsi with sizes 0 and all weights and biases 0. -/
def zero_sinapsi {F : Type} [LinearOrderedField F] : sinapsi_t F :=
  { weights := fun _ _ => 0, bias := fun _ => 0, card_in := 0, card_out := 0 }

/-- A layer with no neuron and all values 0. -/
def zero_layer {F : Type} [LinearOrderedField F] : layer_t F :=
  { z_value := fun _ => 0, act_value := fun _ => 0, num_neuron := 0 }

/-- A `network_t` as C static storage holds it at program start: all zero. -/
def zero_network {F : Type} [LinearOrderedField F] : network_t F :=
  { in_S := zero_sinapsi, hid_S := fun _ => zero_sinapsi, out_S := zero_sinapsi,
    in_L := zero_layer, hid_L := fun _ => zero_layer, out_L := zero_layer, num_hidden := 0 }

/-- The DIGITS model with the sizes given by `init_digits_net`, all weights 0,
all hidden biases 0 and every output bias equal to `b`. -/
def digits_net_with_out_bias {F : Type} [LinearOrderedField F] (b : F) : network_t F :=
  let n : network_t F := init_digits_net (fun _ => zero_network) network_target.DIGITS
  { n with out_S := { n.out_S with bias := fun _ => b } }

/-- Globals of nn_handler.c in which the DIGITS model is
`digits_net_with_out_bias b`, DIGITS is the requested model and `nn_result`
holds `r`. -/
def digits_state_with_out_bias {F : Type} [LinearOrderedField F] (b : F)
    (r : data_network_t F) : nn_state F :=
  { neural_network := fun _ => digits_net_with_out_bias b,
    active_net := network_target.LETTERS,
    requested_model := network_target.DIGITS,
    nn_result := r }

/-- A function that, like the C library `exp` on doubles, gives exactly 0 for
arguments of at most -746 (the result underflows); its other values play no
role where it is used. -/
def exp_with_underflow {F : Type} [LinearOrderedField F] (x : F) : F :=
  if x ≤ -746 then 0 else 1

/-! ### `init_networks` -/

/-- What `init_networks` gets from outside: `atof`, the result of the three
`fopen` calls (`none` is NULL) and the indeterminate initial content of the
buffers that `load_hidden_sinapsi` and `load_out_sinapsi` leave uninitialised. -/
structure nn_env (F : Type) where
  atof : List Char → F
  digits_file : Option stream
  letters_file : Option stream
  mixed_file : Option stream
  string0 : Nat → Char

/-- The three loader calls `init_networks` makes for one model on an open
stream.  The flag is `some true` when one of them returned `ERROR`, in which
case `init_networks` returns `NN_ERROR_READING_FILE`, `some false` when none
did, and `none` when one of them stored outside its array `string` (undefined
behaviour). -/
def load_model {F : Type} (atof : List Char → F) (string0 : Nat → Char) (fp : stream)
    (net : network_t F) : network_t F × Option Bool :=
  let r1 := load_input_sinapsi atof fp net
  if r1.ret = none then (r1.net, none)
  else if r1.ret = some nn_handler_ERROR then (r1.net, some true)
  else
    let r2 := load_hidden_sinapsi atof string0 r1.fp r1.net
    if r2.ret = none then (r2.net, none)
    else if r2.ret = some nn_handler_ERROR then (r2.net, some true)
    else
      let r3 := load_out_sinapsi atof string0 r2.fp r2.net
      if r3.ret = none then (r3.net, none)
      else if r3.ret = some nn_handler_ERROR then (r3.net, some true)
      else (r3.net, some false)

/-- How `init_networks` ends: it returns, or it passes a NULL stream to a
loader and to `fclose` (undefined behaviour), or a loader stores outside its
array `string` (undefined behaviour). -/
inductive init_networks_result (F : Type) where
  | returned (ret : Int) (s : nn_state F)
  | null_stream_used (s : nn_state F)
  | buffer_overrun (s : nn_state F)

/-- The value `init_networks` returns, when it returns. -/
def init_networks_result.ret {F : Type} : init_networks_result F → Option Int
  | init_networks_result.returned r _ => some r
  | init_networks_result.null_stream_used _ => none
  | init_networks_result.buffer_overrun _ => none

/-- Last part of `init_networks`, from `fp = fopen(mixed_filename, "r")` to the
end; `nn2` is the array `neural_network` at that point. -/
def init_networks_mixed {F : Type} (env : nn_env F) (s : nn_state F)
    (nn2 : network_target → network_t F) : init_networks_result F :=
  match env.mixed_file with
  | none => init_networks_result.null_stream_used { s with neural_network := nn2 }
  | some fpm =>
    let m := load_model env.atof env.string0 fpm (nn2 network_target.MIXED)
    let nn3 := net_upd nn2 network_target.MIXED (fun _ => m.1)
    if m.2 = none then
      init_networks_result.buffer_overrun { s with neural_network := nn3 }
    else if m.2 = some true then
      init_networks_result.returned NN_ERROR_READING_FILE { s with neural_network := nn3 }
    else
      init_networks_result.returned nn_handler_SUCCESS
        { s with neural_network := nn3, active_net := network_target.DIGITS }

/-- Middle part of `init_networks`, from `fp = fopen(letters_filename, "r")`
on; `nn1` is the array `neural_network` at that point. -/
def init_networks_letters {F : Type} (env : nn_env F) (s : nn_state F)
    (nn1 : network_target → network_t F) : init_networks_result F :=
  match env.letters_file with
  | none => init_networks_result.null_stream_used { s with neural_network := nn1 }
  | some fpl =>
    let l := load_model env.atof env.string0 fpl (nn1 network_target.LETTERS)
    let nn2 := net_upd nn1 network_target.LETTERS (fun _ => l.1)
    if l.2 = none then
      init_networks_result.buffer_overrun { s with neural_network := nn2 }
    else if l.2 = some true then
      init_networks_result.returned NN_ERROR_READING_FILE { s with neural_network := nn2 }
    else init_networks_mixed env s nn2

/-- Function `init_networks`. -/
def init_networks {F : Type} (env : nn_env F) (s : nn_state F) : init_networks_result F :=
  let nn0 := init_mixed_net (init_letters_net (init_digits_net s.neural_network))
  match env.digits_file with
  | none => init_networks_result.returned NN_ERROR_NO_FILE { s with neural_network := nn0 }
  | some fpd =>
    let d := load_model env.atof env.string0 fpd (nn0 network_target.DIGITS)
    let nn1 := net_upd nn0 network_target.DIGITS (fun _ => d.1)
    if d.2 = none then
      init_networks_result.buffer_overrun { s with neural_network := nn1 }
    else if d.2 = some true then
      init_networks_result.returned NN_ERROR_READING_FILE { s with neural_network := nn1 }
    else init_networks_letters env s nn1

/-- The environment of `init_networks` in which the three files are open and
hold nothing but newline characters, that is empty fields (which `atof` reads
as it reads the empty string): `nd`, `nl` and `nm` of them. -/
def newline_files {F : Type} (atof : List Char → F) (string0 : Nat → Char)
    (nd nl nm : Nat) : nn_env F :=
  { atof := atof,
    digits_file := some (List.replicate nd '\n'),
    letters_file := some (List.replicate nl '\n'),
    mixed_file := some (List.replicate nm '\n'),
    string0 := string0 }

/-! ## hand_written_recognition.c: `init` -/

/-- The macro `SUCCESS` local to hand_written_recognition.c. -/
def hwr_SUCCESS : Int := 0
/-- The macro `ERROR` local to hand_written_recognition.c. -/
def hwr_ERROR : Int := 1
/-- Constant `CAM_SUCCESS` (raspi_cam.h). -/
def CAM_SUCCESS : Int := 0
/-- Constant `CAM_ERROR` (raspi_cam.h). -/
def CAM_ERROR : Int := 1

/-- The globals `init` works on: the termination flag `completed`, `ROI_dim`,
the scheduler globals and the globals of nn_handler.c. -/
structure app_state (F : Type) where
  completed : Int
  ROI_dim : sqr_center_t
  sched : ptask_state
  nn : nn_state F

/-- Function `display_error`: the new value of `completed`. -/
def display_error (return_value : Int) (completed : Int) : Int :=
  if return_value = DISPLAY_ERROR_NO_FONT_FILE ∨ return_value = DISPLAY_ERROR_CREATE_BITMAP ∨
      return_value = DISPLAY_ERROR_SHOW_VIDEO then 1
  else completed

/-- Function `cam_error`: the new value of `completed`. -/
def cam_error (return_value : Int) (completed : Int) : Int :=
  if return_value = CAM_ERROR then 1 else completed

/-- Function `nn_error`: the new value of `completed`. -/
def nn_error (return_value : Int) (completed : Int) : Int :=
  if return_value = NN_ERROR_NO_FILE ∨ return_value = NN_ERROR_READING_FILE then 1
  else completed

/-- What `init` gets from outside: the answers of Allegro to `init_display`,
the value returned by `raspi_cam_create_camera_capture`, the environment of
`init_networks` and the status of the four `pthread_create` calls. -/
structure init_env (F : Type) where
  display : display_env
  cam_ret : Int
  nn : nn_env F
  pthread_ret : Fin 4 → Int

/-- How `init` ends: it returns, or `init_networks` ends in one of its two
undefined behaviours, or the `assert` of `task_create` fails. -/
inductive init_result (F : Type) where
  | returned (ret : Int) (s : app_state F)
  | null_stream_used (s : app_state F)
  | buffer_overrun (s : app_state F)
  | assert_failed (s : app_state F)

/-- The value `init` returns, when it returns. -/
def init_result.ret {F : Type} : init_result F → Option Int
  | init_result.returned r _ => some r
  | init_result.null_stream_used _ => none
  | init_result.buffer_overrun _ => none
  | init_result.assert_failed _ => none

/-- The globals at the point where `init` ends. -/
def init_result.globals {F : Type} : init_result F → app_state F
  | init_result.returned _ s => s
  | init_result.null_stream_used s => s
  | init_result.buffer_overrun s => s
  | init_result.assert_failed s => s

/-- The four `task_create` calls at the end of `init`. -/
def create_tasks {F : Type} (pthread_ret : Fin 4 → Int) (s : app_state F) : init_result F :=
  match task_create s.sched 40 40 90 (pthread_ret 0) with
  | create_result.assert_failed t => init_result.assert_failed { s with sched := t }
  | create_result.returned t1 _ =>
    match task_create t1 500 200 70 (pthread_ret 1) with
    | create_result.assert_failed t => init_result.assert_failed { s with sched := t }
    | create_result.returned t2 _ =>
      match task_create t2 40 40 50 (pthread_ret 2) with
      | create_result.assert_failed t => init_result.assert_failed { s with sched := t }
      | create_result.returned t3 _ =>
        match task_create t3 40 40 10 (pthread_ret 3) with
        | create_result.assert_failed t => init_result.assert_failed { s with sched := t }
        | create_result.returned t4 _ => init_result.returned hwr_SUCCESS { s with sched := t4 }

/-- Function `init`.  The Allegro set-up calls and the allocation of the local bitmaps
have no effect on the globals represented. -/
def init {F : Type} (env : init_env F) (s : app_state F) : init_result F :=
  let d := init_display env.display s.ROI_dim
  let s1 : app_state F := { s with ROI_dim := d.1, completed := display_error d.2 s.completed }
  if d.2 ≠ DISPLAY_SUCCESS then init_result.returned hwr_ERROR s1
  else
    let s2 : app_state F := { s1 with completed := cam_error env.cam_ret s1.completed }
    if env.cam_ret ≠ CAM_SUCCESS then init_result.returned hwr_ERROR s2
    else
      match init_networks env.nn s2.nn with
      | init_networks_result.null_stream_used n => init_result.null_stream_used { s2 with nn := n }
      | init_networks_result.buffer_overrun n => init_result.buffer_overrun { s2 with nn := n }
      | init_networks_result.returned error n =>
        let s3 : app_state F := { s2 with nn := n, completed := nn_error error s2.completed }
        if error ≠ NN_SUCCESS then init_result.returned hwr_ERROR s3
        else create_tasks env.pthread_ret s3

/-- An environment of `init` in which everything works: Allegro provides every
resource, the camera starts, the three weight files are open and hold one
(empty) field for every weight and bias of their model. -/
def all_loaders_succeed {F : Type} (atof : List Char → F) (string0 : Nat → Char)
    (pthread_ret : Fin 4 → Int) : init_env F :=
  { display := display_env_ok,
    cam_ret := CAM_SUCCESS,
    nn := newline_files atof string0 52650 136858 951343,
    pthread_ret := pthread_ret }

/-! ## The double-buffered result: `nn_task` and `draw_display` interleaved

The inference worker and the render worker are two threads.  Each access of
a shared variable is one atomic step of the thread that makes it, and an
execution is any sequence of such steps, chosen by a schedule.  The values the
inference worker stores in a slot are represented by the number of the
inference cycle that stores them (0 for the initial content), so that a pair
of fields written by two different cycles shows. -/

/-- The two threads. -/
inductive thread where
  | nn
  | display
deriving DecidableEq

/-- One element of `display_nn_data`: for each field, the inference cycle
whose value it holds. -/
structure display_network_t where
  rec_char : Nat
  prob : Nat
  image_radius : Nat
deriving DecidableEq

/-- Where `nn_task` stands in its loop body, as far as the result buffer goes:
the three assignments to `display_nn_data[index_result]`, the lock, the update
of `current_result`, the unlock, the update of `index_result` (followed by the
rest of the loop and the computation of the next cycle). -/
inductive nn_pc where
  | write_rec_char
  | write_prob
  | write_image_radius
  | lock
  | flip
  | unlock
  | next
deriving DecidableEq

/-- Where `draw_display` stands in the block guarded by `current_result_mutex`:
the lock, then for each of the three fields the read of `current_result` and
the read of the field of that slot, then the unlock. -/
inductive display_pc where
  | lock
  | index_for_radius
  | read_image_radius
  | index_for_rec_char
  | read_rec_char
  | index_for_prob
  | read_prob
  | unlock
deriving DecidableEq

/-- The shared variables `current_result`, `display_nn_data` and
`current_result_mutex` (its owner), the locals of `nn_task` (`index_result`
and the number of the current inference cycle) and of `draw_display` (the
index last read and the three values read). -/
structure buffer_state where
  current_result : Nat
  display_nn_data : Nat → display_network_t
  current_result_mutex : Option thread
  nn_at : nn_pc
  index_result : Nat
  cycle : Nat
  display_at : display_pc
  index_read : Nat
  acq_radius_local : Nat
  rec_char : Nat
  rec_prob : Nat

/-- The state when both threads start: `current_result = 0`,
`index_result = 1`, both slots with their initial content, the mutex free,
the inference worker in its first cycle. -/
def buffer_init : buffer_state :=
  { current_result := 0,
    display_nn_data := fun _ => { rec_char := 0, prob := 0, image_radius := 0 },
    current_result_mutex := none,
    nn_at := nn_pc.write_rec_char, index_result := 1, cycle := 1,
    display_at := display_pc.lock, index_read := 0,
    acq_radius_local := 0, rec_char := 0, rec_prob := 0 }

/-- One step of `nn_task`.  A `pthread_mutex_lock` on a mutex that is held
does not advance. -/
def nn_task_step (s : buffer_state) : buffer_state :=
  match s.nn_at with
  | nn_pc.write_rec_char =>
    { s with
      display_nn_data := arr_set s.display_nn_data s.index_result
        { s.display_nn_data s.index_result with rec_char := s.cycle }
      nn_at := nn_pc.write_prob }
  | nn_pc.write_prob =>
    { s with
      display_nn_data := arr_set s.display_nn_data s.index_result
        { s.display_nn_data s.index_result with prob := s.cycle }
      nn_at := nn_pc.write_image_radius }
  | nn_pc.write_image_radius =>
    { s with
      display_nn_data := arr_set s.display_nn_data s.index_result
        { s.display_nn_data s.index_result with image_radius := s.cycle }
      nn_at := nn_pc.lock }
  | nn_pc.lock =>
    match s.current_result_mutex with
    | none => { s with current_result_mutex := some thread.nn, nn_at := nn_pc.flip }
    | some _ => s
  | nn_pc.flip =>
    { s with current_result := (s.current_result + 1) % 2, nn_at := nn_pc.unlock }
  | nn_pc.unlock =>
    { s with current_result_mutex := none, nn_at := nn_pc.next }
  | nn_pc.next =>
    { s with index_result := (s.index_result + 1) % 2, cycle := s.cycle + 1,
             nn_at := nn_pc.write_rec_char }

/-- One step of the guarded block of `draw_display`. -/
def draw_display_step (s : buffer_state) : buffer_state :=
  match s.display_at with
  | display_pc.lock =>
    match s.current_result_mutex with
    | none =>
      { s with current_result_mutex := some thread.display,
               display_at := display_pc.index_for_radius }
    | some _ => s
  | display_pc.index_for_radius =>
    { s with index_read := s.current_result, display_at := display_pc.read_image_radius }
  | display_pc.read_image_radius =>
    { s with acq_radius_local := (s.display_nn_data s.index_read).image_radius,
             display_at := display_pc.index_for_rec_char }
  | display_pc.index_for_rec_char =>
    { s with index_read := s.current_result, display_at := display_pc.read_rec_char }
  | display_pc.read_rec_char =>
    { s with rec_char := (s.display_nn_data s.index_read).rec_char,
             display_at := display_pc.index_for_prob }
  | display_pc.index_for_prob =>
    { s with index_read := s.current_result, display_at := display_pc.read_prob }
  | display_pc.read_prob =>
    { s with rec_prob := (s.display_nn_data s.index_read).prob,
             display_at := display_pc.unlock }
  | display_pc.unlock =>
    { s with current_result_mutex := none, display_at := display_pc.lock }

/-- One step of the thread the scheduler picks. -/
def buffer_step (s : buffer_state) (t : thread) : buffer_state :=
  match t with
  | thread.nn => nn_task_step s
  | thread.display => draw_display_step s

/-- The state reached from the start under a schedule. -/
def buffer_run (schedule : List thread) : buffer_state :=
  schedule.foldl buffer_step buffer_init

/-- The invariant of the two threads on the result buffer. -/
def buffer_inv (s : buffer_state) : Prop :=
  s.current_result < 2 ∧ s.index_result < 2 ∧
  ((s.nn_at = nn_pc.flip ∨ s.nn_at = nn_pc.unlock) ↔ s.current_result_mutex = some thread.nn) ∧
  ((s.display_at ≠ display_pc.lock) ↔ s.current_result_mutex = some thread.display) ∧
  ((s.nn_at = nn_pc.unlock ∨ s.nn_at = nn_pc.next) → s.index_result = s.current_result) ∧
  (¬ (s.nn_at = nn_pc.unlock ∨ s.nn_at = nn_pc.next) → s.index_result ≠ s.current_result) ∧
  (s.display_nn_data s.current_result).rec_char = (s.display_nn_data s.current_result).prob ∧
  (s.nn_at = nn_pc.write_prob → (s.display_nn_data s.index_result).rec_char = s.cycle) ∧
  (s.nn_at = nn_pc.write_image_radius →
    (s.display_nn_data s.index_result).rec_char = s.cycle ∧
    (s.display_nn_data s.index_result).prob = s.cycle) ∧
  ((s.nn_at = nn_pc.lock ∨ s.nn_at = nn_pc.flip) →
    (s.display_nn_data s.index_result).rec_char = s.cycle ∧
    (s.display_nn_data s.index_result).prob = s.cycle) ∧
  ((s.display_at = display_pc.read_image_radius ∨ s.display_at = display_pc.read_rec_char ∨
      s.display_at = display_pc.read_prob) → s.index_read = s.current_result) ∧
  ((s.display_at = display_pc.index_for_prob ∨ s.display_at = display_pc.read_prob) →
    s.rec_char = (s.display_nn_data s.current_result).rec_char) ∧
  (s.display_at = display_pc.unlock → s.rec_char = s.rec_prob)

end HWR

namespace HWR

/-! ## user.c: case labels and property range -/

/-- The labels of the `switch` of `key_pressed`, in the order of the source.
A C compiler rejects a `switch` with two equal labels. -/
def key_codes.case_labels (K : key_codes) : List Int :=
  [K.KEY_ESC, K.KEY_X, K.KEY_C, K.KEY_V, K.KEY_B, K.KEY_D, K.KEY_F, K.KEY_A, K.KEY_S,
   K.KEY_LEFT, K.KEY_RIGHT, K.KEY_UP, K.KEY_DOWN, K.KEY_PLUS_PAD, 65, K.KEY_MINUS_PAD, 61]

/-- The four camera properties each lie in 0..100. -/
def properties_in_range (s : user_state) : Prop :=
  (0 ≤ s.contrast_value ∧ s.contrast_value ≤ 100) ∧
  (0 ≤ s.brightness_value ∧ s.brightness_value ≤ 100) ∧
  (0 ≤ s.saturation_value ∧ s.saturation_value ≤ 100) ∧
  (0 ≤ s.sharpness_value ∧ s.sharpness_value ≤ 100)

instance (s : user_state) : Decidable (properties_in_range s) := by
  unfold properties_in_range; infer_instance

/-! ## MLP/NN.c: `save_file`, the writer of the weight files -/

/-- The struct `TypeSinapsiMatrix` of MLP/NN.c as far as `save_file` reads it;
`V` stands for the C type `double`. -/
structure type_sinapsi (V : Type) where
  weights : Nat → Nat → V
  bias : Nat → V
  card_in : Nat
  card_out : Nat

/-- The `j` loop of `save_file` for output neuron `i` of a sinapsi: the file
content `f` followed by the weights, each printed by `fmt` (the conversion
`%2.4f` of `fprintf`) and followed by `'_'`, the last one by a newline. -/
def save_weights {V : Type} (fmt : V → List Char) (S : type_sinapsi V) (i : Nat)
    (f : List Char) : List Char :=
  for_loop (fun j f1 =>
      if (j : Int) ≠ (S.card_in : Int) - 1 then f1 ++ fmt (S.weights i j) ++ ['_']
      else f1 ++ fmt (S.weights i j) ++ ['\n'])
    S.card_in f

/-- The `i` loop of `save_file` for one sinapsi: for every output neuron its
weights, then its bias on a line of its own. -/
def save_sinapsi {V : Type} (fmt : V → List Char) (S : type_sinapsi V) (f : List Char) :
    List Char :=
  for_loop (fun i f1 => save_weights fmt S i f1 ++ fmt (S.bias i) ++ ['\n']) S.card_out f

/-- The last line `save_file` writes: the accuracy printed by `fmt_accuracy`
(the conversion `%2.2f`), then `% of accuracy!` and a newline. -/
def accuracy_line {V : Type} (fmt_accuracy : V → List Char) (accuracy : V) : List Char :=
  fmt_accuracy accuracy ++
    ['%', ' ', 'o', 'f', ' ', 'a', 'c', 'c', 'u', 'r', 'a', 'c', 'y', '!', '\n']

/-- Function `save_file`: the content of the file written (the file is taken to open).
`fmt` is the conversion `%2.4f` and `fmt_accuracy` the conversion `%2.2f`. -/
def save_file {V : Type} (fmt fmt_accuracy : V → List Char) (sinapsi : Nat → type_sinapsi V)
    (num_sinapsi : Nat) (accuracy : V) : List Char :=
  for_loop (fun k f => save_sinapsi fmt (sinapsi k) f) num_sinapsi [] ++
    accuracy_line fmt_accuracy accuracy

/-! ### The file format, field by field -/

/-- A field holds neither a separator of the format (`'_'`, newline) nor a NUL
character. -/
def plain_field (f : List Char) : Prop :=
  (∀ c, c ∈ f → c ≠ '_' ∧ c ≠ '\n') ∧ ∀ c, c ∈ f → (c != Char.ofNat 0) = true

/-- The character that follows weight `j` of a record of `card_in` weights. -/
def separator (card_in j : Nat) : Char :=
  if (j : Int) ≠ (card_in : Int) - 1 then '_' else '\n'

/-- The weight fields `first .. first + count - 1` of a record, each with the
character that follows it; `W j` is the text of field `j`. -/
def weights_chars (W : Nat → List Char) (card_in first count : Nat) : List Char :=
  (List.range' first count).flatMap (fun j => W j ++ [separator card_in j])

/-- One record: `card_in` weight fields, then the bias field and a newline. -/
def neuron_chars (W : Nat → List Char) (B : List Char) (card_in : Nat) : List Char :=
  weights_chars W card_in 0 card_in ++ (B ++ ['\n'])

/-- The records `first .. first + count - 1` of a transition. -/
def sinapsi_chars (W : Nat → Nat → List Char) (B : Nat → List Char) (card_in first count : Nat) :
    List Char :=
  (List.range' first count).flatMap (fun i => neuron_chars (W i) (B i) card_in)

/-- The transitions `first .. first + count - 1` of the array `sinapsi`, as
`save_file` prints them. -/
def transitions_chars {V : Type} (fmt : V → List Char) (sinapsi : Nat → type_sinapsi V)
    (first count : Nat) : List Char :=
  (List.range' first count).flatMap (fun k =>
    sinapsi_chars (fun i j => fmt ((sinapsi k).weights i j)) (fun i => fmt ((sinapsi k).bias i))
      (sinapsi k).card_in 0 (sinapsi k).card_out)

/-- Every field of transition `S` printed by `fmt` has at most `n` characters.
The specification allows 10; the 10 cells of `string` hold a field of at most
9 characters and its terminating NUL. -/
def short_fields {V : Type} (n : Nat) (fmt : V → List Char) (S : type_sinapsi V) : Prop :=
  (∀ i j, i < S.card_out → j < S.card_in → (fmt (S.weights i j)).length ≤ n) ∧
  ∀ i, i < S.card_out → (fmt (S.bias i)).length ≤ n

/-- Some field of transition `S` printed by `fmt` has more than 10 characters. -/
def long_field {V : Type} (fmt : V → List Char) (S : type_sinapsi V) : Prop :=
  (∃ i j, i < S.card_out ∧ j < S.card_in ∧ 10 < (fmt (S.weights i j)).length) ∨
  ∃ i, i < S.card_out ∧ 10 < (fmt (S.bias i)).length

/-- The sinapsi `T` of the recognizer has the sizes of the transition `S` of
the trainer and holds, in `weights[i][j]` and `bias[i]`, the value `atof` gives
for the text `fmt` printed for the same cell of `S`. -/
def holds_values {V F : Type} (atof : List Char → F) (fmt : V → List Char)
    (S : type_sinapsi V) (T : sinapsi_t F) : Prop :=
  T.card_in = S.card_in ∧ T.card_out = S.card_out ∧
  (∀ i j, i < S.card_out → j < S.card_in → T.weights i j = atof (fmt (S.weights i j))) ∧
  ∀ i, i < S.card_out → T.bias i = atof (fmt (S.bias i))

/-- The array `sinapsi` of the trainer has the sizes of the model `net` of the
recognizer: `sinapsi[0]` those of `in_S`, `sinapsi[k+1]` those of `hid_S[k]`
for `k < num_hidden - 1`, and `sinapsi[num_hidden]` those of `out_S`. -/
def same_topology {V F : Type} (sinapsi : Nat → type_sinapsi V) (net : network_t F) : Prop :=
  1 ≤ net.num_hidden ∧
  (sinapsi 0).card_in = net.in_S.card_in ∧ (sinapsi 0).card_out = net.in_S.card_out ∧
  (∀ k, k < net.num_hidden - 1 →
    (sinapsi (k + 1)).card_in = (net.hid_S k).card_in ∧
    (sinapsi (k + 1)).card_out = (net.hid_S k).card_out) ∧
  (sinapsi net.num_hidden).card_in = net.out_S.card_in ∧
  (sinapsi net.num_hidden).card_out = net.out_S.card_out

end HWR

namespace HWR

/-! ### Inputs used to exercise the loaders -/

/-- A printer that writes the natural number `v` as `v` characters `'7'`. -/
def sevens (v : Nat) : List Char := List.replicate v '7'

/-- A reader that gives the number of characters of a field. -/
def count_chars (f : List Char) : ℚ := (f.length : ℚ)

/-- A model with two inputs, two hidden layers of one neuron each and one
output neuron, all values zero. -/
def tiny_net : network_t ℚ :=
  { in_S := { weights := fun _ _ => 0, bias := fun _ => 0, card_in := 2, card_out := 1 },
    hid_S := fun _ => { weights := fun _ _ => 0, bias := fun _ => 0, card_in := 1, card_out := 1 },
    out_S := { weights := fun _ _ => 0, bias := fun _ => 0, card_in := 1, card_out := 1 },
    in_L := zero_layer, hid_L := fun _ => zero_layer, out_L := zero_layer, num_hidden := 2 }

/-- The array `sinapsi` of a trainer for the model `tiny_net`: weight `j` of
every record is `j + 1` and the biases of transition `k` are `b k`. -/
def tiny_sinapsi (b : Nat → Nat) (k : Nat) : type_sinapsi Nat :=
  { weights := fun _ j => j + 1, bias := fun _ => b k,
    card_in := if k = 0 then 2 else 1, card_out := 1 }

/-- The array `sinapsi` of a trainer for the DIGITS model (layers of 784, 64,
32 and 10 neurons): every weight is 1 and every bias is `b`. -/
def digits_sinapsi (b : Nat) (k : Nat) : type_sinapsi Nat :=
  { weights := fun _ _ => 1, bias := fun _ => b,
    card_in := if k = 0 then INPUT_SIZE else if k = 1 then DIGIT_HID_SIZE_1 else DIGIT_HID_SIZE_2,
    card_out :=
      if k = 0 then DIGIT_HID_SIZE_1 else if k = 1 then DIGIT_HID_SIZE_2 else DIGIT_OUTPUT_SIZE }

end HWR

namespace HWR

/-! ## Softmax as the specification writes it -/

/-- The standard softmax of the scores `z 0 .. z (n - 1)` at index `j`, in the
words of the specification: `exp(z_j) / sum_k exp(z_k)`. -/
def standard_softmax {F : Type} [LinearOrderedField F] (exp : F → F) (z : Nat → F)
    (n j : Nat) : F :=
  exp (z j) / ∑ k in Finset.range n, exp (z k)

/-- The shifted quotient of the specification: `exp(z_j + m) / sum_k exp(z_k + m)`. -/
def shifted_softmax {F : Type} [LinearOrderedField F] (exp : F → F) (z : Nat → F) (m : F)
    (n j : Nat) : F :=
  exp (z j + m) / ∑ k in Finset.range n, exp (z k + m)

/-! ## The indices of `nn_task` -/

/-- The invariant of `nn_task` on `current_result`, `index_result` and the
slot `display_nn_data[index_result]`: up to the update of `current_result` the
slot written is the other one, `(current_result + 1) % 2`; from the update to
the update of `index_result` it is the current one; and the three fields of
the slot hold the values of the running cycle once they are assigned. -/
def nn_task_inv (s : buffer_state) : Prop :=
  s.current_result < 2 ∧ s.index_result < 2 ∧
  ((s.nn_at = nn_pc.unlock ∨ s.nn_at = nn_pc.next) → s.index_result = s.current_result) ∧
  (¬ (s.nn_at = nn_pc.unlock ∨ s.nn_at = nn_pc.next) →
    s.index_result = (s.current_result + 1) % 2) ∧
  (s.nn_at = nn_pc.write_prob → (s.display_nn_data s.index_result).rec_char = s.cycle) ∧
  (s.nn_at = nn_pc.write_image_radius →
    (s.display_nn_data s.index_result).rec_char = s.cycle ∧
    (s.display_nn_data s.index_result).prob = s.cycle) ∧
  ((s.nn_at = nn_pc.lock ∨ s.nn_at = nn_pc.flip ∨ s.nn_at = nn_pc.unlock) →
    s.display_nn_data s.index_result = ⟨s.cycle, s.cycle, s.cycle⟩)

/-! ## Topology of a model -/

/-- The sizes of a model fit together and fit the arrays: the input layer has
`INPUT_DIM * INPUT_DIM` neurons, every sinapsi the forward pass uses has
`card_in` equal to the size of the layer it reads and `card_out` equal to the
size of the layer it writes (`in_S` from `in_L` to `hid_L[0]`, `hid_S[k]` from
`hid_L[k]` to `hid_L[k+1]` for `k < num_hidden - 1`, `out_S` from
`hid_L[num_hidden - 1]` to `out_L`), and the sizes are within the capacities
`MAX_HID_NUM`, `MAX_HID_SIZE` and `MAX_OUT_SIZE` of the arrays. -/
def consistent_topology {F : Type} (net : network_t F) : Prop :=
  net.in_L.num_neuron = INPUT_DIM * INPUT_DIM ∧
  net.in_S.card_in = net.in_L.num_neuron ∧
  net.in_S.card_out = (net.hid_L 0).num_neuron ∧
  (∀ k, k < net.num_hidden - 1 →
    (net.hid_S k).card_in = (net.hid_L k).num_neuron ∧
    (net.hid_S k).card_out = (net.hid_L (k + 1)).num_neuron) ∧
  net.out_S.card_in = (net.hid_L (net.num_hidden - 1)).num_neuron ∧
  net.out_S.card_out = net.out_L.num_neuron ∧
  1 ≤ net.num_hidden ∧ net.num_hidden ≤ MAX_HID_NUM ∧
  (∀ k, k < net.num_hidden → (net.hid_L k).num_neuron ≤ MAX_HID_SIZE) ∧
  net.out_L.num_neuron ≤ MAX_OUT_SIZE

/-! ## display.c: the ROI copied by `draw_display` -/

/-- The arguments of a call `blit(source, dest, source_x, source_y, dest_x,
dest_y, width, height)` of Allegro. -/
structure blit_args where
  source_x : Int
  source_y : Int
  dest_x : Int
  dest_y : Int
  width : Int
  height : Int
deriving DecidableEq

/-- The call `blit(captured_image, extracted_ROI.image, x_1, y_1 - CAM_MRG_TOP,
0, 0, diameter, diameter)` of `draw_display`, with `x_1`, `y_1` and `diameter`
as computed from `ROI_dim` under `ROI_dim_mutex`. -/
def draw_display_extract (ROI_dim : sqr_center_t) : blit_args :=
  let x_1 := ROI_dim.centerX - ROI_dim.radius
  let y_1 := ROI_dim.centerY - ROI_dim.radius
  let diameter := ROI_dim.radius * 2
  { source_x := x_1, source_y := y_1 - CAM_MRG_TOP, dest_x := 0, dest_y := 0,
    width := diameter, height := diameter }

/-! ## The termination flag -/

/-- Constant `BTN_HEIGHT` (display.h). -/
def BTN_HEIGHT : Int := 20
/-- Constant `BTN_WIDTH` (display.h). -/
def BTN_WIDTH : Int := 65
/-- Constant `BTN_MRG` (display.h). -/
def BTN_MRG : Int := 10
/-- Constant `MODEL_MRG` (display.h). -/
def MODEL_MRG : Int := 5
/-- Constant `MODEL_LENGHT` (display.h). -/
def MODEL_LENGHT : Int := 170
/-- Constant `BTN_Y` (common.h). -/
def BTN_Y : Int := CAM_HEIGHT + CAM_MRG_TOP + BTN_MRG
/-- Constant `BTN_DIG_X` (common.h). -/
def BTN_DIG_X : Int := CAM_WIDTH + MODEL_MRG + MODEL_LENGHT
/-- Constant `BTN_LET_X` (common.h). -/
def BTN_LET_X : Int := BTN_DIG_X + BTN_WIDTH + BTN_MRG
/-- Constant `BTN_MIX_X` (common.h). -/
def BTN_MIX_X : Int := BTN_DIG_X + 2 * BTN_WIDTH + 2 * BTN_MRG

/-- Function `mouse_touch`: the new value of `requested_model` for the mouse position
`(mouse_x, mouse_y)`. -/
def mouse_touch (mouse_x mouse_y : Int) (requested_model : network_target) : network_target :=
  if mouse_y ≥ BTN_Y ∧ mouse_y ≤ BTN_Y + BTN_HEIGHT then
    let m1 : network_target :=
      if mouse_x ≥ BTN_DIG_X ∧ mouse_x ≤ BTN_DIG_X + BTN_WIDTH then network_target.DIGITS
      else requested_model
    let m2 : network_target :=
      if mouse_x ≥ BTN_LET_X ∧ mouse_x ≤ BTN_LET_X + BTN_WIDTH then network_target.LETTERS
      else m1
    if mouse_x ≥ BTN_MIX_X ∧ mouse_x ≤ BTN_MIX_X + BTN_WIDTH then network_target.MIXED
    else m2
  else requested_model

/-- The globals the loop of `user_task` writes: the termination flag
`completed`, the globals of `key_pressed` and `requested_model`. -/
structure run_state where
  completed : Int
  user : user_state
  requested_model : network_target

/-- One iteration of the loop of `user_task`: the new globals and the local
`end` at the end of the iteration.  `mouse_b`, `mouse_x`, `mouse_y` are the
mouse variables of Allegro; `key` is `none` when `keypressed()` is false and
the value of `readkey()` otherwise. -/
def user_task_cycle (K : key_codes) (s : run_state) (mouse_b : Nat) (mouse_x mouse_y : Int)
    (key : Option Int) : run_state × Int :=
  let end0 := s.completed
  let requested_model :=
    if mouse_b &&& 1 ≠ 0 then mouse_touch mouse_x mouse_y s.requested_model
    else s.requested_model
  let k : user_state × Int :=
    match key with
    | some readkey => key_pressed K s.user (readkey >>> 8)
    | none => (s.user, end0)
  let completed := if k.2 ≠ 0 then k.2 else s.completed
  ({ completed := completed, user := k.1, requested_model := requested_model }, k.2)

/-- One iteration of the loop of `display_task`, `cam_task` or `nn_task` as far
as the globals of `run_state` go: `completed` is read into the local `end` and
nothing is written. -/
def worker_cycle (s : run_state) : run_state × Int := (s, s.completed)

/-- The routines that access `completed`: an iteration of one of the four
worker loops (with what `user_task` gets from Allegro) or a call of an error
handler with the value it is given. -/
inductive run_action where
  | user_task (mouse_b : Nat) (mouse_x mouse_y : Int) (key : Option Int)
  | display_task
  | cam_task
  | nn_task
  | display_error (return_value : Int)
  | cam_error (return_value : Int)
  | nn_error (return_value : Int)

/-- The globals after one of the routines has run. -/
def run_step (K : key_codes) (s : run_state) : run_action → run_state
  | run_action.user_task mouse_b mouse_x mouse_y key =>
    (user_task_cycle K s mouse_b mouse_x mouse_y key).1
  | run_action.display_task => (worker_cycle s).1
  | run_action.cam_task => (worker_cycle s).1
  | run_action.nn_task => (worker_cycle s).1
  | run_action.display_error return_value =>
    { s with completed := display_error return_value s.completed }
  | run_action.cam_error return_value =>
    { s with completed := cam_error return_value s.completed }
  | run_action.nn_error return_value =>
    { s with completed := nn_error return_value s.completed }

/-- The globals after a sequence of routines. -/
def run_steps (K : key_codes) (s : run_state) (actions : List run_action) : run_state :=
  actions.foldl (run_step K) s

/-! ## Locks

The lock and unlock calls and the blocking calls of a routine, in the order
in which the routine executes them for given inputs. -/

/-- The mutexes of the application. -/
inductive mutex where
  | completed_mutex
  | capture_buffer_mutex
  | ROI_dim_mutex
  | ROI_image_mutex
  | current_result_mutex
  | contrast_mutex
  | brightness_mutex
  | saturation_mutex
  | sharpness_mutex
  | actual_model_mutex
deriving DecidableEq

/-- A call `pthread_mutex_lock`, a call `pthread_mutex_unlock`, or a call that
blocks (`wait_for_activation`, `vcos_semaphore_wait`). -/
inductive sync_event where
  | lock (m : mutex)
  | unlock (m : mutex)
  | wait
deriving DecidableEq

/-- The locks held, as explicit state, after a sequence of events started
with the locks `held`; `none` when the discipline is broken on the way: a lock
taken while a lock is held, an unlock of a mutex that is not the one held, or
a blocking call reached with a lock held. -/
def sync_run (held : List mutex) : List sync_event → Option (List mutex)
  | [] => some held
  | sync_event.lock m :: rest => if held = [] then sync_run [m] rest else none
  | sync_event.unlock m :: rest => if held = [m] then sync_run [] rest else none
  | sync_event.wait :: rest => if held = [] then sync_run [] rest else none

/-- A routine entered with no lock held keeps the discipline and returns with
no lock held. -/
def disciplined (events : List sync_event) : Prop := sync_run [] events = some []

instance (events : List sync_event) : Decidable (disciplined events) := by
  unfold disciplined; infer_instance

/-- The events of `key_pressed(key)` in the state `s`. -/
def key_pressed_events (K : key_codes) (s : user_state) (key : Int) : List sync_event :=
  if key = K.KEY_ESC then []
  else if key = K.KEY_X then
    [sync_event.lock mutex.contrast_mutex, sync_event.unlock mutex.contrast_mutex] ++
    (if s.contrast_value ≥ 5 then
      [sync_event.lock mutex.contrast_mutex, sync_event.unlock mutex.contrast_mutex] else [])
  else if key = K.KEY_C then
    [sync_event.lock mutex.contrast_mutex, sync_event.unlock mutex.contrast_mutex] ++
    (if s.contrast_value ≤ 95 then
      [sync_event.lock mutex.contrast_mutex, sync_event.unlock mutex.contrast_mutex] else [])
  else if key = K.KEY_V then
    [sync_event.lock mutex.brightness_mutex, sync_event.unlock mutex.brightness_mutex] ++
    (if s.brightness_value ≥ 5 then
      [sync_event.lock mutex.brightness_mutex, sync_event.unlock mutex.brightness_mutex] else [])
  else if key = K.KEY_B then
    [sync_event.lock mutex.brightness_mutex, sync_event.unlock mutex.brightness_mutex] ++
    (if s.brightness_value ≤ 95 then
      [sync_event.lock mutex.brightness_mutex, sync_event.unlock mutex.brightness_mutex] else [])
  else if key = K.KEY_D then
    [sync_event.lock mutex.saturation_mutex, sync_event.unlock mutex.saturation_mutex] ++
    (if s.saturation_value ≥ 5 then
      [sync_event.lock mutex.saturation_mutex, sync_event.unlock mutex.saturation_mutex] else [])
  else if key = K.KEY_F then
    [sync_event.lock mutex.saturation_mutex, sync_event.unlock mutex.saturation_mutex] ++
    (if s.saturation_value ≤ 95 then
      [sync_event.lock mutex.saturation_mutex, sync_event.unlock mutex.saturation_mutex] else [])
  else if key = K.KEY_A then
    [sync_event.lock mutex.sharpness_mutex, sync_event.unlock mutex.sharpness_mutex] ++
    (if s.sharpness_value ≥ 5 then
      [sync_event.lock mutex.sharpness_mutex, sync_event.unlock mutex.sharpness_mutex] else [])
  else if key = K.KEY_S then
    [sync_event.lock mutex.sharpness_mutex, sync_event.unlock mutex.sharpness_mutex] ++
    (if s.sharpness_value ≤ 95 then
      [sync_event.lock mutex.sharpness_mutex, sync_event.unlock mutex.sharpness_mutex] else [])
  else if key = K.KEY_LEFT then
    [sync_event.lock mutex.ROI_dim_mutex, sync_event.unlock mutex.ROI_dim_mutex]
  else if key = K.KEY_RIGHT then
    [sync_event.lock mutex.ROI_dim_mutex, sync_event.unlock mutex.ROI_dim_mutex]
  else if key = K.KEY_UP then
    [sync_event.lock mutex.ROI_dim_mutex, sync_event.unlock mutex.ROI_dim_mutex]
  else if key = K.KEY_DOWN then
    [sync_event.lock mutex.ROI_dim_mutex, sync_event.unlock mutex.ROI_dim_mutex]
  else if key = K.KEY_PLUS_PAD ∨ key = 65 then
    [sync_event.lock mutex.ROI_dim_mutex, sync_event.unlock mutex.ROI_dim_mutex]
  else if key = K.KEY_MINUS_PAD ∨ key = 61 then
    [sync_event.lock mutex.ROI_dim_mutex, sync_event.unlock mutex.ROI_dim_mutex]
  else []

/-- The events of `mouse_touch()` for the mouse position `(mouse_x, mouse_y)`. -/
def mouse_touch_events (mouse_x mouse_y : Int) : List sync_event :=
  if mouse_y ≥ BTN_Y ∧ mouse_y ≤ BTN_Y + BTN_HEIGHT then
    (if mouse_x ≥ BTN_DIG_X ∧ mouse_x ≤ BTN_DIG_X + BTN_WIDTH then
      [sync_event.lock mutex.actual_model_mutex, sync_event.unlock mutex.actual_model_mutex]
      else []) ++
    (if mouse_x ≥ BTN_LET_X ∧ mouse_x ≤ BTN_LET_X + BTN_WIDTH then
      [sync_event.lock mutex.actual_model_mutex, sync_event.unlock mutex.actual_model_mutex]
      else []) ++
    (if mouse_x ≥ BTN_MIX_X ∧ mouse_x ≤ BTN_MIX_X + BTN_WIDTH then
      [sync_event.lock mutex.actual_model_mutex, sync_event.unlock mutex.actual_model_mutex]
      else [])
  else []

/-- The events of `draw_display()`; they are the same whether `show_video_bitmap`
succeeds or not, since both `return` statements come after the last unlock. -/
def draw_display_events : List sync_event :=
  [sync_event.lock mutex.capture_buffer_mutex, sync_event.unlock mutex.capture_buffer_mutex,
   sync_event.lock mutex.ROI_dim_mutex, sync_event.unlock mutex.ROI_dim_mutex,
   sync_event.lock mutex.ROI_image_mutex, sync_event.unlock mutex.ROI_image_mutex,
   sync_event.lock mutex.current_result_mutex, sync_event.unlock mutex.current_result_mutex,
   sync_event.lock mutex.contrast_mutex, sync_event.unlock mutex.contrast_mutex,
   sync_event.lock mutex.brightness_mutex, sync_event.unlock mutex.brightness_mutex,
   sync_event.lock mutex.saturation_mutex, sync_event.unlock mutex.saturation_mutex,
   sync_event.lock mutex.sharpness_mutex, sync_event.unlock mutex.sharpness_mutex,
   sync_event.lock mutex.actual_model_mutex, sync_event.unlock mutex.actual_model_mutex]

/-- The events of `raspi_cam_query_frame()`: the wait on the semaphore
`capture_done_sem`, then the four properties read under their mutexes
(`raspi_cam_set_capture_property` takes no lock). -/
def raspi_cam_query_frame_events : List sync_event :=
  [sync_event.wait,
   sync_event.lock mutex.contrast_mutex, sync_event.unlock mutex.contrast_mutex,
   sync_event.lock mutex.brightness_mutex, sync_event.unlock mutex.brightness_mutex,
   sync_event.lock mutex.saturation_mutex, sync_event.unlock mutex.saturation_mutex,
   sync_event.lock mutex.sharpness_mutex, sync_event.unlock mutex.sharpness_mutex]

/-- The events of `recognize_character(image)`. -/
def recognize_character_events : List sync_event :=
  [sync_event.lock mutex.actual_model_mutex, sync_event.unlock mutex.actual_model_mutex]

/-- The events of one iteration of the loop of `display_task`, ended by
`wait_for_activation`. -/
def display_task_events : List sync_event :=
  [sync_event.lock mutex.completed_mutex, sync_event.unlock mutex.completed_mutex] ++
  draw_display_events ++ [sync_event.wait]

/-- The events of one iteration of the loop of `user_task` (inputs as for
`user_task_cycle`). -/
def user_task_events (K : key_codes) (s : run_state) (mouse_b : Nat) (mouse_x mouse_y : Int)
    (key : Option Int) : List sync_event :=
  [sync_event.lock mutex.completed_mutex, sync_event.unlock mutex.completed_mutex] ++
  (if mouse_b &&& 1 ≠ 0 then mouse_touch_events mouse_x mouse_y else []) ++
  (match key with
    | some readkey => key_pressed_events K s.user (readkey >>> 8)
    | none => []) ++
  (if (user_task_cycle K s mouse_b mouse_x mouse_y key).2 ≠ 0 then
    [sync_event.lock mutex.completed_mutex, sync_event.unlock mutex.completed_mutex]
    else []) ++
  [sync_event.wait]

/-- The events of one iteration of the loop of `cam_task`. -/
def cam_task_events : List sync_event :=
  [sync_event.lock mutex.completed_mutex, sync_event.unlock mutex.completed_mutex] ++
  raspi_cam_query_frame_events ++ [sync_event.wait]

/-- The events of one iteration of the loop of `nn_task`. -/
def nn_task_events : List sync_event :=
  [sync_event.lock mutex.completed_mutex, sync_event.unlock mutex.completed_mutex,
   sync_event.lock mutex.ROI_image_mutex, sync_event.unlock mutex.ROI_image_mutex] ++
  recognize_character_events ++
  [sync_event.lock mutex.current_result_mutex, sync_event.unlock mutex.current_result_mutex,
   sync_event.wait]

/-- The most locks held at any point of a sequence of events started with
`held` locks held, counting a lock as one more and an unlock as one less. -/
def max_held (held : Nat) : List sync_event → Nat
  | [] => held
  | sync_event.lock _ :: rest => max held (max_held (held + 1) rest)
  | sync_event.unlock _ :: rest => max held (max_held (held - 1) rest)
  | sync_event.wait :: rest => max held (max_held held rest)

end HWR

/-! # Theorems

Every definition of the development stands above this line. -/

namespace HWR

/-! ## Scheduler: theorems -/

theorem ite_ind {α : Type} (P : α → Prop) (c : Prop) [Decidable c] (a b : α)
    (ha : P a) (hb : P b) : P (if c then a else b) := by
  split_ifs
  · exact ha
  · exact hb


theorem total_ns_time_add_ms (t : timespec) (ms : Int) :
    total_ns (time_add_ms t ms) = total_ns t + ms * 1000000 := by
  have h := Int.tdiv_add_tmod ms 1000
  simp only [time_add_ms, total_ns]
  generalize Int.tdiv ms 1000 = q at h ⊢
  generalize Int.tmod ms 1000 = r at h ⊢
  split_ifs <;> simp only <;> omega

theorem tp_set_same (tp : Fin MAX_TASK → task_par) (i : Fin MAX_TASK) (r : task_par) :
    tp_set tp i r i = r := by
  simp [tp_set]

theorem tp_set_other (tp : Fin MAX_TASK → task_par) (i j : Fin MAX_TASK) (r : task_par)
    (h : j ≠ i) : tp_set tp i r j = tp j := by
  simp [tp_set, h]

/-- What one scheduler call does to the caller's own record. -/
theorem apply_call_own (i : Fin MAX_TASK) (s : ptask_state) (c : sched_call) :
    ((apply_call i s c).tp i).period = (s.tp i).period ∧
    total_ns ((apply_call i s c).tp i).at_ =
      total_ns (s.tp i).at_ + (if c = sched_call.wait then (s.tp i).period * 1000000 else 0) ∧
    total_ns ((apply_call i s c).tp i).dl =
      total_ns (s.tp i).dl + (if c = sched_call.wait then (s.tp i).period * 1000000 else 0) := by
  cases c with
  | miss now =>
    by_cases h : time_cmp now (s.tp i).dl > 0 <;>
      simp [apply_call, deadline_miss, h, tp_set_same]
  | wait =>
    simp [apply_call, wait_for_activation, tp_set_same, total_ns_time_add_ms]

theorem run_calls_own (i : Fin MAX_TASK) (cs : List sched_call) (s : ptask_state) :
    ((run_calls i s cs).tp i).period = (s.tp i).period ∧
    total_ns ((run_calls i s cs).tp i).at_ =
      total_ns (s.tp i).at_ + (waits cs : Int) * (s.tp i).period * 1000000 ∧
    total_ns ((run_calls i s cs).tp i).dl =
      total_ns (s.tp i).dl + (waits cs : Int) * (s.tp i).period * 1000000 := by
  induction cs generalizing s with
  | nil => simp [run_calls, waits]
  | cons c cs ih =>
    have h1 := apply_call_own i s c
    have h2 := ih (apply_call i s c)
    have hr : run_calls i s (c :: cs) = run_calls i (apply_call i s c) cs := rfl
    rw [hr]
    obtain ⟨hp, ha, hd⟩ := h1
    obtain ⟨hp2, ha2, hd2⟩ := h2
    rw [hp2, ha2, hd2, hp, ha, hd]
    refine ⟨rfl, ?_, ?_⟩
    all_goals
      by_cases hc : c = sched_call.wait
      · subst hc
        have hw : waits (sched_call.wait :: cs) = waits cs + 1 := by
          unfold waits
          exact List.count_cons_self sched_call.wait cs
        rw [hw]
        push_cast
        rw [if_pos rfl]
        ring
      · have hw : waits (c :: cs) = waits cs := by
          unfold waits
          exact List.count_cons_of_ne (Ne.symm hc) cs
        simp [hc, hw]

theorem set_activation_own (s : ptask_state) (i : Fin MAX_TASK) (T : timespec) :
    ((set_activation s i T).tp i).period = (s.tp i).period ∧
    total_ns ((set_activation s i T).tp i).at_ = total_ns T + (s.tp i).period * 1000000 ∧
    total_ns ((set_activation s i T).tp i).dl = total_ns T + (s.tp i).deadline * 1000000 := by
  have hT : total_ns (time_copy T) = total_ns T := rfl
  simp only [set_activation, tp_set_same, total_ns_time_add_ms, hT, and_self]

/-- C1. Drift-free activation: after `set_activation` at clock reading `T`,
any sequence of later scheduler calls of the task that contains `N` calls of
`wait_for_activation` (the deadline checks in between may read any clock value)
leaves the next-activation instant at `T + (N+1)*period` ms and the absolute
deadline at `T + relative_deadline + N*period` ms, as total nanoseconds. -/
theorem activation_no_drift (s : ptask_state) (i : Fin MAX_TASK) (T : timespec)
    (cs : List sched_call) :
    total_ns ((run_calls i (set_activation s i T) cs).tp i).at_ =
      total_ns T + ((waits cs : Int) + 1) * (s.tp i).period * 1000000 ∧
    total_ns ((run_calls i (set_activation s i T) cs).tp i).dl =
      total_ns T + (s.tp i).deadline * 1000000 + (waits cs : Int) * (s.tp i).period * 1000000 := by
  obtain ⟨_, ha, hd⟩ := run_calls_own i cs (set_activation s i T)
  obtain ⟨hp, hat, hdl⟩ := set_activation_own s i T
  rw [ha, hd, hp, hat, hdl]
  constructor <;> ring

end HWR

namespace HWR

/-- C2 (the code at the failing input). The inference task (period 500 ms,
relative deadline 200 ms, index 1) calls `set_activation` when the clock reads
5.8 s: `time_add_ms` leaves the deadline as 5 s + 10^9 ns, not normalised.
When the clock then reads exactly 6 s, the same instant as the deadline,
`deadline_miss` returns 1 and counts a miss. -/
theorem deadline_miss_at_deadline_instant :
    normalised ⟨5, 800000000⟩ ∧ normalised ⟨6, 0⟩ ∧
    ((set_activation two_registered 1 ⟨5, 800000000⟩).tp 1).dl = ⟨5, 1000000000⟩ ∧
    total_ns ⟨6, 0⟩ = total_ns ((set_activation two_registered 1 ⟨5, 800000000⟩).tp 1).dl ∧
    (deadline_miss (set_activation two_registered 1 ⟨5, 800000000⟩) 1 ⟨6, 0⟩).2 = 1 ∧
    ((deadline_miss (set_activation two_registered 1 ⟨5, 800000000⟩) 1 ⟨6, 0⟩).1.tp 1).dmiss = 1 := by
  decide

/-- C3. `deadline_miss` is observational: it returns 1 and adds exactly one to
the miss counter of task `i`, or returns 0 and leaves the counter as it was; in
both cases every other field of the record of task `i` (id, wcet, period,
relative deadline, priority, next activation, absolute deadline), the record of
every other task and `task_counter` are unchanged. -/
theorem deadline_miss_frame (s : ptask_state) (i : Fin MAX_TASK) (now : timespec) :
    (((deadline_miss s i now).2 = 1 ∧
        ((deadline_miss s i now).1.tp i).dmiss = (s.tp i).dmiss + 1) ∨
      ((deadline_miss s i now).2 = 0 ∧
        ((deadline_miss s i now).1.tp i).dmiss = (s.tp i).dmiss)) ∧
    ((deadline_miss s i now).1.tp i).period = (s.tp i).period ∧
    ((deadline_miss s i now).1.tp i).deadline = (s.tp i).deadline ∧
    ((deadline_miss s i now).1.tp i).priority = (s.tp i).priority ∧
    ((deadline_miss s i now).1.tp i).at_ = (s.tp i).at_ ∧
    ((deadline_miss s i now).1.tp i).dl = (s.tp i).dl ∧
    ((deadline_miss s i now).1.tp i).id = (s.tp i).id ∧
    ((deadline_miss s i now).1.tp i).wcet = (s.tp i).wcet ∧
    (∀ j : Fin MAX_TASK, j ≠ i → (deadline_miss s i now).1.tp j = s.tp j) ∧
    (deadline_miss s i now).1.task_counter = s.task_counter := by
  by_cases h : time_cmp now (s.tp i).dl > 0
  · have hd : deadline_miss s i now =
        ({ s with tp := tp_set s.tp i { s.tp i with dmiss := (s.tp i).dmiss + 1 } }, 1) := by
      unfold deadline_miss
      rw [if_pos h]
    rw [hd]
    refine ⟨Or.inl ⟨rfl, ?_⟩, ?_, ?_, ?_, ?_, ?_, ?_, ?_, ?_, rfl⟩
    all_goals first
      | (intro j hj; exact tp_set_other _ _ _ _ hj)
      | (show (tp_set _ _ _ i).dmiss = _; rw [tp_set_same])
      | (show (tp_set _ _ _ i).period = _; rw [tp_set_same])
      | (show (tp_set _ _ _ i).deadline = _; rw [tp_set_same])
      | (show (tp_set _ _ _ i).priority = _; rw [tp_set_same])
      | (show (tp_set _ _ _ i).at_ = _; rw [tp_set_same])
      | (show (tp_set _ _ _ i).dl = _; rw [tp_set_same])
      | (show (tp_set _ _ _ i).id = _; rw [tp_set_same])
      | (show (tp_set _ _ _ i).wcet = _; rw [tp_set_same])
  · have hd : deadline_miss s i now = (s, 0) := by
      unfold deadline_miss
      rw [if_neg h]
    rw [hd]
    exact ⟨Or.inr ⟨rfl, rfl⟩, rfl, rfl, rfl, rfl, rfl, rfl, rfl, fun _ _ => rfl, rfl⟩

/-- C9 (counterexample). The second registration made by `init()` is stored
under index 1 (that is what `get_task_index` gives the new thread), but the
value `task_create` returns is the status 0 of `pthread_create`, not 1. -/
theorem task_create_returns_status_not_index :
    (task_create ptask_init 40 40 90 0).globals.task_counter = 1 ∧
    ((task_create (task_create ptask_init 40 40 90 0).globals 500 200 70 0).globals.tp 1).period
      = 500 ∧
    get_task_index
      (task_create (task_create ptask_init 40 40 90 0).globals 500 200 70 0).globals 1 = 1 ∧
    (task_create (task_create ptask_init 40 40 90 0).globals 500 200 70 0).ret = some 0 ∧
    (task_create (task_create ptask_init 40 40 90 0).globals 500 200 70 0).ret ≠ some 1 := by
  decide

/-- C9 (amended). With fewer than `MAX_TASK` tasks registered, `task_create`
returns the status of `pthread_create`; the identifier of the new task is the
old value of `task_counter`: the record is stored at that index, its `id` field
holds it, and `get_task_index` on that record returns it. -/
theorem task_create_returns_pthread_status (s : ptask_state) (period drel prio ret : Int)
    (h : s.task_counter < MAX_TASK) :
    (task_create s period drel prio ret).ret = some ret ∧
    get_task_index (task_create s period drel prio ret).globals ⟨s.task_counter, h⟩
      = (s.task_counter : Int) ∧
    ((task_create s period drel prio ret).globals.tp ⟨s.task_counter, h⟩).period = period ∧
    ((task_create s period drel prio ret).globals.tp ⟨s.task_counter, h⟩).deadline = drel ∧
    ((task_create s period drel prio ret).globals.tp ⟨s.task_counter, h⟩).priority = prio := by
  simp only [task_create, dif_pos h, create_result.ret, create_result.globals, get_task_index,
    tp_set_same, and_self]

/-- C9 (amended), at the third registration made by `init()`. -/
theorem task_create_returns_pthread_status_witness :
    (task_create two_registered 40 40 50 0).ret = some 0 ∧
    get_task_index (task_create two_registered 40 40 50 0).globals ⟨2, by decide⟩ = 2 ∧
    ((task_create two_registered 40 40 50 0).globals.tp ⟨2, by decide⟩).period = 40 ∧
    ((task_create two_registered 40 40 50 0).globals.tp ⟨2, by decide⟩).deadline = 40 ∧
    ((task_create two_registered 40 40 50 0).globals.tp ⟨2, by decide⟩).priority = 50 :=
  task_create_returns_pthread_status two_registered 40 40 50 0 (by decide)

/-- C10. With fewer than `MAX_TASK` tasks registered, `task_create` returns
after storing the period, relative deadline, priority and a miss counter 0 in
the record at index `task_counter`, with `task_counter` one larger and every
other record unchanged.  With `MAX_TASK` tasks registered the assertion fails
and the array `tp` is as it was before the call. -/
theorem task_create_registers (s : ptask_state) (period drel prio ret : Int) :
    (∀ h : s.task_counter < MAX_TASK,
      ∃ s', task_create s period drel prio ret = create_result.returned s' ret ∧
        (s'.tp ⟨s.task_counter, h⟩).period = period ∧
        (s'.tp ⟨s.task_counter, h⟩).deadline = drel ∧
        (s'.tp ⟨s.task_counter, h⟩).priority = prio ∧
        (s'.tp ⟨s.task_counter, h⟩).dmiss = 0 ∧
        s'.task_counter = s.task_counter + 1 ∧
        ∀ j : Fin MAX_TASK, j ≠ ⟨s.task_counter, h⟩ → s'.tp j = s.tp j) ∧
    (s.task_counter = MAX_TASK →
      ∃ s', task_create s period drel prio ret = create_result.assert_failed s' ∧
        s'.tp = s.tp) := by
  constructor
  · intro h
    refine ⟨_, by simp only [task_create, dif_pos h]; rfl, ?_⟩
    simp only [tp_set_same, true_and]
    intro j hj
    exact tp_set_other _ _ _ _ hj
  · intro h
    have h' : ¬ s.task_counter < MAX_TASK := by omega
    exact ⟨{ s with task_counter := s.task_counter + 1 },
      by simp only [task_create, dif_neg h'], rfl⟩

/-- C10, at the third registration made by `init()` and at an eleventh registration. -/
theorem task_create_registers_witness :
    (∃ s', task_create two_registered 40 40 50 0 = create_result.returned s' 0 ∧
        (s'.tp ⟨2, by decide⟩).period = 40 ∧
        (s'.tp ⟨2, by decide⟩).deadline = 40 ∧
        (s'.tp ⟨2, by decide⟩).priority = 50 ∧
        (s'.tp ⟨2, by decide⟩).dmiss = 0 ∧
        s'.task_counter = 2 + 1 ∧
        ∀ j : Fin MAX_TASK, j ≠ ⟨2, by decide⟩ → s'.tp j = two_registered.tp j) ∧
    (∃ s', task_create ten_registered 40 40 50 0 = create_result.assert_failed s' ∧
        s'.tp = ten_registered.tp) :=
  ⟨(task_create_registers two_registered 40 40 50 0).1 (by decide),
   (task_create_registers ten_registered 40 40 50 0).2 (by decide)⟩

end HWR

namespace HWR

/-! ## ROI handling: theorems -/

theorem ROI_inv_move (r : sqr_center_t) (x y : Int) (h : ROI_inv r)
    (hx1 : 0 ≤ x - r.radius) (hx2 : x + r.radius ≤ 320)
    (hy1 : 30 ≤ y - r.radius) (hy2 : y + r.radius ≤ 270) :
    ROI_inv { r with centerX := x, centerY := y } := by
  refine ⟨⟨hx1, hx2, hy1, ?_⟩, h.2⟩
  simpa [CAM_MRG_TOP, CAM_HEIGHT] using hy2

theorem on_KEY_LEFT_inv (s : user_state) (h : ROI_inv s.ROI_dim) :
    ROI_inv (on_KEY_LEFT s).ROI_dim := by
  obtain ⟨⟨h1, h2, h3, h4⟩, hr⟩ := id h
  simp only [CAM_WIDTH, CAM_MRG_TOP, CAM_HEIGHT] at h1 h2 h3 h4
  unfold on_KEY_LEFT
  split_ifs with hc
  · simp only [ROI_DEPTH] at hc
    exact ROI_inv_move s.ROI_dim _ _ h (by omega) (by omega) (by omega) (by omega)
  · exact h

theorem on_KEY_RIGHT_inv (s : user_state) (h : ROI_inv s.ROI_dim) :
    ROI_inv (on_KEY_RIGHT s).ROI_dim := by
  obtain ⟨⟨h1, h2, h3, h4⟩, hr⟩ := id h
  simp only [CAM_WIDTH, CAM_MRG_TOP, CAM_HEIGHT] at h1 h2 h3 h4
  unfold on_KEY_RIGHT
  split_ifs with hc
  · simp only [ROI_DEPTH, CAM_WIDTH] at hc
    exact ROI_inv_move s.ROI_dim _ _ h (by omega) (by omega) (by omega) (by omega)
  · exact h

theorem on_KEY_UP_inv (s : user_state) (h : ROI_inv s.ROI_dim) :
    ROI_inv (on_KEY_UP s).ROI_dim := by
  obtain ⟨⟨h1, h2, h3, h4⟩, hr⟩ := id h
  simp only [CAM_WIDTH, CAM_MRG_TOP, CAM_HEIGHT] at h1 h2 h3 h4
  unfold on_KEY_UP
  split_ifs with hc
  · simp only [ROI_DEPTH, CAM_MRG_TOP] at hc
    exact ROI_inv_move s.ROI_dim _ _ h (by omega) (by omega) (by omega) (by omega)
  · exact h

theorem on_KEY_DOWN_inv (s : user_state) (h : ROI_inv s.ROI_dim) :
    ROI_inv (on_KEY_DOWN s).ROI_dim := by
  obtain ⟨⟨h1, h2, h3, h4⟩, hr⟩ := id h
  simp only [CAM_WIDTH, CAM_MRG_TOP, CAM_HEIGHT] at h1 h2 h3 h4
  unfold on_KEY_DOWN
  split_ifs with hc
  · simp only [ROI_DEPTH, CAM_MRG_TOP, CAM_HEIGHT] at hc
    exact ROI_inv_move s.ROI_dim _ _ h (by omega) (by omega) (by omega) (by omega)
  · exact h

theorem ROI_consts :
    Int.tdiv ROI_MAX 2 = 112 ∧ Int.tdiv ROI_MIN 2 = 28 ∧ Int.tdiv CAM_WIDTH 2 = 160 ∧
    CAM_MRG_TOP + Int.tdiv CAM_HEIGHT 2 = 150 := by
  decide

theorem ROI_inv_centred (r : Int) (h : r = 28 ∨ r = 56 ∨ r = 112) :
    ROI_inv { centerX := 160, centerY := 150, radius := r } := by
  refine ⟨?_, h⟩
  simp only [ROI_in_frame, CAM_WIDTH, CAM_MRG_TOP, CAM_HEIGHT]
  omega

theorem on_KEY_PLUS_PAD_inv (s : user_state) (h : ROI_inv s.ROI_dim) :
    ROI_inv (on_KEY_PLUS_PAD s).ROI_dim := by
  obtain ⟨_, hr⟩ := h
  obtain ⟨e1, _, e3, e4⟩ := ROI_consts
  unfold on_KEY_PLUS_PAD
  simp only [e1, e3, e4]
  split_ifs with hc
  · exact ROI_inv_centred _ (by simp only []; omega)
  · exact ROI_inv_centred _ hr

theorem on_KEY_MINUS_PAD_inv (s : user_state) (h : ROI_inv s.ROI_dim) :
    ROI_inv (on_KEY_MINUS_PAD s).ROI_dim := by
  obtain ⟨_, hr⟩ := h
  obtain ⟨_, e2, e3, e4⟩ := ROI_consts
  unfold on_KEY_MINUS_PAD
  simp only [e2, e3, e4]
  split_ifs with hc
  · refine ROI_inv_centred _ ?_
    simp only []
    rcases hr with hr | hr | hr <;> rw [hr] at hc ⊢ <;> first | omega | decide
  · exact ROI_inv_centred _ hr

theorem key_pressed_cases (K : key_codes) (s : user_state) (key : Int) :
    (key_pressed K s key).1 = s ∨
    (key_pressed K s key).1 = on_KEY_X s ∨ (key_pressed K s key).1 = on_KEY_C s ∨
    (key_pressed K s key).1 = on_KEY_V s ∨ (key_pressed K s key).1 = on_KEY_B s ∨
    (key_pressed K s key).1 = on_KEY_D s ∨ (key_pressed K s key).1 = on_KEY_F s ∨
    (key_pressed K s key).1 = on_KEY_A s ∨ (key_pressed K s key).1 = on_KEY_S s ∨
    (key_pressed K s key).1 = on_KEY_LEFT s ∨ (key_pressed K s key).1 = on_KEY_RIGHT s ∨
    (key_pressed K s key).1 = on_KEY_UP s ∨ (key_pressed K s key).1 = on_KEY_DOWN s ∨
    (key_pressed K s key).1 = on_KEY_PLUS_PAD s ∨
    (key_pressed K s key).1 = on_KEY_MINUS_PAD s := by
  unfold key_pressed
  by_cases h1 : key = K.KEY_ESC
  · rw [if_pos h1]; exact Or.inl rfl
  rw [if_neg h1]
  by_cases h2 : key = K.KEY_X
  · rw [if_pos h2]; simp
  rw [if_neg h2]
  by_cases h3 : key = K.KEY_C
  · rw [if_pos h3]; simp
  rw [if_neg h3]
  by_cases h4 : key = K.KEY_V
  · rw [if_pos h4]; simp
  rw [if_neg h4]
  by_cases h5 : key = K.KEY_B
  · rw [if_pos h5]; simp
  rw [if_neg h5]
  by_cases h6 : key = K.KEY_D
  · rw [if_pos h6]; simp
  rw [if_neg h6]
  by_cases h7 : key = K.KEY_F
  · rw [if_pos h7]; simp
  rw [if_neg h7]
  by_cases h8 : key = K.KEY_A
  · rw [if_pos h8]; simp
  rw [if_neg h8]
  by_cases h9 : key = K.KEY_S
  · rw [if_pos h9]; simp
  rw [if_neg h9]
  by_cases h10 : key = K.KEY_LEFT
  · rw [if_pos h10]; simp
  rw [if_neg h10]
  by_cases h11 : key = K.KEY_RIGHT
  · rw [if_pos h11]; simp
  rw [if_neg h11]
  by_cases h12 : key = K.KEY_UP
  · rw [if_pos h12]; simp
  rw [if_neg h12]
  by_cases h13 : key = K.KEY_DOWN
  · rw [if_pos h13]; simp
  rw [if_neg h13]
  by_cases h14 : key = K.KEY_PLUS_PAD ∨ key = 65
  · rw [if_pos h14]; simp
  rw [if_neg h14]
  by_cases h15 : key = K.KEY_MINUS_PAD ∨ key = 61
  · rw [if_pos h15]; simp
  rw [if_neg h15]
  exact Or.inl rfl

theorem on_property_key_ROI (s : user_state) :
    (on_KEY_X s).ROI_dim = s.ROI_dim ∧ (on_KEY_C s).ROI_dim = s.ROI_dim ∧
    (on_KEY_V s).ROI_dim = s.ROI_dim ∧ (on_KEY_B s).ROI_dim = s.ROI_dim ∧
    (on_KEY_D s).ROI_dim = s.ROI_dim ∧ (on_KEY_F s).ROI_dim = s.ROI_dim ∧
    (on_KEY_A s).ROI_dim = s.ROI_dim ∧ (on_KEY_S s).ROI_dim = s.ROI_dim := by
  simp only [on_KEY_X, on_KEY_C, on_KEY_V, on_KEY_B, on_KEY_D, on_KEY_F, on_KEY_A, on_KEY_S]
  refine ⟨?_, ?_, ?_, ?_, ?_, ?_, ?_, ?_⟩ <;> split_ifs <;> rfl

theorem key_pressed_ROI_inv (K : key_codes) (s : user_state) (key : Int)
    (h : ROI_inv s.ROI_dim) : ROI_inv (key_pressed K s key).1.ROI_dim := by
  obtain ⟨p1, p2, p3, p4, p5, p6, p7, p8⟩ := on_property_key_ROI s
  rcases key_pressed_cases K s key with
    e | e | e | e | e | e | e | e | e | e | e | e | e | e | e <;> rw [e]
  · exact h
  · rw [p1]; exact h
  · rw [p2]; exact h
  · rw [p3]; exact h
  · rw [p4]; exact h
  · rw [p5]; exact h
  · rw [p6]; exact h
  · rw [p7]; exact h
  · rw [p8]; exact h
  · exact on_KEY_LEFT_inv s h
  · exact on_KEY_RIGHT_inv s h
  · exact on_KEY_UP_inv s h
  · exact on_KEY_DOWN_inv s h
  · exact on_KEY_PLUS_PAD_inv s h
  · exact on_KEY_MINUS_PAD_inv s h

theorem keys_pressed_ROI_inv (K : key_codes) (keys : List Int) (s : user_state)
    (h : ROI_inv s.ROI_dim) : ROI_inv (keys_pressed K s keys).ROI_dim := by
  induction keys generalizing s with
  | nil => exact h
  | cons k ks ih => exact ih _ (key_pressed_ROI_inv K s k h)

theorem init_display_success_ROI (env : display_env) (r : sqr_center_t) :
    (init_display env r).2 = DISPLAY_SUCCESS → (init_display env r).1 = ⟨160, 150, 112⟩ := by
  unfold init_display
  repeat' apply ite_ind (fun x : sqr_center_t × Int => x.2 = DISPLAY_SUCCESS → x.1 = ⟨160, 150, 112⟩)
  all_goals first
    | (intro h; exact absurd (show (2 : Int) = 0 from h) (by decide))
    | (intro h; exact absurd (show (1 : Int) = 0 from h) (by decide))
    | (intro _; decide)

/-- C5. After a successful `init_display` (which sets the ROI to centre
(160, 150) and radius 112), whatever sequence of key events `key_pressed`
handles, the ROI square stays inside the camera frame. -/
theorem ROI_stays_in_frame (K : key_codes) (env : display_env) (s : user_state)
    (keys : List Int) (h : (init_display env s.ROI_dim).2 = DISPLAY_SUCCESS) :
    (init_display env s.ROI_dim).1 = ⟨160, 150, 112⟩ ∧
    ROI_in_frame
      (keys_pressed K { s with ROI_dim := (init_display env s.ROI_dim).1 } keys).ROI_dim := by
  have h0 := init_display_success_ROI env s.ROI_dim h
  refine ⟨h0, ?_⟩
  refine (keys_pressed_ROI_inv K keys _ ?_).1
  show ROI_inv (init_display env s.ROI_dim).1
  rw [h0]
  exact ROI_inv_centred 112 (Or.inr (Or.inr rfl))

/-- C5, for the Allegro key codes and a sequence of arrow, plus and minus keys. -/
theorem ROI_stays_in_frame_witness :
    (init_display display_env_ok ⟨0, 0, 0⟩).1 = ⟨160, 150, 112⟩ ∧
    ROI_in_frame
      (keys_pressed allegro_keys
        { contrast_value := 0, brightness_value := 50, saturation_value := 0,
          sharpness_value := 0, ROI_dim := (init_display display_env_ok ⟨0, 0, 0⟩).1 }
        [82, 82, 84, 88, 85, 83, 89, 89, 82, 61, 65]).ROI_dim :=
  ROI_stays_in_frame allegro_keys display_env_ok
    { contrast_value := 0, brightness_value := 50, saturation_value := 0,
      sharpness_value := 0, ROI_dim := ⟨0, 0, 0⟩ }
    [82, 82, 84, 88, 85, 83, 89, 89, 82, 61, 65] (by decide)

end HWR

namespace HWR

/-! ## Start-up: theorems -/

theorem init_networks_mixed_ret {F : Type} (env : nn_env F) (s : nn_state F)
    (nn2 : network_target → network_t F) :
    (init_networks_mixed env s nn2).ret = none ∨ (init_networks_mixed env s nn2).ret = some 1 ∨
    (init_networks_mixed env s nn2).ret = some 2 := by
  unfold init_networks_mixed
  split
  · exact Or.inl rfl
  · simp only []
    split_ifs
    · exact Or.inl rfl
    · exact Or.inr (Or.inr rfl)
    · exact Or.inr (Or.inl rfl)

theorem init_networks_letters_ret {F : Type} (env : nn_env F) (s : nn_state F)
    (nn1 : network_target → network_t F) :
    (init_networks_letters env s nn1).ret = none ∨
    (init_networks_letters env s nn1).ret = some 1 ∨
    (init_networks_letters env s nn1).ret = some 2 := by
  unfold init_networks_letters
  split
  · exact Or.inl rfl
  · simp only []
    split_ifs
    · exact Or.inl rfl
    · exact Or.inr (Or.inr rfl)
    · exact init_networks_mixed_ret env s _

theorem init_networks_ret_cases {F : Type} (env : nn_env F) (s : nn_state F) :
    (init_networks env s).ret = none ∨ (init_networks env s).ret = some 1 ∨
    (init_networks env s).ret = some 2 := by
  unfold init_networks
  split
  · exact Or.inr (Or.inl rfl)
  · simp only []
    split_ifs
    · exact Or.inl rfl
    · exact Or.inr (Or.inr rfl)
    · exact init_networks_letters_ret env s _

end HWR

namespace HWR

/-! ## The double-buffered result: theorems -/

theorem arr_set_same {α : Type} (a : Nat → α) (i : Nat) (v : α) : arr_set a i v i = v := by
  simp [arr_set]

theorem arr_set_other {α : Type} (a : Nat → α) (i j : Nat) (v : α) (h : j ≠ i) :
    arr_set a i v j = a j := by
  simp [arr_set, h]

theorem buffer_inv_init : buffer_inv buffer_init := by
  simp [buffer_inv, buffer_init]

theorem nn_task_step_inv (s : buffer_state) (h : buffer_inv s) : buffer_inv (nn_task_step s) := by
  obtain ⟨h1, h2, h3, h4, h5, h6, h7, h8, h9, h10, h11, h12, h13⟩ := h
  unfold nn_task_step
  cases hpc : s.nn_at <;> simp only [hpc] at h3 h5 h6 h8 h9 h10 ⊢
  · -- write_rec_char
    have hne : s.index_result ≠ s.current_result := h6 (by simp)
    have hne' : s.current_result ≠ s.index_result := Ne.symm hne
    simp only [buffer_inv, arr_set_same, arr_set_other _ _ _ _ hne']
    simp_all
  · -- write_prob
    have hne : s.index_result ≠ s.current_result := h6 (by simp)
    have hne' : s.current_result ≠ s.index_result := Ne.symm hne
    simp only [buffer_inv, arr_set_same, arr_set_other _ _ _ _ hne']
    simp_all
  · -- write_image_radius
    have hne : s.index_result ≠ s.current_result := h6 (by simp)
    have hne' : s.current_result ≠ s.index_result := Ne.symm hne
    simp only [buffer_inv, arr_set_same, arr_set_other _ _ _ _ hne']
    simp_all
  · -- lock
    cases hm : s.current_result_mutex with
    | none =>
      simp only [buffer_inv]
      simp_all
    | some t =>
      simp only [buffer_inv]
      simp_all
  · -- flip
    have hne : s.index_result ≠ s.current_result := h6 (by simp)
    have hc : (s.current_result + 1) % 2 = s.index_result := by omega
    have hd : s.display_at = display_pc.lock := by
      by_contra hcon
      have := h4.1 hcon
      rw [h3.1 (Or.inl trivial)] at this
      cases this
    simp only [buffer_inv, hc]
    simp_all
  · -- unlock
    have hd : s.display_at = display_pc.lock := by
      by_contra hcon
      have := h4.1 hcon
      rw [h3.1 (Or.inr trivial)] at this
      cases this
    simp only [buffer_inv]
    simp_all
  · -- next
    have he : s.index_result = s.current_result := h5 (by simp)
    have hc : (s.index_result + 1) % 2 ≠ s.current_result := by omega
    have hc2 : (s.index_result + 1) % 2 < 2 := by omega
    simp only [buffer_inv]
    simp_all

theorem draw_display_step_inv (s : buffer_state) (h : buffer_inv s) :
    buffer_inv (draw_display_step s) := by
  obtain ⟨h1, h2, h3, h4, h5, h6, h7, h8, h9, h10, h11, h12, h13⟩ := h
  unfold draw_display_step
  cases hpc : s.display_at <;> simp only [hpc] at h4 h11 h12 h13 ⊢
  · -- lock
    cases hm : s.current_result_mutex with
    | none =>
      simp only [buffer_inv]
      simp_all
    | some t =>
      simp only [buffer_inv]
      simp_all
  · simp only [buffer_inv]
    simp_all
  · simp only [buffer_inv]
    simp_all
  · simp only [buffer_inv]
    simp_all
  · simp only [buffer_inv]
    simp_all
  · simp only [buffer_inv]
    simp_all
  · simp only [buffer_inv]
    simp_all
  · -- unlock
    have hw : ¬ (s.nn_at = nn_pc.flip ∨ s.nn_at = nn_pc.unlock) := by
      intro hcon
      have := h3.1 hcon
      rw [h4.1 (by simp)] at this
      cases this
    simp only [buffer_inv]
    simp_all

theorem buffer_run_inv (schedule : List thread) : buffer_inv (buffer_run schedule) := by
  unfold buffer_run
  suffices H : ∀ s, buffer_inv s → buffer_inv (schedule.foldl buffer_step s) from
    H _ buffer_inv_init
  induction schedule with
  | nil => intro s hs; exact hs
  | cons t ts ih =>
    intro s hs
    apply ih
    cases t
    · exact nn_task_step_inv s hs
    · exact draw_display_step_inv s hs

/-- C8. Under every schedule of the steps of `nn_task` and `draw_display`, when
`draw_display` has read the current result slot under `current_result_mutex`
(it stands at the unlock), the character and the confidence it has read were
written by the same inference cycle. -/
theorem result_read_is_one_cycle (schedule : List thread)
    (h : (buffer_run schedule).display_at = display_pc.unlock) :
    (buffer_run schedule).rec_char = (buffer_run schedule).rec_prob :=
  (buffer_run_inv schedule).2.2.2.2.2.2.2.2.2.2.2.2 h

/-- C8, for a schedule in which `draw_display` reads slot 1, written by cycle 1,
while `nn_task` is writing slot 0 in cycle 2 and then waits for the mutex. -/
theorem result_read_is_one_cycle_witness :
    (buffer_run [thread.nn, thread.nn, thread.nn, thread.nn, thread.nn, thread.nn, thread.nn,
        thread.nn, thread.display, thread.nn, thread.display, thread.display, thread.nn,
        thread.nn, thread.display, thread.display, thread.nn, thread.display,
        thread.display]).display_at = display_pc.unlock ∧
    (buffer_run [thread.nn, thread.nn, thread.nn, thread.nn, thread.nn, thread.nn, thread.nn,
        thread.nn, thread.display, thread.nn, thread.display, thread.display, thread.nn,
        thread.nn, thread.display, thread.display, thread.nn, thread.display,
        thread.display]).rec_char =
    (buffer_run [thread.nn, thread.nn, thread.nn, thread.nn, thread.nn, thread.nn, thread.nn,
        thread.nn, thread.display, thread.nn, thread.display, thread.display, thread.nn,
        thread.nn, thread.display, thread.display, thread.nn, thread.display,
        thread.display]).rec_prob :=
  ⟨by decide, result_read_is_one_cycle _ (by decide)⟩

end HWR

namespace HWR

/-! ## Forward pass: theorems -/

theorem for_loop_zero {σ : Type} (body : Nat → σ → σ) (s : σ) : for_loop body 0 s = s := rfl

theorem for_loop_succ {σ : Type} (body : Nat → σ → σ) (n : Nat) (s : σ) :
    for_loop body (n + 1) s = body n (for_loop body n s) := by
  unfold for_loop
  rw [List.range_succ, List.foldl_append]
  rfl

/-- Loop invariant rule for `for_loop`. -/
theorem for_loop_induction {σ : Type} (P : Nat → σ → Prop) (body : Nat → σ → σ) (n : Nat)
    (s : σ) (h0 : P 0 s) (hstep : ∀ i st, i < n → P i st → P (i + 1) (body i st)) :
    P n (for_loop body n s) := by
  induction n with
  | zero => exact h0
  | succ k ih =>
    rw [for_loop_succ]
    exact hstep k _ (Nat.lt_succ_self k)
      (ih (fun i st hi hp => hstep i st (Nat.lt_succ_of_lt hi) hp))

/-- With all weights of output neuron `i` zero, `sum_up` is the bias. -/
theorem sum_up_zero_weights {F : Type} [LinearOrderedField F] (S : sinapsi_t F)
    (act : Nat → F) (i : Nat) (hw : ∀ j, S.weights i j = 0) : sum_up S act i = S.bias i := by
  unfold sum_up
  have h : for_loop (fun j acc => acc + S.weights i j * act j) S.card_in (0 : F) = 0 := by
    apply for_loop_induction (fun _ acc => acc = (0 : F))
    · rfl
    · intro j acc _ hacc
      simp only [hacc, hw j, zero_mul, add_zero]
  rw [h, zero_add]

/-- The loops before the output layer leave `out_S` and `out_L` as they are. -/
theorem fill_input_frame {F : Type} [LinearOrderedField F] (image : Nat → Nat → Bool)
    (net : network_t F) :
    (fill_input image net).out_S = net.out_S ∧ (fill_input image net).out_L = net.out_L := by
  unfold fill_input
  refine for_loop_induction
      (fun _ (n : network_t F) => n.out_S = net.out_S ∧ n.out_L = net.out_L) _ _ _ ?_ ?_
  · exact ⟨rfl, rfl⟩
  · intro i st _ hst
    refine for_loop_induction
      (fun _ (n : network_t F) => n.out_S = net.out_S ∧ n.out_L = net.out_L) _ _ _ ?_ ?_
    · exact hst
    · intro j st2 _ hst2
      exact hst2

theorem propagate_from_in_layer_frame {F : Type} [LinearOrderedField F] (exp : F → F)
    (net : network_t F) :
    (propagate_from_in_layer exp net).out_S = net.out_S ∧
    (propagate_from_in_layer exp net).out_L = net.out_L := by
  unfold propagate_from_in_layer
  refine for_loop_induction
      (fun _ (n : network_t F) => n.out_S = net.out_S ∧ n.out_L = net.out_L) _ _ _ ?_ ?_
  · exact ⟨rfl, rfl⟩
  · intro i st _ hst
    exact hst

theorem propagate_into_hid_layer_frame {F : Type} [LinearOrderedField F] (exp : F → F)
    (net : network_t F) :
    (propagate_into_hid_layer exp net).out_S = net.out_S ∧
    (propagate_into_hid_layer exp net).out_L = net.out_L := by
  unfold propagate_into_hid_layer
  refine for_loop_induction
      (fun _ (n : network_t F) => n.out_S = net.out_S ∧ n.out_L = net.out_L) _ _ _ ?_ ?_
  · exact ⟨rfl, rfl⟩
  · intro k st _ hst
    refine for_loop_induction
      (fun _ (n : network_t F) => n.out_S = net.out_S ∧ n.out_L = net.out_L) _ _ _ ?_ ?_
    · exact hst
    · intro i st2 _ hst2
      exact hst2

/-- The first loop of `propagate_to_out_layer` when every output neuron has
zero weights and a bias of at most -746: the seed 0 of `max_softmax` is never
replaced and every raw score is at most -746. -/
theorem out_scores_all_negative {F : Type} [LinearOrderedField F] (net : network_t F)
    (hw : ∀ i j, net.out_S.weights i j = 0) (hb : ∀ i, net.out_S.bias i ≤ -746) :
    (out_scores net).1.out_S = net.out_S ∧
    (out_scores net).1.out_L.num_neuron = net.out_L.num_neuron ∧
    (out_scores net).2 = 0 ∧
    ∀ j, j < net.out_S.card_out → (out_scores net).1.out_L.z_value j ≤ -746 := by
  unfold out_scores
  apply for_loop_induction (fun n (st : network_t F × F) =>
    st.1.out_S = net.out_S ∧ st.1.out_L.num_neuron = net.out_L.num_neuron ∧ st.2 = 0 ∧
    ∀ j, j < n → st.1.out_L.z_value j ≤ -746)
  · exact ⟨rfl, rfl, rfl, fun j hj => absurd hj (Nat.not_lt_zero j)⟩
  · intro i st _ ⟨h1, h2, h3, h4⟩
    have hs : sum_up st.1.out_S (st.1.hid_L (net.num_hidden - 1)).act_value i ≤ -746 := by
      rw [sum_up_zero_weights _ _ _ (fun j => by rw [h1]; exact hw i j), h1]
      exact hb i
    refine ⟨h1, h2, ?_, ?_⟩
    · simp only [h3]
      have : ¬ (0 : F) < sum_up st.1.out_S (st.1.hid_L (net.num_hidden - 1)).act_value i := by
        intro hpos
        have : (0 : F) < -746 := lt_of_lt_of_le hpos hs
        norm_num at this
      rw [if_neg this]
    · intro j hj
      by_cases hji : j = i
      · subst hji
        simp only [arr_set_same]
        exact hs
      · simp only [arr_set_other _ _ _ _ hji]
        exact h4 j (by omega)

/-- The second loop of `propagate_to_out_layer` on raw scores of at most -746
with `max_softmax = 0`, when `exp` underflows to 0 there: `sum_softmax` is 0. -/
theorem out_sum_underflow {F : Type} [LinearOrderedField F] (exp : F → F) (net : network_t F)
    (hexp : ∀ x : F, x ≤ -746 → exp x = 0)
    (hz : ∀ j, j < net.out_S.card_out → net.out_L.z_value j ≤ -746) :
    out_sum exp net 0 = 0 := by
  unfold out_sum
  refine for_loop_induction (fun _ (acc : F) => acc = 0) _ _ _ rfl ?_
  intro i acc hi hacc
  simp only [hacc, add_zero, zero_add]
  exact hexp _ (hz i hi)

/-- The third loop of `propagate_to_out_layer` in the same situation: every
output activation is computed as `exp(z + max) / sum_softmax` with numerator 0
(and divisor 0), which the model evaluates to 0. -/
theorem propagate_to_out_layer_underflow {F : Type} [LinearOrderedField F] (exp : F → F)
    (net : network_t F) (hexp : ∀ x : F, x ≤ -746 → exp x = 0)
    (hw : ∀ i j, net.out_S.weights i j = 0) (hb : ∀ i, net.out_S.bias i ≤ -746) :
    (propagate_to_out_layer exp net).out_L.num_neuron = net.out_L.num_neuron ∧
    ∀ j, j < net.out_S.card_out → (propagate_to_out_layer exp net).out_L.act_value j = 0 := by
  obtain ⟨h1, h2, h3, h4⟩ := out_scores_all_negative net hw hb
  unfold propagate_to_out_layer
  simp only [h1, h3]
  refine And.imp_left And.left (for_loop_induction (fun n (st : network_t F) =>
    (st.out_L.num_neuron = net.out_L.num_neuron ∧
      st.out_L.z_value = (out_scores net).1.out_L.z_value) ∧
    ∀ j, j < n → st.out_L.act_value j = 0) _ _ _ ⟨⟨h2, rfl⟩, ?_⟩ ?_)
  · intro j hj
    exact absurd hj (Nat.not_lt_zero j)
  · intro i st hi ⟨⟨hn, hz⟩, ha⟩
    refine ⟨⟨hn, hz⟩, ?_⟩
    intro j hj
    by_cases hji : j = i
    · subst hji
      simp only [arr_set_same, softmax, hz]
      rw [hexp _ (by simpa using h4 j hi), zero_div]
    · simp only [arr_set_other _ _ _ _ hji]
      exact ha j (by omega)

/-- The search loop on a layer whose first `num_neuron` activations are 0
leaves `max_prob` at 0 and `max_prob_index` at -1. -/
theorem max_search_all_zero {F : Type} [LinearOrderedField F] (L : layer_t F)
    (h : ∀ j, j < L.num_neuron → L.act_value j = 0) : max_search L = (0, -1) := by
  unfold max_search
  refine for_loop_induction (fun _ (st : F × Int) => st = (0, -1)) _ _ _ rfl ?_
  intro i st hi hst
  rw [hst, h i hi]
  simp

/-- C6 (the code at the failing input). Take `exp` to give 0 for arguments of
at most -746, as the C library function does on doubles, and a model whose raw
output scores are all at most -746 (zero output weights, output biases of at
most -746).  Then `max_softmax` keeps its seed 0, every `exp(z + max_softmax)`
is 0 and so is `sum_softmax`: every output activation is the quotient of 0 by
0 (NaN in C, 0 in the model), and the activations do not sum to 1. -/
theorem softmax_zero_over_zero {F : Type} [LinearOrderedField F] (exp : F → F)
    (net : network_t F) (hexp : ∀ x : F, x ≤ -746 → exp x = 0)
    (hw : ∀ i j, net.out_S.weights i j = 0) (hb : ∀ i, net.out_S.bias i ≤ -746) :
    (out_scores net).2 = 0 ∧
    out_sum exp (out_scores net).1 (out_scores net).2 = 0 ∧
    (∀ j, j < net.out_S.card_out →
      exp ((out_scores net).1.out_L.z_value j + (out_scores net).2) = 0) ∧
    (∑ j in Finset.range net.out_S.card_out,
      (propagate_to_out_layer exp net).out_L.act_value j) ≠ 1 := by
  obtain ⟨h1, h2, h3, h4⟩ := out_scores_all_negative net hw hb
  refine ⟨h3, ?_, ?_, ?_⟩
  · rw [h3]
    exact out_sum_underflow exp _ hexp (by rw [h1]; exact h4)
  · intro j hj
    rw [h3, add_zero]
    exact hexp _ (h4 j hj)
  · have hz := (propagate_to_out_layer_underflow exp net hexp hw hb).2
    rw [Finset.sum_eq_zero (fun j hj => hz j (Finset.mem_range.mp hj))]
    exact zero_ne_one

/-- C6, for the DIGITS model with all weights 0 and all output biases -1000. -/
theorem softmax_zero_over_zero_witness :
    (out_scores (digits_net_with_out_bias (-1000 : ℚ))).2 = 0 ∧
    out_sum exp_with_underflow (out_scores (digits_net_with_out_bias (-1000 : ℚ))).1
      (out_scores (digits_net_with_out_bias (-1000 : ℚ))).2 = 0 ∧
    (∀ j, j < (digits_net_with_out_bias (-1000 : ℚ)).out_S.card_out →
      exp_with_underflow ((out_scores (digits_net_with_out_bias (-1000 : ℚ))).1.out_L.z_value j +
        (out_scores (digits_net_with_out_bias (-1000 : ℚ))).2) = 0) ∧
    (∑ j in Finset.range (digits_net_with_out_bias (-1000 : ℚ)).out_S.card_out,
      (propagate_to_out_layer exp_with_underflow
        (digits_net_with_out_bias (-1000 : ℚ))).out_L.act_value j) ≠ 1 :=
  softmax_zero_over_zero exp_with_underflow (digits_net_with_out_bias (-1000 : ℚ))
    (fun _ hx => if_pos hx) (fun _ _ => rfl) (fun _ => (by decide : (-1000 : ℚ) ≤ -746))

/-- C7 (the code at the failing input). With `exp` giving 0 for arguments of
at most -746, the DIGITS model requested, zero output weights and output biases
of at most -746, every output activation is 0/0, no comparison
`max_prob < act_value[i]` succeeds, `max_prob_index` stays -1 and
`recognize_character` leaves `nn_result` as it was before the call, whatever
the image. -/
theorem recognize_character_keeps_stale_result {F : Type} [LinearOrderedField F]
    (exp : F → F) (image : Nat → Nat → Bool) (s : nn_state F)
    (hexp : ∀ x : F, x ≤ -746 → exp x = 0)
    (hm : s.requested_model = network_target.DIGITS)
    (hw : ∀ i j, (s.neural_network network_target.DIGITS).out_S.weights i j = 0)
    (hb : ∀ i, (s.neural_network network_target.DIGITS).out_S.bias i ≤ -746)
    (hn : (s.neural_network network_target.DIGITS).out_L.num_neuron ≤
      (s.neural_network network_target.DIGITS).out_S.card_out) :
    (recognize_character exp image s).nn_result = s.nn_result := by
  obtain ⟨f1, f2⟩ := fill_input_frame image (s.neural_network network_target.DIGITS)
  obtain ⟨g1, g2⟩ := propagate_from_in_layer_frame exp
    (fill_input image (s.neural_network network_target.DIGITS))
  obtain ⟨k1, k2⟩ := propagate_into_hid_layer_frame exp
    (propagate_from_in_layer exp (fill_input image (s.neural_network network_target.DIGITS)))
  have e1 := k1.trans (g1.trans f1)
  have e2 := k2.trans (g2.trans f2)
  obtain ⟨p1, p2⟩ := propagate_to_out_layer_underflow exp
    (propagate_into_hid_layer exp (propagate_from_in_layer exp
      (fill_input image (s.neural_network network_target.DIGITS)))) hexp
    (by rw [e1]; exact hw) (by rw [e1]; exact hb)
  rw [e1] at p2
  rw [e2] at p1
  have hsearch := max_search_all_zero _ (fun j hj => p2 j (by rw [p1] at hj; omega))
  unfold recognize_character
  simp only [hm, hsearch]
  rfl

/-- C7, for the DIGITS model with all weights 0 and all output biases -1000, a
fully black image and a previous result `'A'` with 99 percent. -/
theorem recognize_character_keeps_stale_result_witness :
    (recognize_character exp_with_underflow (fun _ _ => true)
      (digits_state_with_out_bias (-1000 : ℚ) ⟨'A', 99⟩)).nn_result = ⟨'A', 99⟩ :=
  recognize_character_keeps_stale_result exp_with_underflow (fun _ _ => true)
    (digits_state_with_out_bias (-1000 : ℚ) ⟨'A', 99⟩)
    (fun _ hx => if_pos hx) rfl (fun _ _ => rfl) (fun _ => (by decide : (-1000 : ℚ) ≤ -746)) (by decide)

end HWR

namespace HWR

/-! ## Weight files: stores outside the array `string` -/

/-- Loop rule for `for_return` with a property `Q` of the state and the
`return` flag that every iteration started without `return` establishes. -/
theorem for_return_post {σ : Type} (Q : σ × Bool → Prop) (body : Nat → σ → σ × Bool)
    (count first : Nat) (s : σ) (h0 : Q (s, false))
    (hstep : ∀ i st, Q (st, false) → Q (body i st)) :
    Q (for_return body first count s) := by
  induction count generalizing first s with
  | zero => exact h0
  | succ k ih =>
    unfold for_return
    by_cases hb : (body first s).2 = true
    · rw [if_pos hb]
      exact hstep first s h0
    · rw [if_neg hb]
      apply ih
      have h := hstep first s h0
      have hf : (body first s).2 = false := by
        cases hv : (body first s).2
        · rfl
        · exact absurd hv hb
      have he : body first s = ((body first s).1, false) := Prod.ext rfl hf
      rw [he] at h
      exact h

/-- A Boolean that is not true is false. -/
theorem bool_false_of_not_true (b : Bool) (h : ¬ b = true) : b = false := by
  cases b
  · rfl
  · exact absurd rfl h

/-- A store at an index below 10 assigns the cell and is inside the array. -/
theorem put_inside (r : reader) (c : Char) (h : r.char_count < 10) :
    (r.put c).string = arr_set r.string r.char_count c ∧ (r.put c).overrun = r.overrun := by
  unfold reader.put
  dsimp only
  rw [if_pos h]
  refine ⟨rfl, ?_⟩
  rw [decide_eq_false (by omega), Bool.or_false]

/-- A store at an index of 10 or more is outside the array. -/
theorem put_outside (r : reader) (c : Char) (h : 10 ≤ r.char_count) :
    (r.put c).overrun = true := by
  unfold reader.put
  dsimp only
  rw [decide_eq_true h, Bool.or_true]

/-- The weight loop of `load_input_sinapsi` and `load_out_sinapsi`, entered
with `char_count <= 10`, enough fuel and no store outside `string` so far:
`return ERROR` is executed exactly when a store outside `string` has been
executed, and without it `char_count` is at most 10 at the end. -/
theorem weight_loop_overrun (fuel : Nat) (r : reader) (hc : r.char_count ≤ 10)
    (hfuel : 11 ≤ fuel + r.char_count) (ho : r.overrun = false) :
    (weight_loop fuel r).1.overrun = (weight_loop fuel r).2 ∧
    ((weight_loop fuel r).2 = false → (weight_loop fuel r).1.char_count ≤ 10) := by
  induction fuel generalizing r with
  | zero => omega
  | succ k ih =>
    unfold weight_loop
    by_cases h1 : r.ch ≠ '_' ∧ r.ch ≠ '\n'
    · rw [if_pos h1]
      dsimp only
      by_cases h2 : (r.put r.ch).char_count + 1 > 10
      · rw [if_pos h2]
        exact ⟨put_outside r r.ch (by show 10 ≤ (r.put r.ch).char_count; omega),
          fun h => Bool.noConfusion h⟩
      · rw [if_neg h2]
        have h3 : r.char_count < 10 := by
          have : (r.put r.ch).char_count = r.char_count := rfl
          omega
        exact ih _ (by show r.char_count + 1 ≤ 10; omega)
          (by show 11 ≤ k + (r.char_count + 1); omega)
          (by show (r.put r.ch).overrun = false; rw [(put_inside r r.ch h3).2]; exact ho)
    · rw [if_neg h1]
      exact ⟨ho, fun _ => hc⟩

/-- The weight loop of `load_hidden_sinapsi`: as `weight_loop_overrun`. -/
theorem weight_loop_hidden_overrun (fuel : Nat) (r : reader) (hc : r.char_count ≤ 10)
    (hfuel : 11 ≤ fuel + r.char_count) (ho : r.overrun = false) :
    (weight_loop_hidden fuel r).1.overrun = (weight_loop_hidden fuel r).2 ∧
    ((weight_loop_hidden fuel r).2 = false → (weight_loop_hidden fuel r).1.char_count ≤ 10) := by
  induction fuel generalizing r with
  | zero => omega
  | succ k ih =>
    unfold weight_loop_hidden
    by_cases h1 : r.ch ≠ '_' ∧ r.ch ≠ '\n'
    · rw [if_pos h1]
      dsimp only
      by_cases h2 : r.char_count + 1 > 10
      · have e : (if ({ r.put r.ch with char_count := (r.put r.ch).char_count + 1 } :
              reader).get.char_count > 10
            then (({ r.put r.ch with char_count := (r.put r.ch).char_count + 1 } : reader).get,
              true)
            else weight_loop_hidden k
              ({ r.put r.ch with char_count := (r.put r.ch).char_count + 1 } : reader).get) =
            (({ r.put r.ch with char_count := (r.put r.ch).char_count + 1 } : reader).get,
              true) := if_pos h2
        rw [e]
        exact ⟨put_outside r r.ch (by omega), fun h => Bool.noConfusion h⟩
      · have e : (if ({ r.put r.ch with char_count := (r.put r.ch).char_count + 1 } :
              reader).get.char_count > 10
            then (({ r.put r.ch with char_count := (r.put r.ch).char_count + 1 } : reader).get,
              true)
            else weight_loop_hidden k
              ({ r.put r.ch with char_count := (r.put r.ch).char_count + 1 } : reader).get) =
            weight_loop_hidden k
              ({ r.put r.ch with char_count := (r.put r.ch).char_count + 1 } : reader).get :=
          if_neg h2
        rw [e]
        exact ih _ (by show r.char_count + 1 ≤ 10; omega)
          (by show 11 ≤ k + (r.char_count + 1); omega)
          (by show (r.put r.ch).overrun = false
              rw [(put_inside r r.ch (by omega)).2]; exact ho)
    · rw [if_neg h1]
      exact ⟨ho, fun _ => hc⟩

/-- The bias loop of the three loaders: as `weight_loop_overrun`. -/
theorem bias_loop_overrun (fuel : Nat) (r : reader) (hc : r.char_count ≤ 10)
    (hfuel : 11 ≤ fuel + r.char_count) (ho : r.overrun = false) :
    (bias_loop fuel r).1.overrun = (bias_loop fuel r).2 ∧
    ((bias_loop fuel r).2 = false → (bias_loop fuel r).1.char_count ≤ 10) := by
  induction fuel generalizing r with
  | zero => omega
  | succ k ih =>
    unfold bias_loop
    dsimp only
    by_cases h1 : r.get.ch ≠ '\n'
    · rw [if_pos h1]
      by_cases h2 : r.char_count + 1 > 10
      · have e : (if (r.get.put r.get.ch).char_count + 1 > 10
            then (({ r.get.put r.get.ch with
              char_count := (r.get.put r.get.ch).char_count + 1 } : reader), true)
            else bias_loop k ({ r.get.put r.get.ch with
              char_count := (r.get.put r.get.ch).char_count + 1 } : reader)) =
            (({ r.get.put r.get.ch with
              char_count := (r.get.put r.get.ch).char_count + 1 } : reader), true) := if_pos h2
        rw [e]
        exact ⟨put_outside r.get r.get.ch (by show 10 ≤ r.char_count; omega),
          fun h => Bool.noConfusion h⟩
      · have e : (if (r.get.put r.get.ch).char_count + 1 > 10
            then (({ r.get.put r.get.ch with
              char_count := (r.get.put r.get.ch).char_count + 1 } : reader), true)
            else bias_loop k ({ r.get.put r.get.ch with
              char_count := (r.get.put r.get.ch).char_count + 1 } : reader)) =
            bias_loop k ({ r.get.put r.get.ch with
              char_count := (r.get.put r.get.ch).char_count + 1 } : reader) := if_neg h2
        rw [e]
        exact ih _ (by show r.char_count + 1 ≤ 10; omega)
          (by show 11 ≤ k + (r.char_count + 1); omega)
          (by show (r.get.put r.get.ch).overrun = false
              rw [(put_inside r.get r.get.ch (by show r.char_count < 10; omega)).2]; exact ho)
    · rw [if_neg h1]
      exact ⟨ho, fun _ => hc⟩

/-- Loading of one sinapsi started between two fields with no store outside
`string` so far: the loader is left at once exactly when a store outside
`string` has been executed, and without it it ends between two fields.  So
`return ERROR` is never executed without such a store. -/
theorem load_sinapsi_overrun {F : Type} (atof : List Char → F)
    (loop : Nat → reader → reader × Bool)
    (hloop : ∀ fuel r, r.char_count ≤ 10 → 11 ≤ fuel + r.char_count → r.overrun = false →
      (loop fuel r).1.overrun = (loop fuel r).2 ∧
      ((loop fuel r).2 = false → (loop fuel r).1.char_count ≤ 10))
    (st : reader × sinapsi_t F) (hc : st.1.char_count = 0) (ho : st.1.overrun = false) :
    (load_sinapsi atof loop st).1.1.overrun = (load_sinapsi atof loop st).2 ∧
    ((load_sinapsi atof loop st).2 = false → (load_sinapsi atof loop st).1.1.char_count = 0) := by
  unfold load_sinapsi
  refine for_return_post (fun (q : (reader × sinapsi_t F) × Bool) =>
    q.1.1.overrun = q.2 ∧ (q.2 = false → q.1.1.char_count = 0)) _ _ _ _
    ⟨ho, fun _ => hc⟩ ?_
  intro i st1 ⟨a1, a2⟩
  have a1 : st1.1.overrun = false := a1
  have a2 : st1.1.char_count = 0 := a2 rfl
  unfold load_neuron
  dsimp only
  have hj := for_return_post (fun (q : (reader × sinapsi_t F) × Bool) =>
    q.1.1.overrun = q.2 ∧ (q.2 = false → q.1.1.char_count = 0))
    (load_weight atof loop i) st1.2.card_in 0 st1 ⟨a1, fun _ => a2⟩ (by
      intro j st2 ⟨b1, b2⟩
      have b1 : st2.1.overrun = false := b1
      have b2 : st2.1.char_count = 0 := b2 rfl
      unfold load_weight
      dsimp only
      obtain ⟨c1, c2⟩ := hloop (11 - st2.1.get.char_count) st2.1.get
        (by show st2.1.char_count ≤ 10; omega)
        (by show 11 ≤ 11 - st2.1.char_count + st2.1.char_count; omega) b1
      by_cases hf : (loop (11 - st2.1.get.char_count) st2.1.get).2 = true
      · rw [if_pos hf]
        exact ⟨by show (loop (11 - st2.1.get.char_count) st2.1.get).1.overrun = true
                  rw [c1, hf], fun h => Bool.noConfusion h⟩
      · rw [if_neg hf]
        by_cases hov : ((loop (11 - st2.1.get.char_count) st2.1.get).1.put
            (Char.ofNat 0)).overrun = true
        · rw [if_pos hov]
          exact ⟨hov, fun h => Bool.noConfusion h⟩
        · rw [if_neg hov]
          exact ⟨bool_false_of_not_true _ hov, fun _ => rfl⟩)
  obtain ⟨d1, d2⟩ := hj
  by_cases hw2 : (for_return (load_weight atof loop i) 0 st1.2.card_in st1).2 = true
  · rw [if_pos hw2]
    exact ⟨d1, d2⟩
  · rw [if_neg hw2]
    have hw3 := bool_false_of_not_true _ hw2
    have d2 : (for_return (load_weight atof loop i) 0 st1.2.card_in st1).1.1.char_count = 0 :=
      d2 hw3
    rw [hw3] at d1
    obtain ⟨e1, e2⟩ := bias_loop_overrun
      (11 - (for_return (load_weight atof loop i) 0 st1.2.card_in st1).1.1.char_count)
      (for_return (load_weight atof loop i) 0 st1.2.card_in st1).1.1 (by omega) (by omega) d1
    by_cases hb : (bias_loop
        (11 - (for_return (load_weight atof loop i) 0 st1.2.card_in st1).1.1.char_count)
        (for_return (load_weight atof loop i) 0 st1.2.card_in st1).1.1).2 = true
    · rw [if_pos hb]
      exact ⟨by show (bias_loop _ _).1.overrun = true
                rw [e1, hb], fun h => Bool.noConfusion h⟩
    · rw [if_neg hb]
      by_cases hov : ((bias_loop
          (11 - (for_return (load_weight atof loop i) 0 st1.2.card_in st1).1.1.char_count)
          (for_return (load_weight atof loop i) 0 st1.2.card_in st1).1.1).1.put
            (Char.ofNat 0)).overrun = true
      · rw [if_pos hov]
        exact ⟨hov, fun h => Bool.noConfusion h⟩
      · rw [if_neg hov]
        exact ⟨bool_false_of_not_true _ hov, fun _ => rfl⟩

/-- The value returned with locals in which `overrun` tells whether the loader
was left at once: never `ERROR`. -/
theorem loader_ret_eq (r : reader) ( left : Bool) (h : r.overrun = left) :
    loader_ret r left = if left then none else some nn_handler_SUCCESS := by
  unfold loader_ret
  rw [h]
  cases left <;> rfl

/-- Function `load_input_sinapsi`: the value returned, from the flag of its loops. -/
theorem load_input_sinapsi_ret {F : Type} (atof : List Char → F) (fp : stream)
    (net : network_t F) :
    (load_input_sinapsi atof fp net).ret =
      if (load_sinapsi atof weight_loop
        (reader_init fp (fun _ => Char.ofNat 0), net.in_S)).2 then none
      else some nn_handler_SUCCESS :=
  loader_ret_eq _ _ (load_sinapsi_overrun atof weight_loop weight_loop_overrun
    (reader_init fp (fun _ => Char.ofNat 0), net.in_S) rfl rfl).1

/-- Function `load_out_sinapsi`: the value returned, from the flag of its loops. -/
theorem load_out_sinapsi_ret {F : Type} (atof : List Char → F) (string0 : Nat → Char)
    (fp : stream) (net : network_t F) :
    (load_out_sinapsi atof string0 fp net).ret =
      if (load_sinapsi atof weight_loop (reader_init fp string0, net.out_S)).2 then none
      else some nn_handler_SUCCESS :=
  loader_ret_eq _ _ (load_sinapsi_overrun atof weight_loop weight_loop_overrun
    (reader_init fp string0, net.out_S) rfl rfl).1

/-- Function `load_hidden_sinapsi`: the value returned, from the flag of its loops. -/
theorem load_hidden_sinapsi_ret {F : Type} (atof : List Char → F) (string0 : Nat → Char)
    (fp : stream) (net : network_t F) :
    (load_hidden_sinapsi atof string0 fp net).ret =
      if (for_return (load_hidden_k atof) 0 (net.num_hidden - 1)
        (reader_init fp string0, net.hid_S)).2 then none
      else some nn_handler_SUCCESS := by
  have h := for_return_post (fun (q : (reader × (Nat → sinapsi_t F)) × Bool) =>
    q.1.1.overrun = q.2 ∧ (q.2 = false → q.1.1.char_count = 0))
    (load_hidden_k atof) (net.num_hidden - 1) 0 (reader_init fp string0, net.hid_S)
    ⟨rfl, fun _ => rfl⟩ (by
      intro k st ⟨a1, a2⟩
      exact load_sinapsi_overrun atof weight_loop_hidden weight_loop_hidden_overrun
        (st.1, st.2 k) (a2 rfl) a1)
  exact loader_ret_eq _ _ h.1

/-- No loader ever returns `ERROR` without having stored outside `string`:
the value returned is `SUCCESS` or the behaviour is undefined. -/
theorem loaders_ret_cases {F : Type} (atof : List Char → F) (string0 : Nat → Char)
    (fp : stream) (net : network_t F) :
    ((load_input_sinapsi atof fp net).ret = none ∨
      (load_input_sinapsi atof fp net).ret = some nn_handler_SUCCESS) ∧
    ((load_hidden_sinapsi atof string0 fp net).ret = none ∨
      (load_hidden_sinapsi atof string0 fp net).ret = some nn_handler_SUCCESS) ∧
    ((load_out_sinapsi atof string0 fp net).ret = none ∨
      (load_out_sinapsi atof string0 fp net).ret = some nn_handler_SUCCESS) := by
  rw [load_input_sinapsi_ret, load_hidden_sinapsi_ret, load_out_sinapsi_ret]
  refine ⟨?_, ?_, ?_⟩ <;> split_ifs <;> simp

end HWR

namespace HWR

/-! ## Weight files: the loaders on a file of empty fields -/

/-- Loop rule for `for_return` when no iteration executes `return`. -/
theorem for_return_induction {σ : Type} (P : Nat → σ → Prop) (body : Nat → σ → σ × Bool)
    (count first : Nat) (s : σ) (h0 : P first s)
    (hstep : ∀ i st, first ≤ i → i < first + count → P i st →
      (body i st).2 = false ∧ P (i + 1) (body i st).1) :
    (for_return body first count s).2 = false ∧
    P (first + count) (for_return body first count s).1 := by
  induction count generalizing first s with
  | zero => exact ⟨rfl, h0⟩
  | succ k ih =>
    obtain ⟨hb, hp⟩ := hstep first s (Nat.le_refl _) (by omega) h0
    unfold for_return
    rw [if_neg (by rw [hb]; exact Bool.false_ne_true)]
    have := ih (first + 1) (body first s).1 hp
      (fun i st h1 h2 hP => hstep i st (by omega) (by omega) hP)
    rw [show first + (k + 1) = first + 1 + k by omega]
    exact this

theorem weight_loop_newline (r : reader) (k : Nat) (h : r.ch = '\n') :
    weight_loop (k + 1) r = (r, false) := by
  unfold weight_loop
  rw [if_neg (by simp [h])]

theorem weight_loop_hidden_newline (r : reader) (k : Nat) (h : r.ch = '\n') :
    weight_loop_hidden (k + 1) r = (r, false) := by
  unfold weight_loop_hidden
  rw [if_neg (by simp [h])]

/-- Reading one (empty) weight field. -/
theorem load_weight_newline {F : Type} (atof : List Char → F)
    (loop : Nat → reader → reader × Bool)
    (hloop : ∀ (r : reader) (k : Nat), r.ch = '\n' → loop (k + 1) r = (r, false))
    (S : sinapsi_t F) (i j m : Nat) (st : reader × sinapsi_t F)
    (h : between_fields S (m + 1) st) :
    (load_weight atof loop i j st).2 = false ∧
    between_fields S m (load_weight atof loop i j st).1 := by
  obtain ⟨h1, h2, h3, h4, h5⟩ := h
  have hget : st.1.get.ch = '\n' ∧ st.1.get.fp = List.replicate m '\n' ∧
      st.1.get.char_count = 0 := by
    simp [reader.get, fgetc, h1, h2, List.replicate_succ]
  have hl : loop (11 - st.1.get.char_count) st.1.get = (st.1.get, false) := by
    rw [hget.2.2]
    exact hloop _ 10 hget.1
  have hov : (st.1.get.put (Char.ofNat 0)).overrun = false := by
    rw [(put_inside st.1.get (Char.ofNat 0) (by rw [hget.2.2]; decide)).2]
    exact h5
  unfold load_weight
  simp only [hl, hov]
  refine ⟨by simp, ?_⟩
  simp only [Bool.false_eq_true, if_false]
  exact ⟨by simp [reader.put, hget.2.1], rfl, h3, h4, rfl⟩

/-- Reading the `card_in` (empty) weight fields and the (empty) bias field of
one output neuron. -/
theorem load_neuron_newline {F : Type} (atof : List Char → F)
    (loop : Nat → reader → reader × Bool)
    (hloop : ∀ (r : reader) (k : Nat), r.ch = '\n' → loop (k + 1) r = (r, false))
    (S : sinapsi_t F) (i m : Nat) (st : reader × sinapsi_t F)
    (h : between_fields S (m + (S.card_in + 1)) st) :
    (load_neuron atof loop i st).2 = false ∧
    between_fields S m (load_neuron atof loop i st).1 := by
  have hw := for_return_induction
    (fun j (x : reader × sinapsi_t F) => between_fields S (m + 1 + (S.card_in - j)) x)
    (load_weight atof loop i) S.card_in 0 st
    (by simpa [Nat.add_assoc, Nat.add_comm 1] using h)
    (fun j x _ hj hx => by
      have e : m + 1 + (S.card_in - j) = (m + 1 + (S.card_in - (j + 1))) + 1 := by omega
      dsimp only at hx ⊢
      rw [e] at hx
      exact load_weight_newline atof loop hloop S i j _ x hx)
  obtain ⟨hw1, hw2⟩ := hw
  simp only [Nat.zero_add, Nat.sub_self, Nat.add_zero] at hw2
  have hcard : st.2.card_in = S.card_in := h.2.2.1
  unfold load_neuron
  simp only [hcard, hw1, Bool.false_eq_true, if_false]
  obtain ⟨b1, b2, b3, b4, b5⟩ := hw2
  have hb : bias_loop (11 - (for_return (load_weight atof loop i) 0 S.card_in st).1.1.char_count)
      (for_return (load_weight atof loop i) 0 S.card_in st).1.1 =
      ((for_return (load_weight atof loop i) 0 S.card_in st).1.1.get, false) := by
    rw [b2]
    unfold bias_loop
    simp [reader.get, fgetc, b1, List.replicate_succ]
  have hov : ((for_return (load_weight atof loop i) 0 S.card_in st).1.1.get.put
      (Char.ofNat 0)).overrun = false := by
    rw [(put_inside _ (Char.ofNat 0) (by
      show (for_return (load_weight atof loop i) 0 S.card_in st).1.1.char_count < 10
      rw [b2]; decide)).2]
    exact b5
  simp only [hb, hov, Bool.false_eq_true, if_false]
  refine ⟨trivial, ?_⟩
  exact ⟨by simp [reader.put, reader.get, fgetc, b1, List.replicate_succ], rfl, b3, b4, rfl⟩

/-- Loading a whole sinapsi from a file of empty fields succeeds and consumes
`card_out * (card_in + 1)` newline characters. -/
theorem load_sinapsi_newline {F : Type} (atof : List Char → F)
    (loop : Nat → reader → reader × Bool)
    (hloop : ∀ (r : reader) (k : Nat), r.ch = '\n' → loop (k + 1) r = (r, false))
    (m : Nat) (st : reader × sinapsi_t F)
    (h : between_fields st.2 (m + st.2.card_out * (st.2.card_in + 1)) st) :
    (load_sinapsi atof loop st).2 = false ∧
    between_fields st.2 m (load_sinapsi atof loop st).1 := by
  have hw := for_return_induction
    (fun i (x : reader × sinapsi_t F) =>
      between_fields st.2 (m + (st.2.card_out - i) * (st.2.card_in + 1)) x)
    (load_neuron atof loop) st.2.card_out 0 st
    (by simpa using h)
    (fun i x _ hi hx => by
      have e : m + (st.2.card_out - i) * (st.2.card_in + 1) =
          (m + (st.2.card_out - (i + 1)) * (st.2.card_in + 1)) + (st.2.card_in + 1) := by
        have : st.2.card_out - i = (st.2.card_out - (i + 1)) + 1 := by omega
        rw [this, Nat.add_mul, Nat.one_mul, Nat.add_assoc]
      dsimp only at hx ⊢
      rw [e] at hx
      exact load_neuron_newline atof loop hloop st.2 i _ x hx)
  obtain ⟨hw1, hw2⟩ := hw
  simp only [Nat.zero_add, Nat.sub_self, Nat.zero_mul, Nat.add_zero] at hw2
  exact ⟨hw1, hw2⟩

theorem hidden_fields_mono {F : Type} (hid_S : Nat → sinapsi_t F) (a b : Nat) (h : a ≤ b) :
    hidden_fields hid_S a ≤ hidden_fields hid_S b := by
  induction b with
  | zero =>
    have : a = 0 := by omega
    rw [this]
  | succ k ih =>
    by_cases hk : a = k + 1
    · rw [hk]
    · have := ih (by omega)
      show hidden_fields hid_S a ≤ hidden_fields hid_S k + sinapsi_fields (hid_S k)
      omega

theorem load_input_sinapsi_newline {F : Type} (atof : List Char → F) (net : network_t F)
    (m : Nat) :
    (load_input_sinapsi atof (List.replicate (m + sinapsi_fields net.in_S) '\n') net).ret
      = some nn_handler_SUCCESS ∧
    (load_input_sinapsi atof (List.replicate (m + sinapsi_fields net.in_S) '\n') net).fp
      = List.replicate m '\n' ∧
    same_sizes
      (load_input_sinapsi atof (List.replicate (m + sinapsi_fields net.in_S) '\n') net).net net := by
  obtain ⟨h1, h2, _, h3, h4, _⟩ := load_sinapsi_newline atof weight_loop weight_loop_newline m
    (reader_init (List.replicate (m + sinapsi_fields net.in_S) '\n') (fun _ => Char.ofNat 0),
      net.in_S) ⟨rfl, rfl, rfl, rfl, rfl⟩
  refine ⟨by rw [load_input_sinapsi_ret, h1]; rfl, ?_⟩
  unfold load_input_sinapsi
  exact ⟨h2, rfl, h3, h4, fun _ => ⟨rfl, rfl⟩, rfl, rfl⟩

theorem load_out_sinapsi_newline {F : Type} (atof : List Char → F) (string0 : Nat → Char)
    (net : network_t F) (m : Nat) :
    (load_out_sinapsi atof string0 (List.replicate (m + sinapsi_fields net.out_S) '\n') net).ret
      = some nn_handler_SUCCESS ∧
    (load_out_sinapsi atof string0 (List.replicate (m + sinapsi_fields net.out_S) '\n') net).fp
      = List.replicate m '\n' ∧
    same_sizes
      (load_out_sinapsi atof string0
        (List.replicate (m + sinapsi_fields net.out_S) '\n') net).net net := by
  obtain ⟨h1, h2, _, h3, h4, _⟩ := load_sinapsi_newline atof weight_loop weight_loop_newline m
    (reader_init (List.replicate (m + sinapsi_fields net.out_S) '\n') string0, net.out_S)
    ⟨rfl, rfl, rfl, rfl, rfl⟩
  refine ⟨by rw [load_out_sinapsi_ret, h1]; rfl, ?_⟩
  unfold load_out_sinapsi
  exact ⟨h2, rfl, rfl, rfl, fun _ => ⟨rfl, rfl⟩, h3, h4⟩

theorem load_hidden_sinapsi_newline {F : Type} (atof : List Char → F) (string0 : Nat → Char)
    (net : network_t F) (m : Nat) :
    (load_hidden_sinapsi atof string0
      (List.replicate (m + hidden_fields net.hid_S (net.num_hidden - 1)) '\n') net).ret
      = some nn_handler_SUCCESS ∧
    (load_hidden_sinapsi atof string0
      (List.replicate (m + hidden_fields net.hid_S (net.num_hidden - 1)) '\n') net).fp
      = List.replicate m '\n' ∧
    same_sizes
      (load_hidden_sinapsi atof string0
        (List.replicate (m + hidden_fields net.hid_S (net.num_hidden - 1)) '\n') net).net
      net := by
  have hw := for_return_induction
    (fun k (x : reader × (Nat → sinapsi_t F)) =>
      x.1.fp = List.replicate (m + (hidden_fields net.hid_S (net.num_hidden - 1) -
        hidden_fields net.hid_S k)) '\n' ∧ x.1.char_count = 0 ∧ x.1.overrun = false ∧
      ∀ l, (x.2 l).card_in = (net.hid_S l).card_in ∧ (x.2 l).card_out = (net.hid_S l).card_out)
    (load_hidden_k atof) (net.num_hidden - 1) 0
    (reader_init (List.replicate (m + hidden_fields net.hid_S (net.num_hidden - 1)) '\n') string0,
      net.hid_S)
    ⟨rfl, rfl, rfl, fun _ => ⟨rfl, rfl⟩⟩
    (fun k x _ hk hx => by
      dsimp only at hx ⊢
      obtain ⟨x1, x2, x4, x3⟩ := hx
      have hmono := hidden_fields_mono net.hid_S (k + 1) (net.num_hidden - 1) (by omega)
      have hk1 : hidden_fields net.hid_S (k + 1) =
          hidden_fields net.hid_S k + sinapsi_fields (net.hid_S k) := rfl
      have e : m + (hidden_fields net.hid_S (net.num_hidden - 1) - hidden_fields net.hid_S k) =
          (m + (hidden_fields net.hid_S (net.num_hidden - 1) - hidden_fields net.hid_S (k + 1)))
            + (x.2 k).card_out * ((x.2 k).card_in + 1) := by
        rw [(x3 k).1, (x3 k).2]
        unfold sinapsi_fields at hk1
        omega
      obtain ⟨r1, r2, r3, r4, r5, r6⟩ := load_sinapsi_newline atof weight_loop_hidden
        weight_loop_hidden_newline
        (m + (hidden_fields net.hid_S (net.num_hidden - 1) - hidden_fields net.hid_S (k + 1)))
        (x.1, x.2 k) ⟨by rw [x1, e], x2, rfl, rfl, x4⟩
      unfold load_hidden_k
      refine ⟨r1, r2, r3, r6, ?_⟩
      intro l
      by_cases hl : l = k
      · subst hl
        simp only [arr_set_same]
        exact ⟨r4.trans (x3 l).1, r5.trans (x3 l).2⟩
      · simp only [arr_set_other _ _ _ _ hl]
        exact x3 l)
  obtain ⟨hw1, hw2, _, _, hw4⟩ := hw
  simp only [Nat.zero_add, Nat.sub_self, Nat.add_zero] at hw2
  refine ⟨by rw [load_hidden_sinapsi_ret, hw1]; rfl, ?_⟩
  unfold load_hidden_sinapsi
  exact ⟨hw2, rfl, rfl, rfl, hw4, rfl, rfl⟩

theorem same_sizes_fields {F : Type} (a b : network_t F) (h : same_sizes a b) :
    sinapsi_fields a.in_S = sinapsi_fields b.in_S ∧
    (∀ k, hidden_fields a.hid_S k = hidden_fields b.hid_S k) ∧
    sinapsi_fields a.out_S = sinapsi_fields b.out_S := by
  obtain ⟨_, h1, h2, h3, h4, h5⟩ := h
  refine ⟨by unfold sinapsi_fields; rw [h1, h2], ?_, by unfold sinapsi_fields; rw [h4, h5]⟩
  intro k
  induction k with
  | zero => rfl
  | succ k ih =>
    show hidden_fields a.hid_S k + sinapsi_fields (a.hid_S k) =
      hidden_fields b.hid_S k + sinapsi_fields (b.hid_S k)
    rw [ih]
    unfold sinapsi_fields
    rw [(h3 k).1, (h3 k).2]

theorem same_sizes_trans {F : Type} (a b c : network_t F) (h1 : same_sizes a b)
    (h2 : same_sizes b c) : same_sizes a c := by
  obtain ⟨a0, a1, a2, a3, a4, a5⟩ := h1
  obtain ⟨b0, b1, b2, b3, b4, b5⟩ := h2
  exact ⟨a0.trans b0, a1.trans b1, a2.trans b2,
    fun k => ⟨(a3 k).1.trans (b3 k).1, (a3 k).2.trans (b3 k).2⟩, a4.trans b4, a5.trans b5⟩

/-- The three loaders, run in sequence on a file of `model_fields net` empty
fields (followed by `m` more newline characters), all succeed. -/
theorem load_model_newline {F : Type} (atof : List Char → F) (string0 : Nat → Char)
    (net : network_t F) (m : Nat) :
    (load_model atof string0 (List.replicate (m + model_fields net) '\n') net).2 =
      some false ∧
    same_sizes (load_model atof string0 (List.replicate (m + model_fields net) '\n') net).1
      net := by
  have e1 : m + model_fields net =
      (m + sinapsi_fields net.out_S + hidden_fields net.hid_S (net.num_hidden - 1)) +
        sinapsi_fields net.in_S := by
    unfold model_fields
    omega
  obtain ⟨i1, i2, i3⟩ := load_input_sinapsi_newline atof net
    (m + sinapsi_fields net.out_S + hidden_fields net.hid_S (net.num_hidden - 1))
  rw [← e1] at i1 i2 i3
  obtain ⟨f1, f2, f3⟩ := same_sizes_fields _ _ i3
  obtain ⟨k1, k2, k3⟩ := load_hidden_sinapsi_newline atof string0
    (load_input_sinapsi atof (List.replicate (m + model_fields net) '\n') net).net
    (m + sinapsi_fields net.out_S)
  rw [f2, i3.1, ← i2] at k1 k2 k3
  obtain ⟨g1, g2, g3⟩ := same_sizes_fields _ _ k3
  obtain ⟨o1, o2, o3⟩ := load_out_sinapsi_newline atof string0
    (load_hidden_sinapsi atof string0
      (load_input_sinapsi atof (List.replicate (m + model_fields net) '\n') net).fp
      (load_input_sinapsi atof (List.replicate (m + model_fields net) '\n') net).net).net m
  rw [g3, f3, ← k2] at o1 o2 o3
  have n1 : ¬ (some nn_handler_SUCCESS : Option Int) = none := by decide
  have n2 : ¬ (some nn_handler_SUCCESS : Option Int) = some nn_handler_ERROR := by decide
  unfold load_model
  simp only [i1, k1, o1, if_neg n1, if_neg n2]
  exact ⟨trivial, same_sizes_trans _ _ _ o3 (same_sizes_trans _ _ _ k3 i3)⟩

theorem net_upd_other {F : Type} (nn : network_target → network_t F) (t u : network_target)
    (f : network_t F → network_t F) (h : u ≠ t) : net_upd nn t f u = nn u := by
  simp [net_upd, h]

/-- The sizes `init_digits_net` gives the DIGITS model. -/
theorem init_sizes_digits {F : Type} (nn : network_target → network_t F) :
    (init_mixed_net (init_letters_net (init_digits_net nn)) network_target.DIGITS).num_hidden
      = 2 ∧
    (init_mixed_net (init_letters_net (init_digits_net nn)) network_target.DIGITS).in_S.card_in
      = 784 ∧
    (init_mixed_net (init_letters_net (init_digits_net nn)) network_target.DIGITS).in_S.card_out
      = 64 ∧
    ((init_mixed_net (init_letters_net (init_digits_net nn)) network_target.DIGITS).hid_S 0).card_in
      = 64 ∧
    ((init_mixed_net (init_letters_net (init_digits_net nn)) network_target.DIGITS).hid_S 0).card_out
      = 32 ∧
    (init_mixed_net (init_letters_net (init_digits_net nn)) network_target.DIGITS).out_S.card_in
      = 32 ∧
    (init_mixed_net (init_letters_net (init_digits_net nn)) network_target.DIGITS).out_S.card_out
      = 10 :=
  ⟨rfl, rfl, rfl, rfl, rfl, rfl, rfl⟩

/-- The sizes `init_letters_net` gives the LETTERS model. -/
theorem init_sizes_letters {F : Type} (nn : network_target → network_t F) :
    (init_mixed_net (init_letters_net (init_digits_net nn)) network_target.LETTERS).num_hidden
      = 3 ∧
    (init_mixed_net (init_letters_net (init_digits_net nn)) network_target.LETTERS).in_S.card_in
      = 784 ∧
    (init_mixed_net (init_letters_net (init_digits_net nn)) network_target.LETTERS).in_S.card_out
      = 128 ∧
    ((init_mixed_net (init_letters_net (init_digits_net nn)) network_target.LETTERS).hid_S 0).card_in
      = 128 ∧
    ((init_mixed_net (init_letters_net (init_digits_net nn)) network_target.LETTERS).hid_S 0).card_out
      = 128 ∧
    ((init_mixed_net (init_letters_net (init_digits_net nn)) network_target.LETTERS).hid_S 1).card_in
      = 128 ∧
    ((init_mixed_net (init_letters_net (init_digits_net nn)) network_target.LETTERS).hid_S 1).card_out
      = 128 ∧
    (init_mixed_net (init_letters_net (init_digits_net nn)) network_target.LETTERS).out_S.card_in
      = 128 ∧
    (init_mixed_net (init_letters_net (init_digits_net nn)) network_target.LETTERS).out_S.card_out
      = 26 :=
  ⟨rfl, rfl, rfl, rfl, rfl, rfl, rfl, rfl, rfl⟩

/-- The sizes `init_mixed_net` gives the MIXED model. -/
theorem init_sizes_mixed {F : Type} (nn : network_target → network_t F) :
    (init_mixed_net (init_letters_net (init_digits_net nn)) network_target.MIXED).num_hidden
      = 3 ∧
    (init_mixed_net (init_letters_net (init_digits_net nn)) network_target.MIXED).in_S.card_in
      = 784 ∧
    (init_mixed_net (init_letters_net (init_digits_net nn)) network_target.MIXED).in_S.card_out
      = 512 ∧
    ((init_mixed_net (init_letters_net (init_digits_net nn)) network_target.MIXED).hid_S 0).card_in
      = 512 ∧
    ((init_mixed_net (init_letters_net (init_digits_net nn)) network_target.MIXED).hid_S 0).card_out
      = 512 ∧
    ((init_mixed_net (init_letters_net (init_digits_net nn)) network_target.MIXED).hid_S 1).card_in
      = 512 ∧
    ((init_mixed_net (init_letters_net (init_digits_net nn)) network_target.MIXED).hid_S 1).card_out
      = 512 ∧
    (init_mixed_net (init_letters_net (init_digits_net nn)) network_target.MIXED).out_S.card_in
      = 512 ∧
    (init_mixed_net (init_letters_net (init_digits_net nn)) network_target.MIXED).out_S.card_out
      = 47 :=
  ⟨rfl, rfl, rfl, rfl, rfl, rfl, rfl, rfl, rfl⟩

/-- Number of fields of the weight file of each model. -/
theorem model_fields_init {F : Type} (nn : network_target → network_t F) :
    model_fields (init_mixed_net (init_letters_net (init_digits_net nn))
      network_target.DIGITS) = 52650 ∧
    model_fields (init_mixed_net (init_letters_net (init_digits_net nn))
      network_target.LETTERS) = 136858 ∧
    model_fields (init_mixed_net (init_letters_net (init_digits_net nn))
      network_target.MIXED) = 951343 := by
  obtain ⟨d0, d1, d2, d3, d4, d5, d6⟩ := init_sizes_digits nn
  obtain ⟨l0, l1, l2, l3, l4, l5, l6, l7, l8⟩ := init_sizes_letters nn
  obtain ⟨m0, m1, m2, m3, m4, m5, m6, m7, m8⟩ := init_sizes_mixed nn
  refine ⟨?_, ?_, ?_⟩
  · unfold model_fields sinapsi_fields
    rw [d0, d1, d2, d5, d6]
    show _ + (hidden_fields _ 0 + sinapsi_fields _) + _ = _
    unfold sinapsi_fields
    rw [d3, d4]
    simp only [hidden_fields]
  · unfold model_fields sinapsi_fields
    rw [l0, l1, l2, l7, l8]
    show _ + ((hidden_fields _ 0 + sinapsi_fields _) + sinapsi_fields _) + _ = _
    unfold sinapsi_fields
    rw [l3, l4, l5, l6]
    simp only [hidden_fields]
  · unfold model_fields sinapsi_fields
    rw [m0, m1, m2, m7, m8]
    show _ + ((hidden_fields _ 0 + sinapsi_fields _) + sinapsi_fields _) + _ = _
    unfold sinapsi_fields
    rw [m3, m4, m5, m6]
    simp only [hidden_fields]

/-- On three files of empty fields, one field for every weight and bias of
the model, every loader succeeds and `init_networks` returns 1. -/
theorem init_networks_newline_files {F : Type} (atof : List Char → F) (string0 : Nat → Char)
    (s : nn_state F) :
    (init_networks (newline_files atof string0 52650 136858 951343) s).ret = some 1 := by
  obtain ⟨fd, fl, fm⟩ := model_fields_init s.neural_network
  have hd := (load_model_newline atof string0
    (init_mixed_net (init_letters_net (init_digits_net s.neural_network))
      network_target.DIGITS) 0).1
  rw [fd] at hd
  have el : ∀ f, net_upd (init_mixed_net (init_letters_net (init_digits_net s.neural_network)))
      network_target.DIGITS f network_target.LETTERS =
      init_mixed_net (init_letters_net (init_digits_net s.neural_network))
        network_target.LETTERS := fun f => net_upd_other _ _ _ f (by decide)
  have hl := (load_model_newline atof string0
    (init_mixed_net (init_letters_net (init_digits_net s.neural_network))
      network_target.LETTERS) 0).1
  rw [fl] at hl
  have em : ∀ f g, net_upd (net_upd
      (init_mixed_net (init_letters_net (init_digits_net s.neural_network)))
      network_target.DIGITS f) network_target.LETTERS g network_target.MIXED =
      init_mixed_net (init_letters_net (init_digits_net s.neural_network))
        network_target.MIXED := fun f g => by
    rw [net_upd_other _ _ _ g (by decide), net_upd_other _ _ _ f (by decide)]
  have hm := (load_model_newline atof string0
    (init_mixed_net (init_letters_net (init_digits_net s.neural_network))
      network_target.MIXED) 0).1
  rw [fm] at hm
  unfold init_networks
  simp only [newline_files, Nat.zero_add] at hd hl hm ⊢
  have n1 : ¬ (some false : Option Bool) = none := by decide
  have n2 : ¬ (some false : Option Bool) = some true := by decide
  simp only [hd, if_neg n1, if_neg n2]
  unfold init_networks_letters
  simp only [el, hl, if_neg n1, if_neg n2]
  unfold init_networks_mixed
  simp only [em, hm, if_neg n1, if_neg n2]
  rfl

end HWR

namespace HWR

/-! ## Start-up on well-formed weight files -/

theorem init_display_ok (r : sqr_center_t) :
    (init_display display_env_ok r).2 = DISPLAY_SUCCESS := by
  unfold init_display
  simp [display_env_ok]

/-- Function `init` when the display and the camera are set up and `init_networks`
returns a value other than `NN_SUCCESS`. -/
theorem init_networks_error_path {F : Type} (env : init_env F) (s : app_state F)
    (error : Int) (n : nn_state F)
    (hd : (init_display env.display s.ROI_dim).2 = DISPLAY_SUCCESS)
    (hc : env.cam_ret = CAM_SUCCESS)
    (hi : init_networks env.nn s.nn = init_networks_result.returned error n)
    (he : error ≠ NN_SUCCESS) :
    (init env s).ret = some hwr_ERROR ∧
    (init env s).globals.completed = nn_error error s.completed := by
  unfold init
  simp only [hd, hc, hi, ne_eq, not_true_eq_false, if_false, he, not_false_eq_true, if_true]
  refine ⟨rfl, ?_⟩
  simp only [init_result.globals, display_error, cam_error]
  rw [if_neg (by decide), if_neg (by decide)]

/-- C4 (what the code does). `init_networks` never returns `NN_SUCCESS`: on
the path where the three files are open and every loader has succeeded it
returns the local macro `SUCCESS`, which is 1, the value of `NN_ERROR_NO_FILE`.
Hence `init` never returns its `SUCCESS` either, and however it ends the
scheduler globals are those it started with: no worker is registered.  In
particular, in an environment where everything works and every loader
succeeds, `init_networks` returns 1 and `init` sets `completed` and returns
`ERROR` with no task registered. -/
theorem init_networks_never_NN_SUCCESS {F : Type} (env : init_env F) (s : app_state F)
    (atof : List Char → F) (string0 : Nat → Char) (pthread_ret : Fin 4 → Int) :
    nn_handler_SUCCESS = NN_ERROR_NO_FILE ∧
    (init_networks env.nn s.nn).ret ≠ some NN_SUCCESS ∧
    (init env s).ret ≠ some hwr_SUCCESS ∧
    (init env s).globals.sched = s.sched ∧
    (init_networks (all_loaders_succeed atof string0 pthread_ret).nn s.nn).ret = some 1 ∧
    (init (all_loaders_succeed atof string0 pthread_ret) s).ret = some hwr_ERROR ∧
    (init (all_loaders_succeed atof string0 pthread_ret) s).globals.completed = 1 ∧
    (init (all_loaders_succeed atof string0 pthread_ret) s).globals.sched.task_counter
      = s.sched.task_counter := by
  have general : ∀ (env : init_env F),
      (init_networks env.nn s.nn).ret ≠ some NN_SUCCESS ∧
      (init env s).ret ≠ some hwr_SUCCESS ∧ (init env s).globals.sched = s.sched := by
    intro env
    have hn := init_networks_ret_cases env.nn s.nn
    refine ⟨?_, ?_⟩
    · rcases hn with h | h | h <;> rw [h] <;> simp [NN_SUCCESS]
    · unfold init
      simp only []
      split_ifs with h1 h2
      · exact ⟨by simp [init_result.ret, hwr_SUCCESS, hwr_ERROR], rfl⟩
      · exact ⟨by simp [init_result.ret, hwr_SUCCESS, hwr_ERROR], rfl⟩
      · cases hi : init_networks env.nn s.nn with
        | null_stream_used n => exact ⟨by simp [init_result.ret], rfl⟩
        | buffer_overrun n => exact ⟨by simp [init_result.ret], rfl⟩
        | returned error n =>
          have he : error ≠ NN_SUCCESS := by
            rw [hi] at hn
            simp only [init_networks_result.ret] at hn
            rcases hn with h | h | h
            · cases h
            · cases h; decide
            · cases h; decide
          simp only [if_pos he]
          exact ⟨by simp [init_result.ret, hwr_SUCCESS, hwr_ERROR], rfl⟩
  obtain ⟨g1, g2, g3⟩ := general env
  have hs : (init_networks (all_loaders_succeed atof string0 pthread_ret).nn s.nn).ret = some 1 :=
    init_networks_newline_files atof string0 s.nn
  have hpath : (init (all_loaders_succeed atof string0 pthread_ret) s).ret = some hwr_ERROR ∧
      (init (all_loaders_succeed atof string0 pthread_ret) s).globals.completed = 1 := by
    cases hi : init_networks (all_loaders_succeed atof string0 pthread_ret).nn s.nn with
    | null_stream_used n => rw [hi] at hs; cases hs
    | buffer_overrun n => rw [hi] at hs; cases hs
    | returned error n =>
      rw [hi] at hs
      simp only [init_networks_result.ret, Option.some.injEq] at hs
      subst hs
      have := init_networks_error_path (all_loaders_succeed atof string0 pthread_ret) s 1 n
        (init_display_ok s.ROI_dim) rfl hi (by decide)
      exact ⟨this.1, this.2.trans (by simp [nn_error, NN_ERROR_NO_FILE])⟩
  refine ⟨rfl, g1, g2, g3, hs, hpath.1, hpath.2, ?_⟩
  rw [(general (all_loaders_succeed atof string0 pthread_ret)).2.2]

end HWR

namespace HWR

/-! ## Comparison of instants -/

/-- C18. For timespecs `t1` and `t2` whose `tv_nsec` lies in `[0, 10^9)`,
`time_cmp t1 t2` is 1 when `t1` is the later instant, -1 when it is the
earlier one and 0 when both are the same instant, instants being compared as
`tv_sec*10^9 + tv_nsec`; and `time_cmp t2 t1 = - time_cmp t1 t2`. -/
theorem time_cmp_compares_instants (t1 t2 : timespec) (h1 : normalised t1)
    (h2 : normalised t2) :
    (total_ns t2 < total_ns t1 → time_cmp t1 t2 = 1) ∧
    (total_ns t1 < total_ns t2 → time_cmp t1 t2 = -1) ∧
    (total_ns t1 = total_ns t2 → time_cmp t1 t2 = 0) ∧
    time_cmp t2 t1 = - time_cmp t1 t2 := by
  unfold normalised at h1 h2
  unfold time_cmp total_ns
  refine ⟨?_, ?_, ?_, ?_⟩
  · intro h
    split_ifs <;> first | rfl | omega
  · intro h
    split_ifs <;> first | rfl | omega
  · intro h
    split_ifs <;> first | rfl | omega
  · split_ifs <;> first | rfl | omega

/-- C18 at 2.5 s against 1.999999999 s. -/
theorem time_cmp_compares_instants_witness :
    (total_ns ⟨1, 999999999⟩ < total_ns ⟨2, 500000000⟩ →
      time_cmp ⟨2, 500000000⟩ ⟨1, 999999999⟩ = 1) ∧
    (total_ns ⟨2, 500000000⟩ < total_ns ⟨1, 999999999⟩ →
      time_cmp ⟨2, 500000000⟩ ⟨1, 999999999⟩ = -1) ∧
    (total_ns ⟨2, 500000000⟩ = total_ns ⟨1, 999999999⟩ →
      time_cmp ⟨2, 500000000⟩ ⟨1, 999999999⟩ = 0) ∧
    time_cmp ⟨1, 999999999⟩ ⟨2, 500000000⟩ = - time_cmp ⟨2, 500000000⟩ ⟨1, 999999999⟩ :=
  time_cmp_compares_instants ⟨2, 500000000⟩ ⟨1, 999999999⟩ (by decide) (by decide)

end HWR

namespace HWR

/-! ## Key events: return value, property range, ignored events -/

/-- C16. `key_pressed(key)` returns 1 when `key` is `KEY_ESC` and 0 for every
other key, in every state. -/
theorem key_pressed_returns_ESC (K : key_codes) (s : user_state) (key : Int) :
    (key_pressed K s key).2 = if key = K.KEY_ESC then 1 else 0 := by
  unfold key_pressed
  by_cases h : key = K.KEY_ESC
  · rw [if_pos h, if_pos h]
    rfl
  · rw [if_neg h, if_neg h]
    repeat' apply ite_ind (fun x : user_state × Int => x.2 = 0)
    all_goals rfl

/-- Each case body of `key_pressed` keeps the four properties in 0..100. -/
theorem on_KEY_properties (s : user_state) (h : properties_in_range s) :
    properties_in_range (on_KEY_X s) ∧ properties_in_range (on_KEY_C s) ∧
    properties_in_range (on_KEY_V s) ∧ properties_in_range (on_KEY_B s) ∧
    properties_in_range (on_KEY_D s) ∧ properties_in_range (on_KEY_F s) ∧
    properties_in_range (on_KEY_A s) ∧ properties_in_range (on_KEY_S s) ∧
    properties_in_range (on_KEY_LEFT s) ∧ properties_in_range (on_KEY_RIGHT s) ∧
    properties_in_range (on_KEY_UP s) ∧ properties_in_range (on_KEY_DOWN s) ∧
    properties_in_range (on_KEY_PLUS_PAD s) ∧ properties_in_range (on_KEY_MINUS_PAD s) := by
  unfold properties_in_range at h ⊢
  obtain ⟨⟨a1, a2⟩, ⟨b1, b2⟩, ⟨c1, c2⟩, ⟨d1, d2⟩⟩ := h
  refine ⟨?_, ?_, ?_, ?_, ?_, ?_, ?_, ?_, ?_, ?_, ?_, ?_, ?_, ?_⟩
  · dsimp only [on_KEY_X]; split_ifs <;> first | (dsimp only; omega) | omega
  · dsimp only [on_KEY_C]; split_ifs <;> first | (dsimp only; omega) | omega
  · dsimp only [on_KEY_V]; split_ifs <;> first | (dsimp only; omega) | omega
  · dsimp only [on_KEY_B]; split_ifs <;> first | (dsimp only; omega) | omega
  · dsimp only [on_KEY_D]; split_ifs <;> first | (dsimp only; omega) | omega
  · dsimp only [on_KEY_F]; split_ifs <;> first | (dsimp only; omega) | omega
  · dsimp only [on_KEY_A]; split_ifs <;> first | (dsimp only; omega) | omega
  · dsimp only [on_KEY_S]; split_ifs <;> first | (dsimp only; omega) | omega
  · dsimp only [on_KEY_LEFT]; split_ifs <;> first | (dsimp only; omega) | omega
  · dsimp only [on_KEY_RIGHT]; split_ifs <;> first | (dsimp only; omega) | omega
  · dsimp only [on_KEY_UP]; split_ifs <;> first | (dsimp only; omega) | omega
  · dsimp only [on_KEY_DOWN]; split_ifs <;> first | (dsimp only; omega) | omega
  · dsimp only [on_KEY_PLUS_PAD]; split_ifs <;> first | (dsimp only; omega) | omega
  · dsimp only [on_KEY_MINUS_PAD]; split_ifs <;> first | (dsimp only; omega) | omega

theorem key_pressed_properties (K : key_codes) (s : user_state) (key : Int)
    (h : properties_in_range s) : properties_in_range (key_pressed K s key).1 := by
  obtain ⟨h1, h2, h3, h4, h5, h6, h7, h8, h9, h10, h11, h12, h13, h14⟩ := on_KEY_properties s h
  rcases key_pressed_cases K s key with e | e | e | e | e | e | e | e | e | e | e | e | e | e | e <;>
    rw [e] <;> assumption

theorem keys_pressed_properties (K : key_codes) (keys : List Int) (s : user_state)
    (h : properties_in_range s) : properties_in_range (keys_pressed K s keys) := by
  induction keys generalizing s with
  | nil => exact h
  | cons key rest ih => exact ih _ (key_pressed_properties K s key h)

/-- C15. In a state where contrast, brightness, saturation and sharpness each
lie in 0..100, after `key_pressed` on any key each of them still lies in
0..100; hence they stay in range under every sequence of key events. -/
theorem properties_stay_in_range (K : key_codes) (s : user_state)
    (h : properties_in_range s) :
    (∀ key, properties_in_range (key_pressed K s key).1) ∧
    ∀ keys, properties_in_range (keys_pressed K s keys) :=
  ⟨fun key => key_pressed_properties K s key h, fun keys => keys_pressed_properties K keys s h⟩

/-- C15 for the Allegro key codes: from contrast 3, brightness 100, saturation
50 and sharpness 97, the keys X (twice), B, S, F leave every property in range. -/
theorem properties_stay_in_range_witness :
    (∀ key, properties_in_range
      (key_pressed allegro_keys ⟨3, 100, 50, 97, ⟨160, 150, 112⟩⟩ key).1) ∧
    ∀ keys, properties_in_range (keys_pressed allegro_keys ⟨3, 100, 50, 97, ⟨160, 150, 112⟩⟩ keys) :=
  properties_stay_in_range allegro_keys ⟨3, 100, 50, 97, ⟨160, 150, 112⟩⟩ (by decide)

end HWR

namespace HWR

/-- With pairwise distinct case labels, each label selects its own case body. -/
theorem key_pressed_dispatch (K : key_codes) (s : user_state) (hK : K.case_labels.Nodup) :
    (key_pressed K s K.KEY_X).1 = on_KEY_X s ∧ (key_pressed K s K.KEY_C).1 = on_KEY_C s ∧
    (key_pressed K s K.KEY_V).1 = on_KEY_V s ∧ (key_pressed K s K.KEY_B).1 = on_KEY_B s ∧
    (key_pressed K s K.KEY_D).1 = on_KEY_D s ∧ (key_pressed K s K.KEY_F).1 = on_KEY_F s ∧
    (key_pressed K s K.KEY_A).1 = on_KEY_A s ∧ (key_pressed K s K.KEY_S).1 = on_KEY_S s ∧
    (key_pressed K s K.KEY_LEFT).1 = on_KEY_LEFT s ∧
    (key_pressed K s K.KEY_RIGHT).1 = on_KEY_RIGHT s ∧
    (key_pressed K s K.KEY_UP).1 = on_KEY_UP s ∧
    (key_pressed K s K.KEY_DOWN).1 = on_KEY_DOWN s := by
  simp only [key_codes.case_labels, List.nodup_cons, List.mem_cons, List.mem_singleton,
    not_or, List.not_mem_nil, not_false_eq_true, List.nodup_nil, and_true] at hK
  unfold key_pressed
  refine ⟨?_, ?_, ?_, ?_, ?_, ?_, ?_, ?_, ?_, ?_, ?_, ?_⟩ <;> simp [hK, Ne.symm, eq_comm]

/-- C17. With the (pairwise distinct) case labels `K`: a key that is none of
the labels, a decrement key pressed while its property is below 5, an
increment key pressed while its property is above 95, and an arrow key whose
boundary test fails each leave contrast, brightness, saturation, sharpness
and the ROI record unchanged. -/
theorem ignored_key_events (K : key_codes) (s : user_state) (key : Int)
    (hK : K.case_labels.Nodup) :
    (key ∉ K.case_labels → (key_pressed K s key).1 = s) ∧
    (key = K.KEY_X → s.contrast_value < 5 → (key_pressed K s key).1 = s) ∧
    (key = K.KEY_C → 95 < s.contrast_value → (key_pressed K s key).1 = s) ∧
    (key = K.KEY_V → s.brightness_value < 5 → (key_pressed K s key).1 = s) ∧
    (key = K.KEY_B → 95 < s.brightness_value → (key_pressed K s key).1 = s) ∧
    (key = K.KEY_D → s.saturation_value < 5 → (key_pressed K s key).1 = s) ∧
    (key = K.KEY_F → 95 < s.saturation_value → (key_pressed K s key).1 = s) ∧
    (key = K.KEY_A → s.sharpness_value < 5 → (key_pressed K s key).1 = s) ∧
    (key = K.KEY_S → 95 < s.sharpness_value → (key_pressed K s key).1 = s) ∧
    (key = K.KEY_LEFT → ¬ ((s.ROI_dim.centerX - 2 - ROI_DEPTH) - s.ROI_dim.radius ≥ 0) →
      (key_pressed K s key).1 = s) ∧
    (key = K.KEY_RIGHT → ¬ ((s.ROI_dim.centerX + 2 + ROI_DEPTH) + s.ROI_dim.radius ≤ CAM_WIDTH) →
      (key_pressed K s key).1 = s) ∧
    (key = K.KEY_UP → ¬ ((s.ROI_dim.centerY - 2 - ROI_DEPTH) - s.ROI_dim.radius ≥ CAM_MRG_TOP) →
      (key_pressed K s key).1 = s) ∧
    (key = K.KEY_DOWN →
      ¬ ((s.ROI_dim.centerY + 2 + ROI_DEPTH) + s.ROI_dim.radius ≤ CAM_HEIGHT + CAM_MRG_TOP) →
      (key_pressed K s key).1 = s) := by
  obtain ⟨d1, d2, d3, d4, d5, d6, d7, d8, d9, d10, d11, d12⟩ := key_pressed_dispatch K s hK
  refine ⟨?_, ?_, ?_, ?_, ?_, ?_, ?_, ?_, ?_, ?_, ?_, ?_, ?_⟩
  · intro h
    simp only [key_codes.case_labels, List.mem_cons, List.mem_singleton, not_or,
      List.not_mem_nil, not_false_eq_true, and_true] at h
    unfold key_pressed
    simp [h]
  · intro hk hv
    rw [hk, d1, on_KEY_X]
    exact if_neg (by omega)
  · intro hk hv
    rw [hk, d2, on_KEY_C]
    exact if_neg (by omega)
  · intro hk hv
    rw [hk, d3, on_KEY_V]
    exact if_neg (by omega)
  · intro hk hv
    rw [hk, d4, on_KEY_B]
    exact if_neg (by omega)
  · intro hk hv
    rw [hk, d5, on_KEY_D]
    exact if_neg (by omega)
  · intro hk hv
    rw [hk, d6, on_KEY_F]
    exact if_neg (by omega)
  · intro hk hv
    rw [hk, d7, on_KEY_A]
    exact if_neg (by omega)
  · intro hk hv
    rw [hk, d8, on_KEY_S]
    exact if_neg (by omega)
  · intro hk hv
    rw [hk, d9, on_KEY_LEFT]
    exact if_neg hv
  · intro hk hv
    rw [hk, d10, on_KEY_RIGHT]
    exact if_neg hv
  · intro hk hv
    rw [hk, d11, on_KEY_UP]
    exact if_neg hv
  · intro hk hv
    rw [hk, d12, on_KEY_DOWN]
    exact if_neg hv

/-- C17 for the Allegro key codes, in the state with contrast 3, brightness
100, saturation 50, sharpness 97 and the ROI of radius 112 centred at
(116, 150): key 7 (`KEY_G`, not a label) is ignored, and so are X (contrast 3
is below 5), B (brightness 100 is above 95) and the left arrow (116 - 2 - 3 -
112 is negative). -/
theorem ignored_key_events_witness :
    (key_pressed allegro_keys ⟨3, 100, 50, 97, ⟨116, 150, 112⟩⟩ 7).1 =
      ⟨3, 100, 50, 97, ⟨116, 150, 112⟩⟩ ∧
    (key_pressed allegro_keys ⟨3, 100, 50, 97, ⟨116, 150, 112⟩⟩ 24).1 =
      ⟨3, 100, 50, 97, ⟨116, 150, 112⟩⟩ ∧
    (key_pressed allegro_keys ⟨3, 100, 50, 97, ⟨116, 150, 112⟩⟩ 2).1 =
      ⟨3, 100, 50, 97, ⟨116, 150, 112⟩⟩ ∧
    (key_pressed allegro_keys ⟨3, 100, 50, 97, ⟨116, 150, 112⟩⟩ 82).1 =
      ⟨3, 100, 50, 97, ⟨116, 150, 112⟩⟩ :=
  ⟨(ignored_key_events allegro_keys ⟨3, 100, 50, 97, ⟨116, 150, 112⟩⟩ 7 (by decide)).1
      (by decide),
    (ignored_key_events allegro_keys ⟨3, 100, 50, 97, ⟨116, 150, 112⟩⟩ 24 (by decide)).2.1
      (by decide) (by decide),
    (ignored_key_events allegro_keys ⟨3, 100, 50, 97, ⟨116, 150, 112⟩⟩ 2 (by decide)).2.2.2.2.1
      (by decide) (by decide),
    (ignored_key_events allegro_keys ⟨3, 100, 50, 97, ⟨116, 150, 112⟩⟩ 82
      (by decide)).2.2.2.2.2.2.2.2.2.1 (by decide) (by decide)⟩

end HWR

namespace HWR

/-! ## Symbol tables -/

/-- C19. The symbol tables: `digits_map[i]` is `'0' + i` for `i < 10`,
`letters_map[i]` is `'A' + i` for `i < 26`, `mixed_map` has 47 entries, holds
no character twice, agrees with `digits_map` on the indices 0..9 and with
`letters_map` on 10..35 and holds only digits and letters; `map_at` reads the
entry at an index inside a table; and `recognize_character`, when the search
selects an index `i >= 0` under the requested model, stores entry `i` of the
table of that model in `nn_result.rec_char` (and leaves `nn_result` as it
was when the index is -1). -/
theorem symbol_tables {F : Type} [LinearOrderedField F] (exp : F → F)
    (image : Nat → Nat → Bool) (s : nn_state F) :
    (∀ i : Nat, i < 10 → digits_map[i]? = some (Char.ofNat ('0'.toNat + i))) ∧
    (∀ i : Nat, i < 26 → letters_map[i]? = some (Char.ofNat ('A'.toNat + i))) ∧
    mixed_map.length = 47 ∧ mixed_map.Nodup ∧
    (∀ i : Nat, i < 10 → mixed_map[i]? = digits_map[i]?) ∧
    (∀ i : Nat, i < 26 → mixed_map[10 + i]? = letters_map[i]?) ∧
    (∀ c, c ∈ mixed_map → c.isDigit = true ∨ c.isAlpha = true) ∧
    (∀ (map : List Char) (i : Nat), i < map.length → map[i]? = some (map_at map (i : Int))) ∧
    (recognize_character exp image s).nn_result =
      (if (max_search (propagate_to_out_layer exp (propagate_into_hid_layer exp
            (propagate_from_in_layer exp
              (fill_input image (s.neural_network s.requested_model))))).out_L).2 ≥ 0 then
        { rec_char := map_at
            (match s.requested_model with
              | network_target.DIGITS => digits_map
              | network_target.LETTERS => letters_map
              | network_target.MIXED => mixed_map)
            (max_search (propagate_to_out_layer exp (propagate_into_hid_layer exp
              (propagate_from_in_layer exp
                (fill_input image (s.neural_network s.requested_model))))).out_L).2,
          prob := (max_search (propagate_to_out_layer exp (propagate_into_hid_layer exp
              (propagate_from_in_layer exp
                (fill_input image (s.neural_network s.requested_model))))).out_L).1 * 100 }
      else s.nn_result) := by
  refine ⟨by decide, by decide, rfl, by decide, by decide, by decide, by decide, ?_, ?_⟩
  · intro map i hi
    unfold map_at
    rw [Int.toNat_ofNat, List.getD_eq_getElem?_getD, List.getElem?_eq_getElem hi]
    rfl
  · unfold recognize_character
    cases hm : s.requested_model <;> dsimp only <;> split_ifs <;> rfl

/-- C19 at index 3 of `digits_map`, at index 12 of `mixed_map` (index 2 of
`letters_map`) and at the entry `'t'` of `mixed_map`. -/
theorem symbol_tables_witness :
    digits_map[3]? = some '3' ∧ mixed_map[10 + 2]? = letters_map[2]? ∧
    ('t'.isDigit = true ∨ 't'.isAlpha = true) :=
  ⟨(symbol_tables exp_with_underflow (fun _ _ => true)
      (digits_state_with_out_bias (0 : ℚ) ⟨'A', 0⟩)).1 3 (by decide),
    (symbol_tables exp_with_underflow (fun _ _ => true)
      (digits_state_with_out_bias (0 : ℚ) ⟨'A', 0⟩)).2.2.2.2.2.1 2 (by decide),
    (symbol_tables exp_with_underflow (fun _ _ => true)
      (digits_state_with_out_bias (0 : ℚ) ⟨'A', 0⟩)).2.2.2.2.2.2.1 't' (by decide)⟩

end HWR

namespace HWR

/-! ## Start-up failures -/

/-- The codes `init_display` returns. -/
theorem init_display_codes (env : display_env) (r : sqr_center_t) :
    (init_display env r).2 = DISPLAY_SUCCESS ∨
    (init_display env r).2 = DISPLAY_ERROR_NO_FONT_FILE ∨
    (init_display env r).2 = DISPLAY_ERROR_CREATE_BITMAP := by
  unfold init_display
  repeat' apply ite_ind (fun x : sqr_center_t × Int => x.2 = DISPLAY_SUCCESS ∨ x.2 = DISPLAY_ERROR_NO_FONT_FILE ∨ x.2 = DISPLAY_ERROR_CREATE_BITMAP)
  all_goals simp

/-- C14. Whenever `init_display`, `raspi_cam_create_camera_capture` or
`init_networks` reports a failure code to `init`, `init` returns `ERROR` with
the termination flag `completed` set to 1 and the scheduler globals as they
were: no task is registered and `task_counter` keeps its value. -/
theorem init_failure_is_fatal {F : Type} (env : init_env F) (s : app_state F)
    (h : (init_display env.display s.ROI_dim).2 ≠ DISPLAY_SUCCESS ∨
      ((init_display env.display s.ROI_dim).2 = DISPLAY_SUCCESS ∧ env.cam_ret = CAM_ERROR) ∨
      ((init_display env.display s.ROI_dim).2 = DISPLAY_SUCCESS ∧ env.cam_ret = CAM_SUCCESS ∧
        ∃ error n, init_networks env.nn s.nn = init_networks_result.returned error n ∧
          error ≠ NN_SUCCESS)) :
    (init env s).ret = some hwr_ERROR ∧ (init env s).globals.completed = 1 ∧
    (init env s).globals.sched = s.sched ∧
    (init env s).globals.sched.task_counter = s.sched.task_counter := by
  have key : (init env s).ret = some hwr_ERROR ∧ (init env s).globals.completed = 1 ∧
      (init env s).globals.sched = s.sched := by
    rcases h with hd | ⟨hd, hc⟩ | ⟨hd, hc, error, n, hi, he⟩
    · unfold init
      simp only [ne_eq, hd, not_false_eq_true, if_true]
      refine ⟨rfl, ?_, rfl⟩
      simp only [init_result.globals, display_error]
      rcases init_display_codes env.display s.ROI_dim with h0 | h1 | h2
      · exact absurd h0 hd
      · rw [if_pos (Or.inl h1)]
      · rw [if_pos (Or.inr (Or.inl h2))]
    · unfold init
      have hc2 : env.cam_ret ≠ CAM_SUCCESS := by rw [hc]; decide
      simp only [ne_eq, hd, not_true_eq_false, if_false, hc2, not_false_eq_true, if_true]
      refine ⟨rfl, ?_, rfl⟩
      simp only [init_result.globals, cam_error]
      rw [if_pos hc]
    · have hcases := init_networks_ret_cases env.nn s.nn
      rw [hi] at hcases
      simp only [init_networks_result.ret, Option.some.injEq] at hcases
      obtain ⟨p1, p2⟩ := init_networks_error_path env s error n hd hc hi he
      refine ⟨p1, ?_, ?_⟩
      · rw [p2]
        unfold nn_error
        rcases hcases with h0 | h1 | h2
        · cases h0
        · exact if_pos (Or.inl h1)
        · exact if_pos (Or.inr h2)
      · unfold init
        simp only [ne_eq, hd, not_true_eq_false, if_false, hc, hi, he, not_false_eq_true, if_true]
        rfl
  exact ⟨key.1, key.2.1, key.2.2, by rw [key.2.2]⟩

/-- C14 when the camera fails to start: the display is set up, the camera call
returns `CAM_ERROR`; `init` returns `ERROR` with `completed = 1` and
`task_counter = 0`. -/
theorem init_failure_is_fatal_witness :
    (init (F := ℚ) ⟨display_env_ok, CAM_ERROR, newline_files (fun _ => 0) (fun _ => 'x') 0 0 0,
        fun _ => 0⟩
      ⟨0, ⟨0, 0, 0⟩, ptask_init, digits_state_with_out_bias 0 ⟨'A', 0⟩⟩).ret = some hwr_ERROR ∧
    (init (F := ℚ) ⟨display_env_ok, CAM_ERROR, newline_files (fun _ => 0) (fun _ => 'x') 0 0 0,
        fun _ => 0⟩
      ⟨0, ⟨0, 0, 0⟩, ptask_init, digits_state_with_out_bias 0 ⟨'A', 0⟩⟩).globals.completed = 1 ∧
    (init (F := ℚ) ⟨display_env_ok, CAM_ERROR, newline_files (fun _ => 0) (fun _ => 'x') 0 0 0,
        fun _ => 0⟩
      ⟨0, ⟨0, 0, 0⟩, ptask_init, digits_state_with_out_bias 0 ⟨'A', 0⟩⟩).globals.sched =
      ptask_init ∧
    (init (F := ℚ) ⟨display_env_ok, CAM_ERROR, newline_files (fun _ => 0) (fun _ => 'x') 0 0 0,
        fun _ => 0⟩
      ⟨0, ⟨0, 0, 0⟩, ptask_init,
        digits_state_with_out_bias 0 ⟨'A', 0⟩⟩).globals.sched.task_counter = 0 :=
  init_failure_is_fatal
    ⟨display_env_ok, CAM_ERROR, newline_files (fun _ => 0) (fun _ => 'x') 0 0 0, fun _ => 0⟩
    ⟨0, ⟨0, 0, 0⟩, ptask_init, digits_state_with_out_bias 0 ⟨'A', 0⟩⟩
    (Or.inr (Or.inl ⟨init_display_ok _, rfl⟩))

end HWR

namespace HWR

/-! ## `init_networks` and files that fail to open -/

/-- C13 (what the code does). `init_networks` tests the result of `fopen` for
the digits file only.  When the digits file fails to open it returns
`NN_ERROR_NO_FILE`; but when the digits file is open and loads (here: one
empty field for every weight and bias of the DIGITS model) and the letters
file fails to open, the NULL stream is handed to the loaders, and so is the
NULL stream of the mixed file when the first two files load: `init_networks`
does not return `NN_ERROR_NO_FILE`. -/
theorem init_networks_checks_digits_file_only {F : Type} (atof : List Char → F)
    (string0 : Nat → Char) (letters mixed : Option stream) (s : nn_state F) :
    (init_networks ⟨atof, none, letters, mixed, string0⟩ s).ret = some NN_ERROR_NO_FILE ∧
    (∃ n, init_networks ⟨atof, some (List.replicate 52650 '\n'), none, mixed, string0⟩ s =
      init_networks_result.null_stream_used n) ∧
    (∃ n, init_networks ⟨atof, some (List.replicate 52650 '\n'),
        some (List.replicate 136858 '\n'), none, string0⟩ s =
      init_networks_result.null_stream_used n) ∧
    (init_networks ⟨atof, some (List.replicate 52650 '\n'), none, mixed, string0⟩ s).ret ≠
      some NN_ERROR_NO_FILE := by
  obtain ⟨fd, fl, _⟩ := model_fields_init s.neural_network
  have hd := (load_model_newline atof string0
    (init_mixed_net (init_letters_net (init_digits_net s.neural_network))
      network_target.DIGITS) 0).1
  rw [fd] at hd
  have el : ∀ f, net_upd (init_mixed_net (init_letters_net (init_digits_net s.neural_network)))
      network_target.DIGITS f network_target.LETTERS =
      init_mixed_net (init_letters_net (init_digits_net s.neural_network))
        network_target.LETTERS := fun f => net_upd_other _ _ _ f (by decide)
  have hl := (load_model_newline atof string0
    (init_mixed_net (init_letters_net (init_digits_net s.neural_network))
      network_target.LETTERS) 0).1
  rw [fl] at hl
  simp only [Nat.zero_add] at hd hl
  have h2 : ∃ n, init_networks ⟨atof, some (List.replicate 52650 '\n'), none, mixed, string0⟩ s =
      init_networks_result.null_stream_used n := by
    unfold init_networks
    simp only [hd, Bool.false_eq_true, if_false]
    unfold init_networks_letters
    exact ⟨_, rfl⟩
  refine ⟨rfl, h2, ?_, ?_⟩
  · unfold init_networks
    simp only [hd, Bool.false_eq_true, if_false]
    unfold init_networks_letters
    simp only [el, hl, Bool.false_eq_true, if_false]
    unfold init_networks_mixed
    exact ⟨_, rfl⟩
  · obtain ⟨n, hn⟩ := h2
    rw [hn]
    simp [init_networks_result.ret]

end HWR

namespace HWR

/-! ## The search for the maximum can end without an index -/

/-- The network `recognize_character` leaves for the requested model is the
one produced by the forward pass. -/
theorem recognize_character_network {F : Type} [LinearOrderedField F] (exp : F → F)
    (image : Nat → Nat → Bool) (s : nn_state F) :
    (recognize_character exp image s).neural_network s.requested_model =
      propagate_to_out_layer exp (propagate_into_hid_layer exp (propagate_from_in_layer exp
        (fill_input image (s.neural_network s.requested_model)))) := by
  unfold recognize_character
  cases hm : s.requested_model <;> dsimp only <;> split_ifs <;> simp [net_upd]

/-- The third loop of `propagate_to_out_layer` leaves the raw scores as the
first loop stored them. -/
theorem propagate_to_out_layer_z_value {F : Type} [LinearOrderedField F] (exp : F → F)
    (net : network_t F) :
    (propagate_to_out_layer exp net).out_L.z_value = (out_scores net).1.out_L.z_value := by
  unfold propagate_to_out_layer
  dsimp only
  refine for_loop_induction (fun _ (st : network_t F) =>
    st.out_L.z_value = (out_scores net).1.out_L.z_value) _ _ _ rfl ?_
  intro i st _ h
  exact h

/-- C20. When `exp` gives 0 for arguments of at most -746, as the C library
function does on doubles, there are weights, biases and an image (the DIGITS
model with zero weights and every output bias -1000, a black image) for which
the output layer has neurons, every raw output score is negative, the search
of `recognize_character` ends with the index -1 it started with, and
`nn_result` is left as it was. -/
theorem argmax_sentinel_reachable {F : Type} [LinearOrderedField F] (exp : F → F)
    (hexp : ∀ x : F, x ≤ -746 → exp x = 0) :
    ∃ (s : nn_state F) (image : Nat → Nat → Bool),
      0 < ((recognize_character exp image s).neural_network s.requested_model).out_L.num_neuron ∧
      (∀ j, j < ((recognize_character exp image s).neural_network
          s.requested_model).out_L.num_neuron →
        ((recognize_character exp image s).neural_network s.requested_model).out_L.z_value j
          < 0) ∧
      (max_search ((recognize_character exp image s).neural_network
        s.requested_model).out_L).2 = -1 ∧
      (recognize_character exp image s).nn_result = s.nn_result := by
  refine ⟨digits_state_with_out_bias (-1000) ⟨'A', 99⟩, fun _ _ => true, ?_⟩
  have hb : ∀ i : Nat, (-1000 : F) ≤ -746 := fun _ => by norm_num
  obtain ⟨f1, f2⟩ := fill_input_frame (fun _ _ => true) (digits_net_with_out_bias (-1000 : F))
  obtain ⟨g1, g2⟩ := propagate_from_in_layer_frame exp
    (fill_input (fun _ _ => true) (digits_net_with_out_bias (-1000 : F)))
  obtain ⟨k1, k2⟩ := propagate_into_hid_layer_frame exp
    (propagate_from_in_layer exp (fill_input (fun _ _ => true)
      (digits_net_with_out_bias (-1000 : F))))
  have e1 := k1.trans (g1.trans f1)
  have e2 := k2.trans (g2.trans f2)
  have hw' : ∀ i j, (propagate_into_hid_layer exp (propagate_from_in_layer exp
      (fill_input (fun _ _ => true) (digits_net_with_out_bias (-1000 : F))))).out_S.weights i j
      = 0 := fun i j => by rw [e1]; rfl
  have hb' : ∀ i, (propagate_into_hid_layer exp (propagate_from_in_layer exp
      (fill_input (fun _ _ => true) (digits_net_with_out_bias (-1000 : F))))).out_S.bias i
      ≤ -746 := fun i => by rw [e1]; exact hb i
  obtain ⟨p1, p2⟩ := propagate_to_out_layer_underflow exp _ hexp hw' hb'
  obtain ⟨_, _, _, q4⟩ := out_scores_all_negative _ hw' hb'
  have hz := propagate_to_out_layer_z_value exp (propagate_into_hid_layer exp
    (propagate_from_in_layer exp (fill_input (fun _ _ => true)
      (digits_net_with_out_bias (-1000 : F)))))
  rw [e2] at p1
  rw [e1] at p2 q4
  have hnet := recognize_character_network exp (fun _ _ => true)
    (digits_state_with_out_bias (-1000 : F) ⟨'A', 99⟩)
  have hreq : (digits_state_with_out_bias (-1000 : F) ⟨'A', 99⟩).requested_model =
      network_target.DIGITS := rfl
  have hnn : (digits_state_with_out_bias (-1000 : F) ⟨'A', 99⟩).neural_network
      network_target.DIGITS = digits_net_with_out_bias (-1000 : F) := rfl
  rw [hreq, hnn] at hnet
  have hnum : (digits_net_with_out_bias (-1000 : F)).out_L.num_neuron = 10 := rfl
  have hcard : (digits_net_with_out_bias (-1000 : F)).out_S.card_out = 10 := rfl
  rw [hnum] at p1
  rw [hcard] at p2 q4
  have hsearch := max_search_all_zero _ (fun j hj => p2 j (by rw [p1] at hj; exact hj))
  rw [hreq, hnet]
  refine ⟨by rw [p1]; decide, ?_, by rw [hsearch], ?_⟩
  · intro j hj
    rw [p1] at hj
    rw [hz]
    exact lt_of_le_of_lt (q4 j hj) (by norm_num)
  · unfold recognize_character
    simp only [hreq, hnn, hsearch]
    rfl

/-- C20 over the rationals with `exp_with_underflow`. -/
theorem argmax_sentinel_reachable_witness :
    ∃ (s : nn_state ℚ) (image : Nat → Nat → Bool),
      0 < ((recognize_character exp_with_underflow image s).neural_network
        s.requested_model).out_L.num_neuron ∧
      (∀ j, j < ((recognize_character exp_with_underflow image s).neural_network
          s.requested_model).out_L.num_neuron →
        ((recognize_character exp_with_underflow image s).neural_network
          s.requested_model).out_L.z_value j < 0) ∧
      (max_search ((recognize_character exp_with_underflow image s).neural_network
        s.requested_model).out_L).2 = -1 ∧
      (recognize_character exp_with_underflow image s).nn_result = s.nn_result :=
  argmax_sentinel_reachable exp_with_underflow (fun _ hx => if_pos hx)

end HWR

namespace HWR

/-! ## Weight files: the loaders on the files `save_file` writes -/

/-- Loop rule for `for_return` when an iteration may execute `return`:
`good i` tells that iteration `i` does not. -/
theorem for_return_cases {σ : Type} (P : Nat → σ → Prop) (good : Nat → Prop)
    (body : Nat → σ → σ × Bool) (count first : Nat) (s : σ) (h0 : P first s)
    (hstep : ∀ i st, first ≤ i → i < first + count → P i st →
      (good i → (body i st).2 = false ∧ P (i + 1) (body i st).1) ∧
      (¬ good i → (body i st).2 = true)) :
    ((∀ i, first ≤ i → i < first + count → good i) →
      (for_return body first count s).2 = false ∧
      P (first + count) (for_return body first count s).1) ∧
    ((∃ i, first ≤ i ∧ i < first + count ∧ ¬ good i) →
      (for_return body first count s).2 = true) := by
  induction count generalizing first s with
  | zero =>
    refine ⟨fun _ => ⟨rfl, h0⟩, ?_⟩
    rintro ⟨i, h1, h2, _⟩
    omega
  | succ k ih =>
    obtain ⟨hg, hb⟩ := hstep first s (Nat.le_refl _) (by omega) h0
    by_cases hgood : good first
    · obtain ⟨hf, hp⟩ := hg hgood
      have hrec := ih (first + 1) (body first s).1 hp
        (fun i st h1 h2 hP => hstep i st (by omega) (by omega) hP)
      have hunf : for_return body first (k + 1) s =
          for_return body (first + 1) k (body first s).1 := by
        rw [for_return, if_neg (by rw [hf]; exact Bool.false_ne_true)]
      rw [hunf, show first + (k + 1) = first + 1 + k by omega]
      refine ⟨fun hall => hrec.1 (fun i h1 h2 => hall i (by omega) (by omega)), ?_⟩
      rintro ⟨i, h1, h2, h3⟩
      have hne : i ≠ first := fun e => h3 (e ▸ hgood)
      exact hrec.2 ⟨i, by omega, by omega, h3⟩
    · have hunf : for_return body first (k + 1) s = body first s := by
        rw [for_return, if_pos (hb hgood)]
      rw [hunf]
      exact ⟨fun hall => absurd (hall first (Nat.le_refl _) (by omega)) hgood,
        fun _ => hb hgood⟩

/-- One iteration of `weight_loop` on a character that is not a separator. -/
theorem weight_loop_char (n : Nat) (r : reader) (h1 : r.ch ≠ '_') (h2 : r.ch ≠ '\n') :
    weight_loop (n + 1) r =
      if r.char_count + 1 > 10 then
        ({ r.put r.ch with char_count := r.char_count + 1 }, true)
      else weight_loop n ({ r.put r.ch with char_count := r.char_count + 1 } : reader).get := by
  rw [weight_loop, if_pos ⟨h1, h2⟩]
  rfl

/-- The loop `weight_loop` is left on a separator. -/
theorem weight_loop_separator (n : Nat) (r : reader) (h : r.ch = '_' ∨ r.ch = '\n') :
    weight_loop (n + 1) r = (r, false) := by
  rw [weight_loop, if_neg]
  rcases h with h | h <;> simp [h]

/-- The loop `weight_loop` on a field `f` followed by the separator `d`: when
the field fits (`char_count + length f <= 10`) the loop ends without `return`,
the stream is after the separator and the characters of the field are in
`string` from index `char_count` on; otherwise `return ERROR` is executed
(after the store of the 11th character outside the array). -/
theorem weight_loop_field (f : List Char) (d : Char) (rest : List Char)
    (hd : d = '_' ∨ d = '\n') (hf : ∀ c, c ∈ f → c ≠ '_' ∧ c ≠ '\n') (r : reader)
    (hr : r.ch :: r.fp = f ++ d :: rest) :
    (r.char_count + f.length ≤ 10 →
      (weight_loop (11 - r.char_count) r).2 = false ∧
      (weight_loop (11 - r.char_count) r).1.fp = rest ∧
      (weight_loop (11 - r.char_count) r).1.char_count = r.char_count + f.length ∧
      (∀ n, n < r.char_count → (weight_loop (11 - r.char_count) r).1.string n = r.string n) ∧
      List.map (weight_loop (11 - r.char_count) r).1.string
        (List.range' r.char_count f.length) = f) ∧
    (¬ r.char_count + f.length ≤ 10 → (weight_loop (11 - r.char_count) r).2 = true) := by
  induction f generalizing r with
  | nil =>
    simp only [List.nil_append, List.cons.injEq] at hr
    by_cases hc : r.char_count ≤ 10
    · rw [show 11 - r.char_count = (10 - r.char_count) + 1 by omega,
        weight_loop_separator _ _ (by rw [hr.1]; exact hd)]
      refine ⟨fun _ => ⟨rfl, hr.2, rfl, fun _ _ => rfl, rfl⟩, fun h => ?_⟩
      simp only [List.length_nil, Nat.add_zero] at h
      exact absurd hc h
    · rw [show 11 - r.char_count = 0 by omega]
      refine ⟨fun h => ?_, fun _ => rfl⟩
      simp only [List.length_nil, Nat.add_zero] at h
      exact absurd h hc
  | cons a f' ih =>
    simp only [List.cons_append, List.cons.injEq] at hr
    obtain ⟨ha, hfp⟩ := hr
    have hna := hf a (List.mem_cons_self a f')
    by_cases hc : r.char_count ≤ 10
    · rw [show 11 - r.char_count = (10 - r.char_count) + 1 by omega,
        weight_loop_char _ _ (by rw [ha]; exact hna.1) (by rw [ha]; exact hna.2)]
      by_cases hc10 : r.char_count + 1 > 10
      · rw [if_pos hc10]
        refine ⟨fun h => ?_, fun _ => rfl⟩
        simp only [List.length_cons] at h
        omega
      · rw [if_neg hc10]
        have hget : (({ r.put r.ch with char_count := r.char_count + 1 } : reader).get).ch ::
            (({ r.put r.ch with char_count := r.char_count + 1 } : reader).get).fp =
            f' ++ d :: rest := by
          rw [← hfp]
          cases hfp' : r.fp with
          | nil => rw [hfp'] at hfp; cases f' <;> cases hfp
          | cons x xs => simp [reader.get, reader.put, fgetc, hfp']
        have hrec := ih (fun c hcm => hf c (List.mem_cons_of_mem a hcm))
          ({ r.put r.ch with char_count := r.char_count + 1 } : reader).get hget
        have hcount : (({ r.put r.ch with char_count := r.char_count + 1 } : reader).get).char_count
            = r.char_count + 1 := rfl
        have hstr : (({ r.put r.ch with char_count := r.char_count + 1 } : reader).get).string
            = arr_set r.string r.char_count a := by
          rw [← ha]
          exact (put_inside r r.ch (by omega)).1
        rw [hcount, hstr] at hrec
        rw [show 10 - r.char_count = 11 - (r.char_count + 1) by omega]
        refine ⟨fun h => ?_, fun h => hrec.2 (by simp only [List.length_cons] at h; omega)⟩
        simp only [List.length_cons] at h
        obtain ⟨q1, q2, q3, q4, q5⟩ := hrec.1 (by omega)
        refine ⟨q1, q2, by rw [q3, List.length_cons]; omega, fun n hn => ?_, ?_⟩
        · rw [q4 n (by omega), arr_set_other _ _ _ _ (by omega)]
        · rw [List.length_cons, List.range'_succ, List.map_cons, q5, q4 _ (by omega),
            arr_set_same]
    · rw [show 11 - r.char_count = 0 by omega]
      refine ⟨fun h => ?_, fun _ => rfl⟩
      omega

/-- One iteration of `weight_loop_hidden` on a character that is not a
separator. -/
theorem weight_loop_hidden_char (n : Nat) (r : reader) (h1 : r.ch ≠ '_') (h2 : r.ch ≠ '\n') :
    weight_loop_hidden (n + 1) r =
      if r.char_count + 1 > 10 then
        (({ r.put r.ch with char_count := r.char_count + 1 } : reader).get, true)
      else
        weight_loop_hidden n ({ r.put r.ch with char_count := r.char_count + 1 } : reader).get := by
  rw [weight_loop_hidden, if_pos ⟨h1, h2⟩]
  rfl

/-- The loop `weight_loop_hidden` is left on a separator. -/
theorem weight_loop_hidden_separator (n : Nat) (r : reader) (h : r.ch = '_' ∨ r.ch = '\n') :
    weight_loop_hidden (n + 1) r = (r, false) := by
  rw [weight_loop_hidden, if_neg]
  rcases h with h | h <;> simp [h]

/-- The loop `weight_loop_hidden` on a field `f` followed by the separator
`d`: as `weight_loop_field`. -/
theorem weight_loop_hidden_field (f : List Char) (d : Char) (rest : List Char)
    (hd : d = '_' ∨ d = '\n') (hf : ∀ c, c ∈ f → c ≠ '_' ∧ c ≠ '\n') (r : reader)
    (hr : r.ch :: r.fp = f ++ d :: rest) :
    (r.char_count + f.length ≤ 10 →
      (weight_loop_hidden (11 - r.char_count) r).2 = false ∧
      (weight_loop_hidden (11 - r.char_count) r).1.fp = rest ∧
      (weight_loop_hidden (11 - r.char_count) r).1.char_count = r.char_count + f.length ∧
      (∀ n, n < r.char_count →
        (weight_loop_hidden (11 - r.char_count) r).1.string n = r.string n) ∧
      List.map (weight_loop_hidden (11 - r.char_count) r).1.string
        (List.range' r.char_count f.length) = f) ∧
    (¬ r.char_count + f.length ≤ 10 → (weight_loop_hidden (11 - r.char_count) r).2 = true) := by
  induction f generalizing r with
  | nil =>
    simp only [List.nil_append, List.cons.injEq] at hr
    by_cases hc : r.char_count ≤ 10
    · rw [show 11 - r.char_count = (10 - r.char_count) + 1 by omega,
        weight_loop_hidden_separator _ _ (by rw [hr.1]; exact hd)]
      refine ⟨fun _ => ⟨rfl, hr.2, rfl, fun _ _ => rfl, rfl⟩, fun h => ?_⟩
      simp only [List.length_nil, Nat.add_zero] at h
      exact absurd hc h
    · rw [show 11 - r.char_count = 0 by omega]
      refine ⟨fun h => ?_, fun _ => rfl⟩
      simp only [List.length_nil, Nat.add_zero] at h
      exact absurd h hc
  | cons a f' ih =>
    simp only [List.cons_append, List.cons.injEq] at hr
    obtain ⟨ha, hfp⟩ := hr
    have hna := hf a (List.mem_cons_self a f')
    by_cases hc : r.char_count ≤ 10
    · rw [show 11 - r.char_count = (10 - r.char_count) + 1 by omega,
        weight_loop_hidden_char _ _ (by rw [ha]; exact hna.1) (by rw [ha]; exact hna.2)]
      by_cases hc10 : r.char_count + 1 > 10
      · rw [if_pos hc10]
        refine ⟨fun h => ?_, fun _ => rfl⟩
        simp only [List.length_cons] at h
        omega
      · rw [if_neg hc10]
        have hget : (({ r.put r.ch with char_count := r.char_count + 1 } : reader).get).ch ::
            (({ r.put r.ch with char_count := r.char_count + 1 } : reader).get).fp =
            f' ++ d :: rest := by
          rw [← hfp]
          cases hfp' : r.fp with
          | nil => rw [hfp'] at hfp; cases f' <;> cases hfp
          | cons x xs => simp [reader.get, reader.put, fgetc, hfp']
        have hrec := ih (fun c hcm => hf c (List.mem_cons_of_mem a hcm))
          ({ r.put r.ch with char_count := r.char_count + 1 } : reader).get hget
        have hcount : (({ r.put r.ch with char_count := r.char_count + 1 } : reader).get).char_count
            = r.char_count + 1 := rfl
        have hstr : (({ r.put r.ch with char_count := r.char_count + 1 } : reader).get).string
            = arr_set r.string r.char_count a := by
          rw [← ha]
          exact (put_inside r r.ch (by omega)).1
        rw [hcount, hstr] at hrec
        rw [show 10 - r.char_count = 11 - (r.char_count + 1) by omega]
        refine ⟨fun h => ?_, fun h => hrec.2 (by simp only [List.length_cons] at h; omega)⟩
        simp only [List.length_cons] at h
        obtain ⟨q1, q2, q3, q4, q5⟩ := hrec.1 (by omega)
        refine ⟨q1, q2, by rw [q3, List.length_cons]; omega, fun n hn => ?_, ?_⟩
        · rw [q4 n (by omega), arr_set_other _ _ _ _ (by omega)]
        · rw [List.length_cons, List.range'_succ, List.map_cons, q5, q4 _ (by omega),
            arr_set_same]
    · rw [show 11 - r.char_count = 0 by omega]
      refine ⟨fun h => ?_, fun _ => rfl⟩
      omega

/-- One iteration of `bias_loop` when the next character of the stream is not
a newline and `char_count < 10`, so that the store is inside the array. -/
theorem bias_loop_char (n : Nat) (r : reader) (a : Char) (xs : List Char)
    (hfp : r.fp = a :: xs) (ha : a ≠ '\n') (hc : r.char_count < 10) :
    bias_loop (n + 1) r =
      bias_loop n { r with fp := xs, ch := a, string := arr_set r.string r.char_count a,
                           writes := r.writes ++ [r.char_count],
                           char_count := r.char_count + 1 } := by
  have hch : r.get.ch = a := by simp [reader.get, fgetc, hfp]
  have hget : r.get.fp = xs := by simp [reader.get, fgetc, hfp]
  have hcc : r.get.char_count = r.char_count := rfl
  have hov : r.get.overrun = r.overrun := rfl
  have hd : decide (10 ≤ r.char_count) = false := decide_eq_false (by omega)
  rw [bias_loop]
  simp only [hch, ne_eq, ha, not_false_eq_true, if_true, reader.put, hget, hcc, hov, hd,
    Bool.or_false, if_pos hc, if_neg (show ¬ r.char_count + 1 > 10 by omega)]
  rfl

/-- One iteration of `bias_loop` when the next character of the stream is not
a newline and `char_count` is 10: `return ERROR` is reached (after the store
outside the array). -/
theorem bias_loop_full (n : Nat) (r : reader) (a : Char) (xs : List Char)
    (hfp : r.fp = a :: xs) (ha : a ≠ '\n') (hc : 10 ≤ r.char_count) :
    (bias_loop (n + 1) r).2 = true := by
  have hch : r.get.ch = a := by simp [reader.get, fgetc, hfp]
  have hcc : (r.get.put a).char_count = r.char_count := rfl
  rw [bias_loop]
  simp only [hch, ne_eq, ha, not_false_eq_true, if_true, hcc,
    if_pos (show r.char_count + 1 > 10 by omega)]

/-- The loop `bias_loop` is left on a newline. -/
theorem bias_loop_newline (n : Nat) (r : reader) (xs : List Char) (hfp : r.fp = '\n' :: xs) :
    bias_loop (n + 1) r = ({ r with fp := xs, ch := '\n' }, false) := by
  rw [bias_loop]
  simp [reader.get, fgetc, hfp]

/-- The loop `bias_loop` on a field `f` followed by a newline: as
`weight_loop_field`. -/
theorem bias_loop_field (f : List Char) (rest : List Char) (hf : ∀ c, c ∈ f → c ≠ '\n')
    (r : reader) (hr : r.fp = f ++ '\n' :: rest) :
    (r.char_count + f.length ≤ 10 →
      (bias_loop (11 - r.char_count) r).2 = false ∧
      (bias_loop (11 - r.char_count) r).1.fp = rest ∧
      (bias_loop (11 - r.char_count) r).1.char_count = r.char_count + f.length ∧
      (∀ n, n < r.char_count → (bias_loop (11 - r.char_count) r).1.string n = r.string n) ∧
      List.map (bias_loop (11 - r.char_count) r).1.string
        (List.range' r.char_count f.length) = f) ∧
    (¬ r.char_count + f.length ≤ 10 → (bias_loop (11 - r.char_count) r).2 = true) := by
  induction f generalizing r with
  | nil =>
    simp only [List.nil_append] at hr
    by_cases hc : r.char_count ≤ 10
    · rw [show 11 - r.char_count = (10 - r.char_count) + 1 by omega, bias_loop_newline _ _ _ hr]
      refine ⟨fun _ => ⟨rfl, rfl, rfl, fun _ _ => rfl, rfl⟩, fun h => ?_⟩
      simp only [List.length_nil, Nat.add_zero] at h
      exact absurd hc h
    · rw [show 11 - r.char_count = 0 by omega]
      refine ⟨fun h => ?_, fun _ => rfl⟩
      simp only [List.length_nil, Nat.add_zero] at h
      exact absurd h hc
  | cons a f' ih =>
    simp only [List.cons_append] at hr
    have hna := hf a (List.mem_cons_self a f')
    by_cases hc : r.char_count ≤ 10
    · rw [show 11 - r.char_count = (10 - r.char_count) + 1 by omega]
      by_cases hc10 : r.char_count + 1 > 10
      · refine ⟨fun h => ?_, fun _ => bias_loop_full _ _ a _ hr hna (by omega)⟩
        simp only [List.length_cons] at h
        omega
      · rw [bias_loop_char _ _ a _ hr hna (by omega)]
        have hrec := ih (fun c hcm => hf c (List.mem_cons_of_mem a hcm))
          { r with fp := f' ++ '\n' :: rest, ch := a,
                   string := arr_set r.string r.char_count a,
                   writes := r.writes ++ [r.char_count], char_count := r.char_count + 1 } rfl
        dsimp only at hrec
        rw [show 10 - r.char_count = 11 - (r.char_count + 1) by omega]
        refine ⟨fun h => ?_, fun h => hrec.2 (by simp only [List.length_cons] at h; omega)⟩
        simp only [List.length_cons] at h
        obtain ⟨q1, q2, q3, q4, q5⟩ := hrec.1 (by omega)
        refine ⟨q1, q2, by rw [q3, List.length_cons]; omega, fun n hn => ?_, ?_⟩
        · rw [q4 n (by omega), arr_set_other _ _ _ _ (by omega)]
        · rw [List.length_cons, List.range'_succ, List.map_cons, q5, q4 _ (by omega),
            arr_set_same]
    · rw [show 11 - r.char_count = 0 by omega]
      refine ⟨fun h => ?_, fun _ => rfl⟩
      omega

end HWR

namespace HWR

/-- The C string in `string` after the terminating NUL is stored behind a
field of at most 9 characters that holds no NUL: the field itself; the NUL is
stored inside the array. -/
theorem c_str_put (r : reader) (f : List Char) (hlen : r.char_count = f.length)
    (h9 : f.length ≤ 9) (hmap : List.map r.string (List.range' 0 f.length) = f)
    (hnul : ∀ c, c ∈ f → (c != Char.ofNat 0) = true) :
    (r.put (Char.ofNat 0)).c_str = f := by
  unfold reader.c_str
  rw [(put_inside r (Char.ofNat 0) (by omega)).1]
  have hsplit : List.range 10 =
      List.range' 0 f.length ++ (f.length :: List.range' (f.length + 1) (9 - f.length)) := by
    rw [List.range_eq_range', ← List.range'_succ,
      show 9 - f.length + 1 = 10 - f.length by omega]
    have := List.range'_append 0 f.length (10 - f.length) 1
    simp only [Nat.one_mul, Nat.zero_add] at this
    rw [this, show 10 - f.length + f.length = 10 by omega]
  have hfirst : List.map (arr_set r.string r.char_count (Char.ofNat 0))
      (List.range' 0 f.length) = f := by
    refine Eq.trans (List.map_congr_left ?_) hmap
    intro n hn
    rw [List.mem_range'_1] at hn
    exact arr_set_other _ _ _ _ (by omega)
  rw [hsplit, List.map_append, List.map_cons, hfirst, hlen, arr_set_same,
    List.takeWhile_append_of_pos hnul, List.takeWhile_cons]
  simp

/-- After `ch = fgetc(fp)` on a stream that is not at its end, `ch` followed
by the rest of the stream is the stream as it was. -/
theorem get_cons (r : reader) (x : Char) (xs : List Char) (h : r.fp = x :: xs) :
    r.get.ch :: r.get.fp = r.fp ∧ r.get.char_count = r.char_count ∧
    r.get.string = r.string := by
  simp [reader.get, fgetc, h]

/-- Body of the `j` loop on a stream that starts with the field `f` and a
separator, entered with no store outside `string` so far: when the field has
at most 9 characters it is consumed together with the separator and `atof` of
it is stored in `weights[i][j]`; when it has 10 or more, the loader is left at
once (the eleventh character or the terminating NUL is stored outside the
array). -/
theorem load_weight_field {F : Type} (atof : List Char → F)
    (loop : Nat → reader → reader × Bool)
    (hl : loop = weight_loop ∨ loop = weight_loop_hidden) (i j : Nat)
    (st : reader × sinapsi_t F) (f : List Char) (d : Char) (rest : List Char)
    (hd : d = '_' ∨ d = '\n') (hp : plain_field f) (hfp : st.1.fp = f ++ d :: rest)
    (hc : st.1.char_count = 0) (ho : st.1.overrun = false) :
    (f.length ≤ 9 →
      (load_weight atof loop i j st).2 = false ∧
      (load_weight atof loop i j st).1.1.fp = rest ∧
      (load_weight atof loop i j st).1.1.char_count = 0 ∧
      (load_weight atof loop i j st).1.1.overrun = false ∧
      (load_weight atof loop i j st).1.2 =
        { st.2 with
          weights := arr_set st.2.weights i (arr_set (st.2.weights i) j (atof f)) }) ∧
    (¬ f.length ≤ 9 → (load_weight atof loop i j st).2 = true) := by
  have hne : ∃ x xs, st.1.fp = x :: xs := by
    rw [hfp]
    cases f with
    | nil => exact ⟨d, rest, rfl⟩
    | cons a f' => exact ⟨a, f' ++ d :: rest, rfl⟩
  obtain ⟨x, xs, hx⟩ := hne
  obtain ⟨g1, g2, g3⟩ := get_cons st.1 x xs hx
  rw [hfp] at g1
  rw [hc] at g2
  have H : (f.length ≤ 10 →
      (loop (11 - st.1.get.char_count) st.1.get).2 = false ∧
      (loop (11 - st.1.get.char_count) st.1.get).1.fp = rest ∧
      (loop (11 - st.1.get.char_count) st.1.get).1.char_count = f.length ∧
      List.map (loop (11 - st.1.get.char_count) st.1.get).1.string
        (List.range' 0 f.length) = f) ∧
      (¬ f.length ≤ 10 → (loop (11 - st.1.get.char_count) st.1.get).2 = true) := by
    rcases hl with e | e
    · have h := weight_loop_field f d rest hd hp.1 st.1.get g1
      rw [g2, Nat.zero_add] at h
      rw [e, g2]
      exact ⟨fun h10 => ⟨(h.1 h10).1, (h.1 h10).2.1, (h.1 h10).2.2.1, (h.1 h10).2.2.2.2⟩, h.2⟩
    · have h := weight_loop_hidden_field f d rest hd hp.1 st.1.get g1
      rw [g2, Nat.zero_add] at h
      rw [e, g2]
      exact ⟨fun h10 => ⟨(h.1 h10).1, (h.1 h10).2.1, (h.1 h10).2.2.1, (h.1 h10).2.2.2.2⟩, h.2⟩
  have hov : (loop (11 - st.1.get.char_count) st.1.get).1.overrun =
      (loop (11 - st.1.get.char_count) st.1.get).2 := by
    have hg : st.1.get.char_count ≤ 10 := by rw [g2]; decide
    have hfuel : 11 ≤ 11 - st.1.get.char_count + st.1.get.char_count := by rw [g2]
    rcases hl with e | e
    · rw [e]
      exact (weight_loop_overrun _ _ hg hfuel ho).1
    · rw [e]
      exact (weight_loop_hidden_overrun _ _ hg hfuel ho).1
  unfold load_weight
  dsimp only
  refine ⟨fun h9 => ?_, fun h9 => ?_⟩
  · obtain ⟨q1, q2, q3, q4⟩ := H.1 (by omega)
    have q5 : ((loop (11 - st.1.get.char_count) st.1.get).1.put (Char.ofNat 0)).overrun =
        false := by
      rw [(put_inside _ (Char.ofNat 0) (by rw [q3]; omega)).2, hov, q1]
    rw [if_neg (by rw [q1]; exact Bool.false_ne_true),
      if_neg (by rw [q5]; exact Bool.false_ne_true)]
    refine ⟨rfl, q2, rfl, q5, ?_⟩
    rw [c_str_put _ f q3 h9 q4 hp.2]
  · by_cases h10 : f.length ≤ 10
    · obtain ⟨q1, q2, q3, q4⟩ := H.1 h10
      rw [if_neg (by rw [q1]; exact Bool.false_ne_true),
        if_pos (put_outside _ (Char.ofNat 0) (by rw [q3]; omega))]
    · rw [if_pos (H.2 h10)]

end HWR

namespace HWR

theorem separator_cases (card_in j : Nat) : separator card_in j = '_' ∨ separator card_in j = '\n' := by
  unfold separator
  split_ifs
  · exact Or.inl rfl
  · exact Or.inr rfl

theorem weights_chars_succ (W : Nat → List Char) (card_in first count : Nat) :
    weights_chars W card_in first (count + 1) =
      W first ++ separator card_in first :: weights_chars W card_in (first + 1) count := by
  unfold weights_chars
  rw [List.range'_succ, List.flatMap_cons, List.append_assoc, List.singleton_append]

theorem weights_chars_zero (W : Nat → List Char) (card_in first : Nat) :
    weights_chars W card_in first 0 = [] := rfl

/-- Body of the `i` loop on a stream that starts with one record (the weight
fields `W 0 .. W (card_in - 1)`, each with its separator, and the bias field
`B` with its newline), entered with no store outside `string` so far: when
every field has at most 9 characters the record is consumed, `atof` of the
fields is stored in `weights[i][..]` and `bias[i]` and nothing else of the
sinapsi changes; otherwise the loader is left at once. -/
theorem load_neuron_record {F : Type} (atof : List Char → F)
    (loop : Nat → reader → reader × Bool)
    (hl : loop = weight_loop ∨ loop = weight_loop_hidden) (i : Nat)
    (st : reader × sinapsi_t F) (W : Nat → List Char) (B : List Char) (rest : List Char)
    (hW : ∀ j, plain_field (W j)) (hB : plain_field B)
    (hfp : st.1.fp = neuron_chars W B st.2.card_in ++ rest) (hc : st.1.char_count = 0)
    (ho : st.1.overrun = false) :
    (((∀ j, j < st.2.card_in → (W j).length ≤ 9) ∧ B.length ≤ 9) →
      (load_neuron atof loop i st).2 = false ∧
      (load_neuron atof loop i st).1.1.fp = rest ∧
      (load_neuron atof loop i st).1.1.char_count = 0 ∧
      (load_neuron atof loop i st).1.1.overrun = false ∧
      (load_neuron atof loop i st).1.2.card_in = st.2.card_in ∧
      (load_neuron atof loop i st).1.2.card_out = st.2.card_out ∧
      (∀ j, j < st.2.card_in → (load_neuron atof loop i st).1.2.weights i j = atof (W j)) ∧
      (load_neuron atof loop i st).1.2.bias i = atof B ∧
      (∀ i', i' ≠ i → (load_neuron atof loop i st).1.2.weights i' = st.2.weights i' ∧
        (load_neuron atof loop i st).1.2.bias i' = st.2.bias i')) ∧
    (¬ ((∀ j, j < st.2.card_in → (W j).length ≤ 9) ∧ B.length ≤ 9) →
      (load_neuron atof loop i st).2 = true) := by
  have hloop := for_return_cases
    (fun j (st' : reader × sinapsi_t F) =>
      st'.1.fp = weights_chars W st.2.card_in j (st.2.card_in - j) ++ (B ++ '\n' :: rest) ∧
      st'.1.char_count = 0 ∧ st'.1.overrun = false ∧
      st'.2.card_in = st.2.card_in ∧ st'.2.card_out = st.2.card_out ∧
      (∀ j', j' < j → st'.2.weights i j' = atof (W j')) ∧
      (∀ i', i' ≠ i → st'.2.weights i' = st.2.weights i') ∧ st'.2.bias = st.2.bias)
    (fun j => (W j).length ≤ 9) (load_weight atof loop i) st.2.card_in 0 st
    ⟨by rw [hfp, neuron_chars]; simp, hc, ho, rfl, rfl,
      fun j' hj' => absurd hj' (Nat.not_lt_zero _), fun _ _ => rfl, rfl⟩
    (by
      intro j st' _ hj ⟨p1, p2, po, p3, p4, p5, p6, p7⟩
      rw [show st.2.card_in - j = (st.2.card_in - (j + 1)) + 1 by omega, weights_chars_succ,
        List.append_assoc, List.cons_append] at p1
      obtain ⟨a, b⟩ := load_weight_field atof loop hl i j st' (W j) _ _
        (separator_cases _ _) (hW j) p1 p2 po
      refine ⟨fun hgood => ?_, b⟩
      obtain ⟨a1, a2, a3, ao, a4⟩ := a hgood
      refine ⟨a1, a2, a3, ao, ?_, ?_, ?_, ?_, ?_⟩
      · rw [a4]; exact p3
      · rw [a4]; exact p4
      · intro j' hj'
        rw [a4]
        dsimp only
        rw [arr_set_same]
        by_cases e : j' = j
        · rw [e, arr_set_same]
        · rw [arr_set_other _ _ _ _ e]
          exact p5 j' (by omega)
      · intro i' hi'
        rw [a4]
        dsimp only
        rw [arr_set_other _ _ _ _ hi']
        exact p6 i' hi'
      · rw [a4]; exact p7)
  simp only [Nat.zero_add, Nat.zero_le, true_implies, true_and] at hloop
  unfold load_neuron
  dsimp only
  by_cases hall : ∀ j, j < st.2.card_in → (W j).length ≤ 9
  · obtain ⟨w1, w2, w3, wo, w4, w5, w6, w7, w8⟩ := hloop.1 hall
    rw [Nat.sub_self, weights_chars_zero, List.nil_append] at w2
    rw [if_neg (by rw [w1]; exact Bool.false_ne_true), w3]
    have hb := bias_loop_field B rest (fun c hcm => ((hB.1 c hcm).2)) _ w2
    rw [w3, Nat.zero_add] at hb
    have hbo := (bias_loop_overrun (11 - 0)
      (for_return (load_weight atof loop i) 0 st.2.card_in st).1.1 (by rw [w3]; decide)
      (by rw [w3]) wo).1
    refine ⟨fun hgood => ?_, fun hbad => ?_⟩
    · obtain ⟨b1, b2, b3, b4, b5⟩ := hb.1 (by have := hgood.2; omega)
      have b6 : ((bias_loop (11 - 0)
          (for_return (load_weight atof loop i) 0 st.2.card_in st).1.1).1.put
            (Char.ofNat 0)).overrun = false := by
        rw [(put_inside _ (Char.ofNat 0) (by rw [b3]; have := hgood.2; omega)).2, hbo, b1]
      rw [if_neg (by rw [b1]; exact Bool.false_ne_true),
        if_neg (by rw [b6]; exact Bool.false_ne_true)]
      rw [c_str_put _ B b3 hgood.2 b5 hB.2]
      refine ⟨rfl, b2, rfl, b6, w4, w5, fun j hj => w6 j hj, arr_set_same _ _ _,
        fun i' hi' => ?_⟩
      refine ⟨w7 i' hi', ?_⟩
      dsimp only
      rw [arr_set_other _ _ _ _ hi', w8]
    · have hB9 : ¬ B.length ≤ 9 := fun h => hbad ⟨hall, h⟩
      by_cases hB10 : B.length ≤ 10
      · obtain ⟨b1, b2, b3, b4, b5⟩ := hb.1 hB10
        rw [if_neg (by rw [b1]; exact Bool.false_ne_true),
          if_pos (put_outside _ (Char.ofNat 0) (by rw [b3]; omega))]
      · rw [if_pos (hb.2 hB10)]
  · have hex : ∃ j, j < st.2.card_in ∧ ¬ (W j).length ≤ 9 := by
      by_contra hcon
      exact hall (fun j hj => by_contra (fun h => hcon ⟨j, hj, h⟩))
    have hflag := hloop.2 hex
    rw [if_pos hflag]
    exact ⟨fun hgood => absurd hgood.1 hall, fun _ => hflag⟩

theorem sinapsi_chars_succ (W : Nat → Nat → List Char) (B : Nat → List Char)
    (card_in first count : Nat) :
    sinapsi_chars W B card_in first (count + 1) =
      neuron_chars (W first) (B first) card_in ++ sinapsi_chars W B card_in (first + 1) count := by
  unfold sinapsi_chars
  rw [List.range'_succ, List.flatMap_cons]

/-- Loading of one sinapsi from a stream that starts with its `card_out`
records, entered with no store outside `string` so far: when every field has
at most 9 characters the records are consumed and `atof` of field `j` of
record `i` is in `weights[i][j]`, `atof` of the bias field of record `i` in
`bias[i]`; when some record has a field of 10 characters or more, the loader
is left at once. -/
theorem load_sinapsi_records {F : Type} (atof : List Char → F)
    (loop : Nat → reader → reader × Bool)
    (hl : loop = weight_loop ∨ loop = weight_loop_hidden)
    (st : reader × sinapsi_t F) (W : Nat → Nat → List Char) (B : Nat → List Char)
    (rest : List Char) (hW : ∀ i j, plain_field (W i j)) (hB : ∀ i, plain_field (B i))
    (hfp : st.1.fp = sinapsi_chars W B st.2.card_in 0 st.2.card_out ++ rest)
    (hc : st.1.char_count = 0) (ho : st.1.overrun = false) :
    ((∀ i, i < st.2.card_out →
        (∀ j, j < st.2.card_in → (W i j).length ≤ 9) ∧ (B i).length ≤ 9) →
      (load_sinapsi atof loop st).2 = false ∧
      (load_sinapsi atof loop st).1.1.fp = rest ∧
      (load_sinapsi atof loop st).1.1.char_count = 0 ∧
      (load_sinapsi atof loop st).1.1.overrun = false ∧
      (load_sinapsi atof loop st).1.2.card_in = st.2.card_in ∧
      (load_sinapsi atof loop st).1.2.card_out = st.2.card_out ∧
      (∀ i j, i < st.2.card_out → j < st.2.card_in →
        (load_sinapsi atof loop st).1.2.weights i j = atof (W i j)) ∧
      (∀ i, i < st.2.card_out → (load_sinapsi atof loop st).1.2.bias i = atof (B i))) ∧
    ((∃ i, i < st.2.card_out ∧
        ¬ ((∀ j, j < st.2.card_in → (W i j).length ≤ 9) ∧ (B i).length ≤ 9)) →
      (load_sinapsi atof loop st).2 = true) := by
  have hloop := for_return_cases
    (fun i (st' : reader × sinapsi_t F) =>
      st'.1.fp = sinapsi_chars W B st.2.card_in i (st.2.card_out - i) ++ rest ∧
      st'.1.char_count = 0 ∧ st'.1.overrun = false ∧
      st'.2.card_in = st.2.card_in ∧ st'.2.card_out = st.2.card_out ∧
      (∀ i' j, i' < i → j < st.2.card_in → st'.2.weights i' j = atof (W i' j)) ∧
      (∀ i', i' < i → st'.2.bias i' = atof (B i')))
    (fun i => (∀ j, j < st.2.card_in → (W i j).length ≤ 9) ∧ (B i).length ≤ 9)
    (load_neuron atof loop) st.2.card_out 0 st
    ⟨hfp, hc, ho, rfl, rfl, fun i' _ hi' => absurd hi' (Nat.not_lt_zero _),
      fun i' hi' => absurd hi' (Nat.not_lt_zero _)⟩
    (by
      intro i st' _ hi ⟨p1, p2, po, p3, p4, p5, p6⟩
      rw [show st.2.card_out - i = (st.2.card_out - (i + 1)) + 1 by omega, sinapsi_chars_succ,
        List.append_assoc, ← p3] at p1
      obtain ⟨a, b⟩ := load_neuron_record atof loop hl i st' (W i) (B i) _ (hW i) (hB i) p1 p2
        po
      rw [p3] at a b
      refine ⟨fun hgood => ?_, b⟩
      obtain ⟨a1, a2, a3, ao, a4, a5, a6, a7, a8⟩ := a hgood
      refine ⟨a1, a2, a3, ao, a4, a5.trans p4, ?_, ?_⟩
      · intro i' j hi' hj
        by_cases e : i' = i
        · rw [e]
          exact a6 j hj
        · rw [(a8 i' e).1]
          exact p5 i' j (by omega) hj
      · intro i' hi'
        by_cases e : i' = i
        · rw [e]
          exact a7
        · rw [(a8 i' e).2]
          exact p6 i' (by omega))
  simp only [Nat.zero_add, Nat.zero_le, true_implies, true_and] at hloop
  unfold load_sinapsi
  refine ⟨fun hall => ?_, hloop.2⟩
  obtain ⟨w1, w2, w3, wo, w4, w5, w6, w7⟩ := hloop.1 hall
  rw [Nat.sub_self] at w2
  exact ⟨w1, w2, w3, wo, w4, w5, fun i j hi hj => w6 i j hi hj, w7⟩

end HWR

namespace HWR

/-! ### What `save_file` writes -/

/-- A loop whose body appends `g i` to the file appends the `g i` in order. -/
theorem for_loop_append (body : Nat → List Char → List Char) (g : Nat → List Char) (n : Nat)
    (init : List Char) (hbody : ∀ i st, body i st = st ++ g i) :
    for_loop body n init = init ++ (List.range' 0 n).flatMap g := by
  induction n with
  | zero => simp [for_loop_zero]
  | succ k ih =>
    rw [for_loop_succ, ih, hbody, List.range'_concat, List.flatMap_append, List.append_assoc]
    simp

theorem save_weights_eq {V : Type} (fmt : V → List Char) (S : type_sinapsi V) (i : Nat)
    (f : List Char) :
    save_weights fmt S i f =
      f ++ weights_chars (fun j => fmt (S.weights i j)) S.card_in 0 S.card_in := by
  unfold save_weights weights_chars
  apply for_loop_append
  intro j st
  unfold separator
  split_ifs <;> simp

theorem save_sinapsi_eq {V : Type} (fmt : V → List Char) (S : type_sinapsi V) (f : List Char) :
    save_sinapsi fmt S f =
      f ++ sinapsi_chars (fun i j => fmt (S.weights i j)) (fun i => fmt (S.bias i))
        S.card_in 0 S.card_out := by
  unfold save_sinapsi sinapsi_chars
  apply for_loop_append
  intro i st
  rw [save_weights_eq, neuron_chars]
  simp

/-- The file `save_file` writes: the transitions in order, then the accuracy
line. -/
theorem save_file_eq {V : Type} (fmt fmt_accuracy : V → List Char)
    (sinapsi : Nat → type_sinapsi V) (num_sinapsi : Nat) (accuracy : V) :
    save_file fmt fmt_accuracy sinapsi num_sinapsi accuracy =
      transitions_chars fmt sinapsi 0 num_sinapsi ++ accuracy_line fmt_accuracy accuracy := by
  unfold save_file transitions_chars
  rw [for_loop_append _ _ _ _ (fun k st => save_sinapsi_eq fmt (sinapsi k) st)]
  simp

theorem transitions_chars_succ {V : Type} (fmt : V → List Char)
    (sinapsi : Nat → type_sinapsi V) (first count : Nat) :
    transitions_chars fmt sinapsi first (count + 1) =
      sinapsi_chars (fun i j => fmt ((sinapsi first).weights i j))
        (fun i => fmt ((sinapsi first).bias i)) (sinapsi first).card_in 0
        (sinapsi first).card_out ++
      transitions_chars fmt sinapsi (first + 1) count := by
  unfold transitions_chars
  rw [List.range'_succ, List.flatMap_cons]

theorem transitions_chars_concat {V : Type} (fmt : V → List Char)
    (sinapsi : Nat → type_sinapsi V) (first count : Nat) :
    transitions_chars fmt sinapsi first (count + 1) =
      transitions_chars fmt sinapsi first count ++
      sinapsi_chars (fun i j => fmt ((sinapsi (first + count)).weights i j))
        (fun i => fmt ((sinapsi (first + count)).bias i)) (sinapsi (first + count)).card_in 0
        (sinapsi (first + count)).card_out := by
  unfold transitions_chars
  rw [List.range'_concat, List.flatMap_append]
  simp

/-- A transition with a field of more than 10 characters does not have all its
fields of at most 9 characters. -/
theorem long_field_not_short {V : Type} (fmt : V → List Char) (S : type_sinapsi V)
    (h : long_field fmt S) : ¬ short_fields 9 fmt S := by
  unfold long_field at h
  unfold short_fields
  rintro ⟨h1, h2⟩
  rcases h with ⟨i, j, hi, hj, h⟩ | ⟨i, hi, h⟩
  · have := h1 i j hi hj
    omega
  · have := h2 i hi
    omega

/-- The fields of a transition, record by record. -/
theorem short_fields_iff {V : Type} (n : Nat) (fmt : V → List Char) (S : type_sinapsi V) :
    short_fields n fmt S ↔ ∀ i, i < S.card_out →
      (∀ j, j < S.card_in → (fmt (S.weights i j)).length ≤ n) ∧
      (fmt (S.bias i)).length ≤ n := by
  unfold short_fields
  exact ⟨fun h i hi => ⟨fun j hj => h.1 i j hi hj, h.2 i hi⟩,
    fun h => ⟨fun i j hi hj => (h i hi).1 j hj, fun i hi => (h i hi).2⟩⟩

end HWR

namespace HWR

/-! ### The loaders on the transitions of a saved file -/

/-- Loading of one sinapsi from a stream that starts with the transition `S`
as `save_file` prints it, `S` having the sizes of the sinapsi loaded. -/
theorem load_sinapsi_transition {V F : Type} (atof : List Char → F)
    (loop : Nat → reader → reader × Bool)
    (hl : loop = weight_loop ∨ loop = weight_loop_hidden) (fmt : V → List Char)
    (hplain : ∀ v, plain_field (fmt v)) (S : type_sinapsi V) (st : reader × sinapsi_t F)
    (rest : List Char) (hin : S.card_in = st.2.card_in) (hout : S.card_out = st.2.card_out)
    (hfp : st.1.fp = sinapsi_chars (fun i j => fmt (S.weights i j)) (fun i => fmt (S.bias i))
      S.card_in 0 S.card_out ++ rest)
    (hc : st.1.char_count = 0) (ho : st.1.overrun = false) :
    (short_fields 9 fmt S →
      (load_sinapsi atof loop st).2 = false ∧ (load_sinapsi atof loop st).1.1.fp = rest ∧
      (load_sinapsi atof loop st).1.1.char_count = 0 ∧
      (load_sinapsi atof loop st).1.1.overrun = false ∧
      holds_values atof fmt S (load_sinapsi atof loop st).1.2) ∧
    (¬ short_fields 9 fmt S → (load_sinapsi atof loop st).2 = true) := by
  rw [hin, hout] at hfp
  obtain ⟨a, b⟩ := load_sinapsi_records atof loop hl st (fun i j => fmt (S.weights i j))
    (fun i => fmt (S.bias i)) rest (fun i j => hplain _) (fun i => hplain _) hfp hc ho
  rw [← hin, ← hout] at a b
  rw [short_fields_iff]
  refine ⟨fun hs => ?_, fun hs => ?_⟩
  · obtain ⟨a1, a2, a3, ao, a4, a5, a6, a7⟩ := a hs
    exact ⟨a1, a2, a3, ao, a4, a5, a6, a7⟩
  · apply b
    by_contra hcon
    apply hs
    intro i hi
    by_contra hg
    exact hcon ⟨i, hi, hg⟩

/-- Function `load_input_sinapsi` on a stream that starts with the transition `S`
as `save_file` prints it. -/
theorem load_input_sinapsi_file {V F : Type} (atof : List Char → F) (fmt : V → List Char)
    (hplain : ∀ v, plain_field (fmt v)) (S : type_sinapsi V) (net : network_t F)
    (rest : List Char) (hin : S.card_in = net.in_S.card_in)
    (hout : S.card_out = net.in_S.card_out) :
    (short_fields 9 fmt S →
      (load_input_sinapsi atof (sinapsi_chars (fun i j => fmt (S.weights i j))
        (fun i => fmt (S.bias i)) S.card_in 0 S.card_out ++ rest) net).ret =
        some nn_handler_SUCCESS ∧
      (load_input_sinapsi atof (sinapsi_chars (fun i j => fmt (S.weights i j))
        (fun i => fmt (S.bias i)) S.card_in 0 S.card_out ++ rest) net).fp = rest ∧
      holds_values atof fmt S (load_input_sinapsi atof (sinapsi_chars
        (fun i j => fmt (S.weights i j)) (fun i => fmt (S.bias i)) S.card_in 0 S.card_out ++
        rest) net).net.in_S) ∧
    (¬ short_fields 9 fmt S →
      (load_input_sinapsi atof (sinapsi_chars (fun i j => fmt (S.weights i j))
        (fun i => fmt (S.bias i)) S.card_in 0 S.card_out ++ rest) net).ret = none) := by
  obtain ⟨a, b⟩ := load_sinapsi_transition atof weight_loop (Or.inl rfl) fmt hplain S
    (reader_init (sinapsi_chars (fun i j => fmt (S.weights i j))
      (fun i => fmt (S.bias i)) S.card_in 0 S.card_out ++ rest) (fun _ => Char.ofNat 0),
      net.in_S) rest hin hout rfl rfl rfl
  rw [load_input_sinapsi_ret]
  refine ⟨fun hs => ?_, fun hs => ?_⟩
  · obtain ⟨a1, a2, _, _, a4⟩ := a hs
    exact ⟨by rw [a1]; rfl, a2, a4⟩
  · rw [b hs]
    rfl

/-- Function `load_out_sinapsi` on a stream that starts with the transition `S` as
`save_file` prints it. -/
theorem load_out_sinapsi_file {V F : Type} (atof : List Char → F) (string0 : Nat → Char)
    (fmt : V → List Char) (hplain : ∀ v, plain_field (fmt v)) (S : type_sinapsi V)
    (net : network_t F) (rest : List Char) (hin : S.card_in = net.out_S.card_in)
    (hout : S.card_out = net.out_S.card_out) :
    (short_fields 9 fmt S →
      (load_out_sinapsi atof string0 (sinapsi_chars (fun i j => fmt (S.weights i j))
        (fun i => fmt (S.bias i)) S.card_in 0 S.card_out ++ rest) net).ret =
        some nn_handler_SUCCESS ∧
      (load_out_sinapsi atof string0 (sinapsi_chars (fun i j => fmt (S.weights i j))
        (fun i => fmt (S.bias i)) S.card_in 0 S.card_out ++ rest) net).fp = rest ∧
      holds_values atof fmt S (load_out_sinapsi atof string0 (sinapsi_chars
        (fun i j => fmt (S.weights i j)) (fun i => fmt (S.bias i)) S.card_in 0 S.card_out ++
        rest) net).net.out_S) ∧
    (¬ short_fields 9 fmt S →
      (load_out_sinapsi atof string0 (sinapsi_chars (fun i j => fmt (S.weights i j))
        (fun i => fmt (S.bias i)) S.card_in 0 S.card_out ++ rest) net).ret = none) := by
  obtain ⟨a, b⟩ := load_sinapsi_transition atof weight_loop (Or.inl rfl) fmt hplain S
    (reader_init (sinapsi_chars (fun i j => fmt (S.weights i j))
      (fun i => fmt (S.bias i)) S.card_in 0 S.card_out ++ rest) string0,
      net.out_S) rest hin hout rfl rfl rfl
  rw [load_out_sinapsi_ret]
  refine ⟨fun hs => ?_, fun hs => ?_⟩
  · obtain ⟨a1, a2, _, _, a4⟩ := a hs
    exact ⟨by rw [a1]; rfl, a2, a4⟩
  · rw [b hs]
    rfl

/-- Function `load_hidden_sinapsi` on a stream that starts with the transitions
`sinapsi[1] .. sinapsi[num_hidden - 1]` as `save_file` prints them. -/
theorem load_hidden_sinapsi_file {V F : Type} (atof : List Char → F) (string0 : Nat → Char)
    (fmt : V → List Char) (hplain : ∀ v, plain_field (fmt v))
    (sinapsi : Nat → type_sinapsi V) (net : network_t F) (rest : List Char)
    (hsz : ∀ k, k < net.num_hidden - 1 →
      (sinapsi (k + 1)).card_in = (net.hid_S k).card_in ∧
      (sinapsi (k + 1)).card_out = (net.hid_S k).card_out) :
    ((∀ k, k < net.num_hidden - 1 → short_fields 9 fmt (sinapsi (k + 1))) →
      (load_hidden_sinapsi atof string0
        (transitions_chars fmt sinapsi 1 (net.num_hidden - 1) ++ rest) net).ret =
        some nn_handler_SUCCESS ∧
      (load_hidden_sinapsi atof string0
        (transitions_chars fmt sinapsi 1 (net.num_hidden - 1) ++ rest) net).fp = rest ∧
      ∀ k, k < net.num_hidden - 1 → holds_values atof fmt (sinapsi (k + 1))
        ((load_hidden_sinapsi atof string0
          (transitions_chars fmt sinapsi 1 (net.num_hidden - 1) ++ rest) net).net.hid_S k)) ∧
    ((∃ k, k < net.num_hidden - 1 ∧ ¬ short_fields 9 fmt (sinapsi (k + 1))) →
      (load_hidden_sinapsi atof string0
        (transitions_chars fmt sinapsi 1 (net.num_hidden - 1) ++ rest) net).ret = none) := by
  have hloop := for_return_cases
    (fun k (st : reader × (Nat → sinapsi_t F)) =>
      st.1.fp = transitions_chars fmt sinapsi (k + 1) (net.num_hidden - 1 - k) ++ rest ∧
      st.1.char_count = 0 ∧ st.1.overrun = false ∧ (∀ k', k ≤ k' → st.2 k' = net.hid_S k') ∧
      ∀ k', k' < k → holds_values atof fmt (sinapsi (k' + 1)) (st.2 k'))
    (fun k => short_fields 9 fmt (sinapsi (k + 1))) (load_hidden_k atof) (net.num_hidden - 1) 0
    (reader_init (transitions_chars fmt sinapsi 1 (net.num_hidden - 1) ++ rest) string0,
      net.hid_S)
    ⟨rfl, rfl, rfl, fun _ _ => rfl, fun k' hk' => absurd hk' (Nat.not_lt_zero _)⟩
    (by
      intro k st _ hk ⟨p1, p2, po, p3, p4⟩
      rw [show net.num_hidden - 1 - k = (net.num_hidden - 1 - (k + 1)) + 1 by omega,
        transitions_chars_succ, List.append_assoc] at p1
      obtain ⟨a, b⟩ := load_sinapsi_transition atof weight_loop_hidden (Or.inr rfl) fmt hplain
        (sinapsi (k + 1)) (st.1, st.2 k) _
        (by rw [p3 k (Nat.le_refl k)]; exact (hsz k (by omega)).1)
        (by rw [p3 k (Nat.le_refl k)]; exact (hsz k (by omega)).2) p1 p2 po
      unfold load_hidden_k
      dsimp only
      refine ⟨fun hgood => ?_, b⟩
      obtain ⟨a1, a2, a3, ao, a4⟩ := a hgood
      refine ⟨a1, a2, a3, ao, fun k' hk' => ?_, fun k' hk' => ?_⟩
      · rw [arr_set_other _ _ _ _ (by omega)]
        exact p3 k' (by omega)
      · by_cases e : k' = k
        · rw [e, arr_set_same]
          exact a4
        · rw [arr_set_other _ _ _ _ e]
          exact p4 k' (by omega))
  simp only [Nat.zero_add, Nat.zero_le, true_implies, true_and] at hloop
  rw [load_hidden_sinapsi_ret]
  refine ⟨fun hs => ?_, fun hs => ?_⟩
  · obtain ⟨w1, w2, _, _, _, w5⟩ := hloop.1 hs
    rw [Nat.sub_self] at w2
    exact ⟨by rw [w1]; rfl, w2, w5⟩
  · rw [hloop.2 hs]
    rfl

end HWR

namespace HWR

/-! ### The three loaders in sequence on a saved file -/

/-- A file saved for a model with at least one hidden layer: the first
transition, the hidden transitions, the last transition, the accuracy line. -/
theorem save_file_split {V : Type} (fmt fmt_accuracy : V → List Char)
    (sinapsi : Nat → type_sinapsi V) (nh : Nat) (accuracy : V) (h : 1 ≤ nh) :
    save_file fmt fmt_accuracy sinapsi (nh + 1) accuracy =
      sinapsi_chars (fun i j => fmt ((sinapsi 0).weights i j))
        (fun i => fmt ((sinapsi 0).bias i)) (sinapsi 0).card_in 0 (sinapsi 0).card_out ++
      (transitions_chars fmt sinapsi 1 (nh - 1) ++
        (sinapsi_chars (fun i j => fmt ((sinapsi nh).weights i j))
          (fun i => fmt ((sinapsi nh).bias i)) (sinapsi nh).card_in 0 (sinapsi nh).card_out ++
        accuracy_line fmt_accuracy accuracy)) := by
  rw [save_file_eq, show nh + 1 = ((nh - 1) + 1) + 1 by omega, transitions_chars_succ,
    transitions_chars_concat, show 0 + 1 + (nh - 1) = nh by omega]
  simp only [List.append_assoc, Nat.zero_add]

/-- The three loaders run in sequence, as `init_networks` runs them, on the
file `save_file` writes for an array `sinapsi` with the sizes of the model:
each loader succeeds when the fields of its transitions have at most 9
characters and otherwise stores outside its array `string` (a field of 10
characters or more), where the defined behaviour ends. -/
theorem loaders_sequence {V F : Type} (atof : List Char → F) (string1 string2 : Nat → Char)
    (fmt fmt_accuracy : V → List Char) (sinapsi : Nat → type_sinapsi V) (accuracy : V)
    (net : network_t F) (hplain : ∀ v, plain_field (fmt v)) (htop : same_topology sinapsi net)
    (r1 r2 r3 : load_result F)
    (h1 : r1 = load_input_sinapsi atof
      (save_file fmt fmt_accuracy sinapsi (net.num_hidden + 1) accuracy) net)
    (h2 : r2 = load_hidden_sinapsi atof string1 r1.fp r1.net)
    (h3 : r3 = load_out_sinapsi atof string2 r2.fp r2.net) :
    (¬ short_fields 9 fmt (sinapsi 0) → r1.ret = none) ∧
    (short_fields 9 fmt (sinapsi 0) →
      r1.ret = some nn_handler_SUCCESS ∧ holds_values atof fmt (sinapsi 0) r1.net.in_S ∧
      ((∃ k, k < net.num_hidden - 1 ∧ ¬ short_fields 9 fmt (sinapsi (k + 1))) →
        r2.ret = none) ∧
      ((∀ k, k < net.num_hidden - 1 → short_fields 9 fmt (sinapsi (k + 1))) →
        r2.ret = some nn_handler_SUCCESS ∧ r2.net.in_S = r1.net.in_S ∧
        (∀ k, k < net.num_hidden - 1 →
          holds_values atof fmt (sinapsi (k + 1)) (r2.net.hid_S k)) ∧
        (¬ short_fields 9 fmt (sinapsi net.num_hidden) → r3.ret = none) ∧
        (short_fields 9 fmt (sinapsi net.num_hidden) →
          r3.ret = some nn_handler_SUCCESS ∧ r3.fp = accuracy_line fmt_accuracy accuracy ∧
          r3.net.in_S = r2.net.in_S ∧ r3.net.hid_S = r2.net.hid_S ∧
          holds_values atof fmt (sinapsi net.num_hidden) r3.net.out_S))) := by
  obtain ⟨t0, t1, t2, t3, t4, t5⟩ := htop
  rw [save_file_split fmt fmt_accuracy sinapsi net.num_hidden accuracy t0] at h1
  obtain ⟨a, b⟩ := load_input_sinapsi_file atof fmt hplain (sinapsi 0) net
    (transitions_chars fmt sinapsi 1 (net.num_hidden - 1) ++
      (sinapsi_chars (fun i j => fmt ((sinapsi net.num_hidden).weights i j))
        (fun i => fmt ((sinapsi net.num_hidden).bias i)) (sinapsi net.num_hidden).card_in 0
        (sinapsi net.num_hidden).card_out ++ accuracy_line fmt_accuracy accuracy)) t1 t2
  rw [← h1] at a b
  refine ⟨b, fun hs0 => ?_⟩
  obtain ⟨a1, a2, a3⟩ := a hs0
  have e1 : r1.net.num_hidden = net.num_hidden := by rw [h1]; rfl
  have e2 : r1.net.hid_S = net.hid_S := by rw [h1]; rfl
  have e3 : r1.net.out_S = net.out_S := by rw [h1]; rfl
  obtain ⟨c, d⟩ := load_hidden_sinapsi_file atof string1 fmt hplain sinapsi r1.net
    (sinapsi_chars (fun i j => fmt ((sinapsi net.num_hidden).weights i j))
        (fun i => fmt ((sinapsi net.num_hidden).bias i)) (sinapsi net.num_hidden).card_in 0
        (sinapsi net.num_hidden).card_out ++ accuracy_line fmt_accuracy accuracy)
    (by rw [e1, e2]; exact t3)
  rw [e1, ← a2, ← h2] at c d
  refine ⟨a1, a3, d, fun hsh => ?_⟩
  obtain ⟨c1, c2, c3⟩ := c hsh
  have f1 : r2.net.out_S = net.out_S := by rw [h2]; exact e3
  have f2 : r2.net.in_S = r1.net.in_S := by rw [h2]; rfl
  obtain ⟨g, k⟩ := load_out_sinapsi_file atof string2 fmt hplain (sinapsi net.num_hidden) r2.net
    (accuracy_line fmt_accuracy accuracy) (by rw [f1]; exact t4) (by rw [f1]; exact t5)
  rw [← c2, ← h3] at g k
  refine ⟨c1, f2, c3, k, fun hso => ?_⟩
  obtain ⟨g1, g2, g3⟩ := g hso
  exact ⟨g1, g2, by rw [h3]; rfl, by rw [h3]; rfl, g3⟩

end HWR

namespace HWR

/-- C12 (what the code does). Take the file `save_file` writes for an array
`sinapsi` that has the sizes of the model `net` (its transitions in the order
input to hidden, hidden to hidden, hidden to output, each record being
`card_in` weight fields separated by `'_'`, the last one ended by a newline,
then the bias field and a newline; the accuracy line last), the printed fields
holding no separator and no NUL.  When every field has at most 9 characters,
`load_input_sinapsi`, `load_hidden_sinapsi` and `load_out_sinapsi`, run in
sequence, all return `SUCCESS`, the stream is left at the accuracy line, and
every `weights[i][j]` and `bias[i]` of every transition of the model holds
`atof` of the field printed for it.  A field of exactly 10 characters does not
load: on the file saved for `tiny_net` with every bias printed as 10
characters, where every field has at most 10 characters, `load_input_sinapsi`
stores the NUL that ends the first bias at `string[10]`, outside the array,
and has no defined return value. -/
theorem loaders_read_short_fields {V F : Type} (atof : List Char → F)
    (string1 string2 : Nat → Char) (fmt fmt_accuracy : V → List Char)
    (sinapsi : Nat → type_sinapsi V) (accuracy : V) (net : network_t F)
    (hplain : ∀ v, plain_field (fmt v)) (htop : same_topology sinapsi net)
    (hshort : ∀ k, k ≤ net.num_hidden → short_fields 9 fmt (sinapsi k))
    (r1 r2 r3 : load_result F)
    (h1 : r1 = load_input_sinapsi atof
      (save_file fmt fmt_accuracy sinapsi (net.num_hidden + 1) accuracy) net)
    (h2 : r2 = load_hidden_sinapsi atof string1 r1.fp r1.net)
    (h3 : r3 = load_out_sinapsi atof string2 r2.fp r2.net) :
    (r1.ret = some nn_handler_SUCCESS ∧ r2.ret = some nn_handler_SUCCESS ∧
      r3.ret = some nn_handler_SUCCESS ∧
      r3.fp = accuracy_line fmt_accuracy accuracy ∧
      holds_values atof fmt (sinapsi 0) r3.net.in_S ∧
      (∀ k, k < net.num_hidden - 1 →
        holds_values atof fmt (sinapsi (k + 1)) (r3.net.hid_S k)) ∧
      holds_values atof fmt (sinapsi net.num_hidden) r3.net.out_S) ∧
    ((∀ k, k ≤ tiny_net.num_hidden → short_fields 10 sevens (tiny_sinapsi (fun _ => 10) k)) ∧
      (∀ v, plain_field (sevens v)) ∧
      same_topology (tiny_sinapsi (fun _ => 10)) tiny_net ∧
      (load_input_sinapsi count_chars
        (save_file sevens sevens (tiny_sinapsi (fun _ => 10)) 3 2) tiny_net).ret = none ∧
      (load_input_sinapsi count_chars
        (save_file sevens sevens (tiny_sinapsi (fun _ => 10)) 3 2) tiny_net).writes =
        [0, 1, 0, 1, 2, 0, 1, 2, 3, 4, 5, 6, 7, 8, 9, 10]) := by
  obtain ⟨_, a⟩ := loaders_sequence atof string1 string2 fmt fmt_accuracy sinapsi accuracy net
    hplain htop r1 r2 r3 h1 h2 h3
  obtain ⟨a1, a2, _, b⟩ := a (hshort 0 (Nat.zero_le _))
  obtain ⟨b1, b2, b3, _, c⟩ := b (fun k hk => hshort (k + 1) (by omega))
  obtain ⟨c1, c2, c3, c4, c5⟩ := c (hshort net.num_hidden (Nat.le_refl _))
  refine ⟨⟨a1, b1, c1, c2, by rw [c3, b2]; exact a2, fun k hk => by rw [c4]; exact b3 k hk,
    c5⟩, ?_, fun v => by simp [plain_field, sevens],
    by simp [same_topology, tiny_sinapsi, tiny_net], rfl, rfl⟩
  intro k _
  simp only [short_fields, tiny_sinapsi, sevens, List.length_replicate]
  constructor
  · intro i j _ hj
    split_ifs at hj <;> omega
  · intro i _
    omega

/-- C12 on the file saved for `tiny_net` with weights `j + 1` and biases
`k + 3`, printed by `sevens` and read by `count_chars`: the loaders succeed,
the stream is left at the accuracy line. -/
theorem loaders_read_short_fields_witness :
    (load_out_sinapsi count_chars (fun _ => 'x')
      (load_hidden_sinapsi count_chars (fun _ => 'y')
        (load_input_sinapsi count_chars
          (save_file sevens sevens (tiny_sinapsi (fun k => k + 3)) 3 2) tiny_net).fp
        (load_input_sinapsi count_chars
          (save_file sevens sevens (tiny_sinapsi (fun k => k + 3)) 3 2) tiny_net).net).fp
      (load_hidden_sinapsi count_chars (fun _ => 'y')
        (load_input_sinapsi count_chars
          (save_file sevens sevens (tiny_sinapsi (fun k => k + 3)) 3 2) tiny_net).fp
        (load_input_sinapsi count_chars
          (save_file sevens sevens (tiny_sinapsi (fun k => k + 3)) 3 2) tiny_net).net).net).ret
      = some nn_handler_SUCCESS ∧
    (load_out_sinapsi count_chars (fun _ => 'x')
      (load_hidden_sinapsi count_chars (fun _ => 'y')
        (load_input_sinapsi count_chars
          (save_file sevens sevens (tiny_sinapsi (fun k => k + 3)) 3 2) tiny_net).fp
        (load_input_sinapsi count_chars
          (save_file sevens sevens (tiny_sinapsi (fun k => k + 3)) 3 2) tiny_net).net).fp
      (load_hidden_sinapsi count_chars (fun _ => 'y')
        (load_input_sinapsi count_chars
          (save_file sevens sevens (tiny_sinapsi (fun k => k + 3)) 3 2) tiny_net).fp
        (load_input_sinapsi count_chars
          (save_file sevens sevens (tiny_sinapsi (fun k => k + 3)) 3 2) tiny_net).net).net).fp
      = accuracy_line sevens 2 :=
  have h := (loaders_read_short_fields count_chars (fun _ => 'y') (fun _ => 'x') sevens sevens
    (tiny_sinapsi (fun k => k + 3)) 2 tiny_net
    (fun v => by simp [plain_field, sevens])
    (by simp [same_topology, tiny_sinapsi, tiny_net])
    (fun k hk => by
      have hk2 : k ≤ 2 := hk
      simp only [short_fields, tiny_sinapsi, sevens, List.length_replicate]
      constructor
      · intro i j _ hj
        split_ifs at hj <;> omega
      · intro i _
        omega)
    _ _ _ rfl rfl rfl).1
  ⟨h.2.2.1, h.2.2.2.1⟩

end HWR
namespace HWR

/-! ### A field of 10 characters or more -/

/-- When one of the loader calls `init_networks` makes stores outside its array
`string`, `init_networks` ends there, with no return value: for the digits
file, for the letters file once the digits file is loaded, for the mixed file
once the other two are loaded. -/
theorem init_networks_overrun {F : Type} (env : nn_env F) (s : nn_state F)
    (fpd : stream) (hd : env.digits_file = some fpd) :
    ((load_model env.atof env.string0 fpd
        (init_mixed_net (init_letters_net (init_digits_net s.neural_network))
          network_target.DIGITS)).2 = none →
      ∃ n, init_networks env s = init_networks_result.buffer_overrun n) ∧
    (∀ fpl, (load_model env.atof env.string0 fpd
        (init_mixed_net (init_letters_net (init_digits_net s.neural_network))
          network_target.DIGITS)).2 = some false →
      env.letters_file = some fpl →
      ((load_model env.atof env.string0 fpl
          (init_mixed_net (init_letters_net (init_digits_net s.neural_network))
            network_target.LETTERS)).2 = none →
        ∃ n, init_networks env s = init_networks_result.buffer_overrun n) ∧
      ∀ fpm, (load_model env.atof env.string0 fpl
          (init_mixed_net (init_letters_net (init_digits_net s.neural_network))
            network_target.LETTERS)).2 = some false →
        env.mixed_file = some fpm →
        (load_model env.atof env.string0 fpm
          (init_mixed_net (init_letters_net (init_digits_net s.neural_network))
            network_target.MIXED)).2 = none →
        ∃ n, init_networks env s = init_networks_result.buffer_overrun n) := by
  have el : ∀ f, net_upd (init_mixed_net (init_letters_net (init_digits_net s.neural_network)))
      network_target.DIGITS f network_target.LETTERS =
      init_mixed_net (init_letters_net (init_digits_net s.neural_network))
        network_target.LETTERS := fun f => net_upd_other _ _ _ f (by decide)
  have em : ∀ f g, net_upd (net_upd
      (init_mixed_net (init_letters_net (init_digits_net s.neural_network)))
      network_target.DIGITS f) network_target.LETTERS g network_target.MIXED =
      init_mixed_net (init_letters_net (init_digits_net s.neural_network))
        network_target.MIXED := fun f g => by
    rw [net_upd_other _ _ _ g (by decide), net_upd_other _ _ _ f (by decide)]
  have n1 : ¬ (some false : Option Bool) = none := by decide
  have n2 : ¬ (some false : Option Bool) = some true := by decide
  refine ⟨fun h => ?_, fun fpl hdok hl => ⟨fun h => ?_, fun fpm hlok hm h => ?_⟩⟩
  · unfold init_networks
    simp only [hd, h, if_true]
    exact ⟨_, rfl⟩
  · unfold init_networks
    simp only [hd, hdok, if_neg n1, if_neg n2]
    unfold init_networks_letters
    simp only [hl, el, h, if_true]
    exact ⟨_, rfl⟩
  · unfold init_networks
    simp only [hd, hdok, if_neg n1, if_neg n2]
    unfold init_networks_letters
    simp only [hl, el, hlok, if_neg n1, if_neg n2]
    unfold init_networks_mixed
    simp only [hm, em, h, if_true]
    exact ⟨_, rfl⟩

/-- The three loader calls on the file saved for an array `sinapsi` in which
some transition has a field of 10 characters or more: one of them stores
outside its array `string`. -/
theorem load_model_long_field {V F : Type} (atof : List Char → F) (string0 : Nat → Char)
    (fmt fmt_accuracy : V → List Char) (sinapsi : Nat → type_sinapsi V) (accuracy : V)
    (net : network_t F) (hplain : ∀ v, plain_field (fmt v)) (htop : same_topology sinapsi net)
    (hlong : ∃ k, k ≤ net.num_hidden ∧ ¬ short_fields 9 fmt (sinapsi k)) :
    (load_model atof string0
      (save_file fmt fmt_accuracy sinapsi (net.num_hidden + 1) accuracy) net).2 = none := by
  obtain ⟨a, b⟩ := loaders_sequence atof string0 string0 fmt fmt_accuracy sinapsi accuracy net
    hplain htop _ _ _ rfl rfl rfl
  have n1 : ¬ (some nn_handler_SUCCESS : Option Int) = none := by decide
  have n2 : ¬ (some nn_handler_SUCCESS : Option Int) = some nn_handler_ERROR := by decide
  unfold load_model
  dsimp only
  by_cases s0 : short_fields 9 fmt (sinapsi 0)
  · obtain ⟨b1, _, b3, b4⟩ := b s0
    rw [if_neg (by rw [b1]; exact n1), if_neg (by rw [b1]; exact n2)]
    by_cases sh : ∀ k, k < net.num_hidden - 1 → short_fields 9 fmt (sinapsi (k + 1))
    · obtain ⟨c1, _, _, c4, _⟩ := b4 sh
      rw [if_neg (by rw [c1]; exact n1), if_neg (by rw [c1]; exact n2)]
      have so : ¬ short_fields 9 fmt (sinapsi net.num_hidden) := by
        obtain ⟨k, hk, hl⟩ := hlong
        intro hso
        apply hl
        by_cases e0 : k = 0
        · rw [e0]; exact s0
        · by_cases e1 : k = net.num_hidden
          · rw [e1]; exact hso
          · have := sh (k - 1) (by omega)
            rw [show k - 1 + 1 = k by omega] at this
            exact this
      rw [if_pos (c4 so)]
    · have hex : ∃ k, k < net.num_hidden - 1 ∧ ¬ short_fields 9 fmt (sinapsi (k + 1)) := by
        by_contra hcon
        exact sh (fun k hk => by_contra (fun h => hcon ⟨k, hk, h⟩))
      rw [if_pos (b3 hex)]
  · rw [if_pos (a s0)]

/-- The three loader calls never have one of them return `ERROR`. -/
theorem load_model_never_ERROR {F : Type} (atof : List Char → F) (string0 : Nat → Char)
    (fp : stream) (net : network_t F) : (load_model atof string0 fp net).2 ≠ some true := by
  unfold load_model
  dsimp only
  have c1 := (loaders_ret_cases atof string0 fp net).1
  have c2 := (loaders_ret_cases atof string0 (load_input_sinapsi atof fp net).fp
    (load_input_sinapsi atof fp net).net).2.1
  have c3 := (loaders_ret_cases atof string0
    (load_hidden_sinapsi atof string0 (load_input_sinapsi atof fp net).fp
      (load_input_sinapsi atof fp net).net).fp
    (load_hidden_sinapsi atof string0 (load_input_sinapsi atof fp net).fp
      (load_input_sinapsi atof fp net).net).net).2.2
  have n1 : ¬ (some nn_handler_SUCCESS : Option Int) = none := by decide
  have n2 : ¬ (some nn_handler_SUCCESS : Option Int) = some nn_handler_ERROR := by decide
  rcases c1 with c1 | c1
  · rw [if_pos c1]; simp
  · rw [if_neg (by rw [c1]; exact n1), if_neg (by rw [c1]; exact n2)]
    rcases c2 with c2 | c2
    · rw [if_pos c2]; simp
    · rw [if_neg (by rw [c2]; exact n1), if_neg (by rw [c2]; exact n2)]
      rcases c3 with c3 | c3
      · rw [if_pos c3]; simp
      · rw [if_neg (by rw [c3]; exact n1), if_neg (by rw [c3]; exact n2)]
        simp

/-- Function `init_networks` never returns `NN_ERROR_READING_FILE`. -/
theorem init_networks_never_reading_error {F : Type} (env : nn_env F) (s : nn_state F) :
    (init_networks env s).ret ≠ some NN_ERROR_READING_FILE := by
  unfold init_networks
  dsimp only
  split
  · simp [init_networks_result.ret, NN_ERROR_NO_FILE, NN_ERROR_READING_FILE]
  · split_ifs with h1 h2
    · simp [init_networks_result.ret]
    · exact absurd h2 (load_model_never_ERROR _ _ _ _)
    · unfold init_networks_letters
      dsimp only
      split
      · simp [init_networks_result.ret]
      · split_ifs with h3 h4
        · simp [init_networks_result.ret]
        · exact absurd h4 (load_model_never_ERROR _ _ _ _)
        · unfold init_networks_mixed
          dsimp only
          split
          · simp [init_networks_result.ret]
          · split_ifs with h5 h6
            · simp [init_networks_result.ret]
            · exact absurd h6 (load_model_never_ERROR _ _ _ _)
            · simp [init_networks_result.ret, nn_handler_SUCCESS, NN_ERROR_READING_FILE]

end HWR
namespace HWR

/-- C11 (what the code does). On the file `save_file` writes for an array
`sinapsi` with the sizes of the model `net` (printed fields without separator
or NUL), a loader that reads a field of more than 10 characters does not
return `ERROR` in a defined way: it stores the 11th character at
`string[10]`, outside the 10 cells of the array, before it tests
`char_count > 10`, and from that store on its behaviour is undefined (no
return value).  This holds for `load_input_sinapsi` on a field of the first
transition, for `load_hidden_sinapsi` (reached with `SUCCESS` when the fields
of the first transition have at most 9 characters) on a field of a hidden
transition, and for `load_out_sinapsi` (reached likewise) on a field of the
last transition; and `init_networks`, given such a file for the digits, for
the letters (the digits file being loaded) or for the mixed model (the other
two being loaded), ends at that store instead of returning
`NN_ERROR_READING_FILE`.  In general, on every stream and model no loader
returns `ERROR` without such a store, and `init_networks` never returns
`NN_ERROR_READING_FILE`. -/
theorem long_field_overruns_string {V F : Type} (atof : List Char → F) (string0 : Nat → Char)
    (fmt fmt_accuracy : V → List Char) (sinapsi : Nat → type_sinapsi V) (accuracy : V)
    (net : network_t F) (hplain : ∀ v, plain_field (fmt v)) (htop : same_topology sinapsi net)
    (r1 r2 r3 : load_result F)
    (h1 : r1 = load_input_sinapsi atof
      (save_file fmt fmt_accuracy sinapsi (net.num_hidden + 1) accuracy) net)
    (h2 : r2 = load_hidden_sinapsi atof string0 r1.fp r1.net)
    (h3 : r3 = load_out_sinapsi atof string0 r2.fp r2.net) :
    (long_field fmt (sinapsi 0) → r1.ret = none) ∧
    (short_fields 9 fmt (sinapsi 0) →
      (∃ k, k < net.num_hidden - 1 ∧ long_field fmt (sinapsi (k + 1))) →
      r1.ret = some nn_handler_SUCCESS ∧ r2.ret = none) ∧
    (short_fields 9 fmt (sinapsi 0) →
      (∀ k, k < net.num_hidden - 1 → short_fields 9 fmt (sinapsi (k + 1))) →
      long_field fmt (sinapsi net.num_hidden) →
      r1.ret = some nn_handler_SUCCESS ∧ r2.ret = some nn_handler_SUCCESS ∧ r3.ret = none) ∧
    ((∃ k, k ≤ net.num_hidden ∧ long_field fmt (sinapsi k)) →
      ∀ (env : nn_env F) (s : nn_state F), env.atof = atof → env.string0 = string0 →
        (net = init_mixed_net (init_letters_net (init_digits_net s.neural_network))
            network_target.DIGITS →
          env.digits_file =
            some (save_file fmt fmt_accuracy sinapsi (net.num_hidden + 1) accuracy) →
          ∃ n, init_networks env s = init_networks_result.buffer_overrun n) ∧
        (net = init_mixed_net (init_letters_net (init_digits_net s.neural_network))
            network_target.LETTERS →
          ∀ fpd, env.digits_file = some fpd →
            (load_model atof string0 fpd
              (init_mixed_net (init_letters_net (init_digits_net s.neural_network))
                network_target.DIGITS)).2 = some false →
            env.letters_file =
              some (save_file fmt fmt_accuracy sinapsi (net.num_hidden + 1) accuracy) →
            ∃ n, init_networks env s = init_networks_result.buffer_overrun n) ∧
        (net = init_mixed_net (init_letters_net (init_digits_net s.neural_network))
            network_target.MIXED →
          ∀ fpd fpl, env.digits_file = some fpd →
            (load_model atof string0 fpd
              (init_mixed_net (init_letters_net (init_digits_net s.neural_network))
                network_target.DIGITS)).2 = some false →
            env.letters_file = some fpl →
            (load_model atof string0 fpl
              (init_mixed_net (init_letters_net (init_digits_net s.neural_network))
                network_target.LETTERS)).2 = some false →
            env.mixed_file =
              some (save_file fmt fmt_accuracy sinapsi (net.num_hidden + 1) accuracy) →
            ∃ n, init_networks env s = init_networks_result.buffer_overrun n)) ∧
    (∀ (fp : stream) (model : network_t F),
      (load_input_sinapsi atof fp model).ret ≠ some nn_handler_ERROR ∧
      (load_hidden_sinapsi atof string0 fp model).ret ≠ some nn_handler_ERROR ∧
      (load_out_sinapsi atof string0 fp model).ret ≠ some nn_handler_ERROR) ∧
    (∀ (env : nn_env F) (s : nn_state F),
      (init_networks env s).ret ≠ some NN_ERROR_READING_FILE) := by
  obtain ⟨a, b⟩ := loaders_sequence atof string0 string0 fmt fmt_accuracy sinapsi accuracy net
    hplain htop r1 r2 r3 h1 h2 h3
  refine ⟨fun hl => a (long_field_not_short _ _ hl), fun h0 hex => ?_, fun h0 hall hl => ?_,
    fun hlong env s ea es => ?_, fun fp model => ?_,
    fun env s => init_networks_never_reading_error env s⟩
  · obtain ⟨b1, _, b3, _⟩ := b h0
    obtain ⟨k, hk, hkl⟩ := hex
    exact ⟨b1, b3 ⟨k, hk, long_field_not_short _ _ hkl⟩⟩
  · obtain ⟨b1, _, _, b4⟩ := b h0
    obtain ⟨c1, _, _, c4, _⟩ := b4 hall
    exact ⟨b1, c1, c4 (long_field_not_short _ _ hl)⟩
  · have hflag := load_model_long_field atof string0 fmt fmt_accuracy sinapsi accuracy net
      hplain htop (by
        obtain ⟨k, hk, hkl⟩ := hlong
        exact ⟨k, hk, long_field_not_short _ _ hkl⟩)
    subst ea es
    refine ⟨fun hn hd => ?_, fun hn fpd hd hdok hl => ?_, fun hn fpd fpl hd hdok hl hlok hm => ?_⟩
    · subst hn
      exact (init_networks_overrun env s _ hd).1 hflag
    · subst hn
      exact ((init_networks_overrun env s fpd hd).2 _ hdok hl).1 hflag
    · subst hn
      exact ((init_networks_overrun env s fpd hd).2 fpl hdok hl).2 _ hlok hm hflag
  · obtain ⟨c1, c2, c3⟩ := loaders_ret_cases atof string0 fp model
    have n1 : ¬ (none : Option Int) = some nn_handler_ERROR := by decide
    have n2 : ¬ (some nn_handler_SUCCESS : Option Int) = some nn_handler_ERROR := by decide
    refine ⟨?_, ?_, ?_⟩
    · rcases c1 with c | c <;> rw [c] <;> assumption
    · rcases c2 with c | c <;> rw [c] <;> assumption
    · rcases c3 with c | c <;> rw [c] <;> assumption

end HWR
namespace HWR

/-- C11 on two files.  For `tiny_net`, with the bias of the hidden transition
printed as 11 characters: `load_input_sinapsi` succeeds and
`load_hidden_sinapsi` has no defined return value.  For the DIGITS model, with
every bias printed as 11 characters: `init_networks` has no return value. -/
theorem long_field_overruns_string_witness :
    ((load_input_sinapsi count_chars
        (save_file sevens sevens (tiny_sinapsi (fun k => if k = 1 then 11 else 3)) 3 2)
        tiny_net).ret = some nn_handler_SUCCESS ∧
      (load_hidden_sinapsi count_chars (fun _ => 'x')
        (load_input_sinapsi count_chars
          (save_file sevens sevens (tiny_sinapsi (fun k => if k = 1 then 11 else 3)) 3 2)
          tiny_net).fp
        (load_input_sinapsi count_chars
          (save_file sevens sevens (tiny_sinapsi (fun k => if k = 1 then 11 else 3)) 3 2)
          tiny_net).net).ret = none) ∧
    ∃ n, init_networks
      ⟨count_chars, some (save_file sevens sevens (digits_sinapsi 11) 3 2), none, none,
        fun _ => 'x'⟩
      (digits_state_with_out_bias 0 ⟨'A', 0⟩) = init_networks_result.buffer_overrun n :=
  ⟨(long_field_overruns_string count_chars (fun _ => 'x') sevens sevens
      (tiny_sinapsi (fun k => if k = 1 then 11 else 3)) 2 tiny_net
      (fun v => by simp [plain_field, sevens])
      (by simp [same_topology, tiny_sinapsi, tiny_net])
      _ _ _ rfl rfl rfl).2.1
      (by
        simp only [short_fields, tiny_sinapsi, sevens, List.length_replicate]
        constructor
        · intro i j _ hj
          simp only [if_true] at hj
          omega
        · intro i _
          decide)
      ⟨0, by decide, Or.inr ⟨0, by decide, by decide⟩⟩,
    ((long_field_overruns_string count_chars (fun _ => 'x') sevens sevens (digits_sinapsi 11) 2
      (init_mixed_net (init_letters_net (init_digits_net
        (digits_state_with_out_bias (0 : ℚ) ⟨'A', 0⟩).neural_network)) network_target.DIGITS)
      (fun v => by simp [plain_field, sevens])
      (by
        obtain ⟨e1, e2, e3, e4, e5, e6, e7⟩ := init_sizes_digits
          (digits_state_with_out_bias (0 : ℚ) ⟨'A', 0⟩).neural_network
        unfold same_topology
        rw [e1, e2, e3, e6, e7]
        refine ⟨by decide, rfl, rfl, fun k hk => ?_, rfl, rfl⟩
        have hk0 : k = 0 := by omega
        rw [hk0, e4, e5]
        exact ⟨rfl, rfl⟩)
      _ _ _ rfl rfl rfl).2.2.2.1 ⟨0, by decide, Or.inr ⟨0, by decide, by decide⟩⟩
      ⟨count_chars, some (save_file sevens sevens (digits_sinapsi 11) 3 2), none, none,
        fun _ => 'x'⟩
      (digits_state_with_out_bias 0 ⟨'A', 0⟩) rfl rfl).1 rfl rfl⟩

end HWR

namespace HWR

/-! ## `time_add_ms` and normalised timespecs -/

/-- C23 (what the code does). For a normalised timespec and `ms >= 0`,
`time_add_ms` leaves `tv_nsec` in `[0, 10^9]`, and it is exactly `10^9`, one
past the normalised range, when `tv_nsec + (ms % 1000) * 10^6` is exactly
`10^9`: the carry is made only for a sum greater than `10^9`.  At
`tv_nsec = 500000000` and `ms = 500` the result is `tv_sec = 0`,
`tv_nsec = 1000000000`, which is not normalised. -/
theorem time_add_ms_leaves_full_second (t : timespec) (ms : Int) :
    (normalised t → 0 ≤ ms →
      0 ≤ (time_add_ms t ms).tv_nsec ∧ (time_add_ms t ms).tv_nsec ≤ 1000000000 ∧
      ((time_add_ms t ms).tv_nsec = 1000000000 ↔
        t.tv_nsec + Int.tmod ms 1000 * 1000000 = 1000000000)) ∧
    normalised ⟨0, 500000000⟩ ∧
    time_add_ms ⟨0, 500000000⟩ 500 = ⟨0, 1000000000⟩ ∧
    ¬ normalised (time_add_ms ⟨0, 500000000⟩ 500) := by
  refine ⟨fun hn hms => ?_, by decide, by decide, by decide⟩
  unfold normalised at hn
  have h1 : 0 ≤ Int.tmod ms 1000 := Int.tmod_nonneg _ hms
  have h2 : Int.tmod ms 1000 < 1000 := Int.tmod_lt_of_pos _ (by decide)
  unfold time_add_ms
  dsimp only
  split_ifs with hc
  · dsimp only
    refine ⟨by omega, by omega, ?_⟩
    constructor <;> intro h <;> omega
  · dsimp only
    refine ⟨by omega, by omega, Iff.rfl⟩

/-- C23 at the failing input: a normalised timespec of 0.5 s plus 500 ms. -/
theorem time_add_ms_leaves_full_second_witness :
    (time_add_ms ⟨0, 500000000⟩ 500).tv_nsec = 1000000000 :=
  ((time_add_ms_leaves_full_second ⟨0, 500000000⟩ 500).1 (by decide) (by decide)).2.2.2
    (by decide)

end HWR

namespace HWR

/-! ## The ROI copied by `draw_display` -/

/-- C26. After a successful `init_display` and any sequence of key events, the
rectangle that `draw_display` copies from the captured image (origin
`(centerX - radius, centerY - radius - CAM_MRG_TOP)`, side `2 * radius`) lies
inside the `CAM_WIDTH x CAM_HEIGHT` = 320 x 240 image, its side is 56, 112 or
224, hence between `ROI_MIN` and `ROI_MAX`, and, copied to the origin of the
`ROI_MAX x ROI_MAX` bitmap `extracted_ROI.image`, it fits that bitmap. -/
theorem extracted_ROI_inside_image (K : key_codes) (env : display_env) (s : user_state)
    (keys : List Int) (h : (init_display env s.ROI_dim).2 = DISPLAY_SUCCESS) :
    (draw_display_extract
      (keys_pressed K { s with ROI_dim := (init_display env s.ROI_dim).1 } keys).ROI_dim).source_x
      = (keys_pressed K { s with ROI_dim := (init_display env s.ROI_dim).1 } keys).ROI_dim.centerX
        - (keys_pressed K { s with ROI_dim := (init_display env s.ROI_dim).1 } keys).ROI_dim.radius ∧
    (draw_display_extract
      (keys_pressed K { s with ROI_dim := (init_display env s.ROI_dim).1 } keys).ROI_dim).source_y
      = (keys_pressed K { s with ROI_dim := (init_display env s.ROI_dim).1 } keys).ROI_dim.centerY
        - (keys_pressed K { s with ROI_dim := (init_display env s.ROI_dim).1 } keys).ROI_dim.radius
        - CAM_MRG_TOP ∧
    0 ≤ (draw_display_extract
      (keys_pressed K { s with ROI_dim := (init_display env s.ROI_dim).1 } keys).ROI_dim).source_x ∧
    (draw_display_extract
      (keys_pressed K { s with ROI_dim := (init_display env s.ROI_dim).1 } keys).ROI_dim).source_x +
      (draw_display_extract
        (keys_pressed K { s with ROI_dim := (init_display env s.ROI_dim).1 } keys).ROI_dim).width
      ≤ 320 ∧
    0 ≤ (draw_display_extract
      (keys_pressed K { s with ROI_dim := (init_display env s.ROI_dim).1 } keys).ROI_dim).source_y ∧
    (draw_display_extract
      (keys_pressed K { s with ROI_dim := (init_display env s.ROI_dim).1 } keys).ROI_dim).source_y +
      (draw_display_extract
        (keys_pressed K { s with ROI_dim := (init_display env s.ROI_dim).1 } keys).ROI_dim).height
      ≤ 240 ∧
    (draw_display_extract
      (keys_pressed K { s with ROI_dim := (init_display env s.ROI_dim).1 } keys).ROI_dim).height =
      (draw_display_extract
        (keys_pressed K { s with ROI_dim := (init_display env s.ROI_dim).1 } keys).ROI_dim).width ∧
    ((draw_display_extract
        (keys_pressed K { s with ROI_dim := (init_display env s.ROI_dim).1 } keys).ROI_dim).width
        = 56 ∨
      (draw_display_extract
        (keys_pressed K { s with ROI_dim := (init_display env s.ROI_dim).1 } keys).ROI_dim).width
        = 112 ∨
      (draw_display_extract
        (keys_pressed K { s with ROI_dim := (init_display env s.ROI_dim).1 } keys).ROI_dim).width
        = 224) ∧
    ROI_MIN ≤ (draw_display_extract
      (keys_pressed K { s with ROI_dim := (init_display env s.ROI_dim).1 } keys).ROI_dim).width ∧
    (draw_display_extract
      (keys_pressed K { s with ROI_dim := (init_display env s.ROI_dim).1 } keys).ROI_dim).dest_x +
      (draw_display_extract
        (keys_pressed K { s with ROI_dim := (init_display env s.ROI_dim).1 } keys).ROI_dim).width
      ≤ ROI_MAX ∧
    (draw_display_extract
      (keys_pressed K { s with ROI_dim := (init_display env s.ROI_dim).1 } keys).ROI_dim).dest_y +
      (draw_display_extract
        (keys_pressed K { s with ROI_dim := (init_display env s.ROI_dim).1 } keys).ROI_dim).height
      ≤ ROI_MAX ∧
    CAM_WIDTH = 320 ∧ CAM_HEIGHT = 240 := by
  have h0 := init_display_success_ROI env s.ROI_dim h
  have hinv : ROI_inv
      (keys_pressed K { s with ROI_dim := (init_display env s.ROI_dim).1 } keys).ROI_dim := by
    refine keys_pressed_ROI_inv K keys _ ?_
    show ROI_inv (init_display env s.ROI_dim).1
    rw [h0]
    exact ROI_inv_centred 112 (Or.inr (Or.inr rfl))
  obtain ⟨⟨f1, f2, f3, f4⟩, hr⟩ := hinv
  have c1 : CAM_WIDTH = 320 := rfl
  have c2 : CAM_HEIGHT = 240 := rfl
  have c3 : CAM_MRG_TOP = 30 := rfl
  have c4 : ROI_MIN = 56 := rfl
  have c5 : ROI_MAX = 224 := rfl
  rw [c1] at f2
  rw [c3, c2] at f4
  rw [c3] at f3
  simp only [draw_display_extract, c3, c4, c5]
  rcases hr with hr | hr | hr <;> rw [hr] at f1 f2 f3 f4 ⊢ <;>
    refine ⟨trivial, trivial, ?_, ?_, ?_, ?_, ?_, ?_, ?_, ?_, ?_⟩ <;>
    first | rfl | omega | decide

/-- C26 for the Allegro key codes and the keys minus, minus, left, up: the
rectangle copied starts inside the image and ends inside it. -/
theorem extracted_ROI_inside_image_witness :
    0 ≤ (draw_display_extract
      (keys_pressed allegro_keys
        { contrast_value := 0, brightness_value := 50, saturation_value := 0,
          sharpness_value := 0, ROI_dim := (init_display display_env_ok ⟨0, 0, 0⟩).1 }
        [88, 88, 82, 84]).ROI_dim).source_x ∧
    (draw_display_extract
      (keys_pressed allegro_keys
        { contrast_value := 0, brightness_value := 50, saturation_value := 0,
          sharpness_value := 0, ROI_dim := (init_display display_env_ok ⟨0, 0, 0⟩).1 }
        [88, 88, 82, 84]).ROI_dim).source_x +
      (draw_display_extract
        (keys_pressed allegro_keys
          { contrast_value := 0, brightness_value := 50, saturation_value := 0,
            sharpness_value := 0, ROI_dim := (init_display display_env_ok ⟨0, 0, 0⟩).1 }
          [88, 88, 82, 84]).ROI_dim).width ≤ 320 :=
  ⟨(extracted_ROI_inside_image allegro_keys display_env_ok
      { contrast_value := 0, brightness_value := 50, saturation_value := 0,
        sharpness_value := 0, ROI_dim := ⟨0, 0, 0⟩ }
      [88, 88, 82, 84] (by decide)).2.2.1,
    (extracted_ROI_inside_image allegro_keys display_env_ok
      { contrast_value := 0, brightness_value := 50, saturation_value := 0,
        sharpness_value := 0, ROI_dim := ⟨0, 0, 0⟩ }
      [88, 88, 82, 84] (by decide)).2.2.2.1⟩

/-! ## The plus and minus keys -/

/-- With pairwise distinct case labels, the labels of the plus key and of the
minus key select their case bodies. -/
theorem key_pressed_dispatch_resize (K : key_codes) (s : user_state)
    (hK : K.case_labels.Nodup) :
    (key_pressed K s K.KEY_PLUS_PAD).1 = on_KEY_PLUS_PAD s ∧
    (key_pressed K s 65).1 = on_KEY_PLUS_PAD s ∧
    (key_pressed K s K.KEY_MINUS_PAD).1 = on_KEY_MINUS_PAD s ∧
    (key_pressed K s 61).1 = on_KEY_MINUS_PAD s := by
  simp only [key_codes.case_labels, List.nodup_cons, List.mem_cons, List.mem_singleton,
    not_or, List.not_mem_nil, not_false_eq_true, List.nodup_nil, and_true] at hK
  unfold key_pressed
  refine ⟨?_, ?_, ?_, ?_⟩ <;> simp [hK, Ne.symm, eq_comm]

/-- C28. With the (pairwise distinct) case labels `K`: the plus key
(`KEY_PLUS_PAD` or code 65) doubles the radius when it is below
`ROI_MAX / 2 = 112` and leaves it otherwise, the minus key (`KEY_MINUS_PAD` or
code 61) halves it when it is above `ROI_MIN / 2 = 28` and leaves it
otherwise, and in every case both keys put the centre at
`(CAM_WIDTH / 2, CAM_MRG_TOP + CAM_HEIGHT / 2) = (160, 150)`. -/
theorem plus_minus_keys (K : key_codes) (s : user_state) (key : Int)
    (hK : K.case_labels.Nodup) :
    Int.tdiv ROI_MAX 2 = 112 ∧ Int.tdiv ROI_MIN 2 = 28 ∧
    Int.tdiv CAM_WIDTH 2 = 160 ∧ CAM_MRG_TOP + Int.tdiv CAM_HEIGHT 2 = 150 ∧
    (key = K.KEY_PLUS_PAD ∨ key = 65 →
      (key_pressed K s key).1.ROI_dim =
        ⟨160, 150, if s.ROI_dim.radius < 112 then s.ROI_dim.radius * 2 else s.ROI_dim.radius⟩) ∧
    (key = K.KEY_MINUS_PAD ∨ key = 61 →
      (key_pressed K s key).1.ROI_dim =
        ⟨160, 150,
          if s.ROI_dim.radius > 28 then Int.tdiv s.ROI_dim.radius 2 else s.ROI_dim.radius⟩) := by
  obtain ⟨d1, d2, d3, d4⟩ := key_pressed_dispatch_resize K s hK
  have c1 : Int.tdiv ROI_MAX 2 = 112 := by decide
  have c2 : Int.tdiv ROI_MIN 2 = 28 := by decide
  have c3 : Int.tdiv CAM_WIDTH 2 = 160 := by decide
  have c4 : CAM_MRG_TOP + Int.tdiv CAM_HEIGHT 2 = 150 := by decide
  refine ⟨c1, c2, c3, c4, fun h => ?_, fun h => ?_⟩
  · have e : (key_pressed K s key).1 = on_KEY_PLUS_PAD s := by
      rcases h with h | h <;> rw [h] <;> assumption
    rw [e]
    simp only [on_KEY_PLUS_PAD, c1, c3, c4]
    split_ifs <;> rfl
  · have e : (key_pressed K s key).1 = on_KEY_MINUS_PAD s := by
      rcases h with h | h <;> rw [h] <;> assumption
    rw [e]
    simp only [on_KEY_MINUS_PAD, c2, c3, c4]
    split_ifs <;> rfl

/-- C28 for the Allegro key codes, from the ROI of radius 56 at (100, 100):
plus gives radius 112 and minus radius 28, both at (160, 150). -/
theorem plus_minus_keys_witness :
    (key_pressed allegro_keys ⟨0, 0, 0, 0, ⟨100, 100, 56⟩⟩ 89).1.ROI_dim = ⟨160, 150, 112⟩ ∧
    (key_pressed allegro_keys ⟨0, 0, 0, 0, ⟨100, 100, 56⟩⟩ 61).1.ROI_dim = ⟨160, 150, 28⟩ :=
  ⟨(plus_minus_keys allegro_keys ⟨0, 0, 0, 0, ⟨100, 100, 56⟩⟩ 89 (by decide)).2.2.2.2.1
      (Or.inl rfl),
    (plus_minus_keys allegro_keys ⟨0, 0, 0, 0, ⟨100, 100, 56⟩⟩ 61 (by decide)).2.2.2.2.2
      (Or.inr rfl)⟩

/-! ## Topology of the three models -/

/-- C27. As initialised by `init_digits_net`, `init_letters_net` and
`init_mixed_net`, each of the three models has an input layer of
28 * 28 = 784 neurons, `num_hidden` 2 (DIGITS) or 3 (LETTERS, MIXED), an output
layer as large as its symbol table (10, 26, 47), every sinapsi of the forward
pass with `card_in` the size of the layer it reads and `card_out` the size of
the layer it writes, and all sizes within the capacities of the arrays
(3 hidden layers, 512 hidden neurons, 47 output neurons). -/
theorem model_topology {F : Type} (nn : network_target → network_t F) :
    INPUT_DIM * INPUT_DIM = 784 ∧ MAX_HID_NUM = 3 ∧ MAX_HID_SIZE = 512 ∧ MAX_OUT_SIZE = 47 ∧
    consistent_topology
      (init_mixed_net (init_letters_net (init_digits_net nn)) network_target.DIGITS) ∧
    (init_mixed_net (init_letters_net (init_digits_net nn)) network_target.DIGITS).num_hidden
      = 2 ∧
    (init_mixed_net (init_letters_net (init_digits_net nn))
      network_target.DIGITS).out_L.num_neuron = digits_map.length ∧
    digits_map.length = 10 ∧
    consistent_topology
      (init_mixed_net (init_letters_net (init_digits_net nn)) network_target.LETTERS) ∧
    (init_mixed_net (init_letters_net (init_digits_net nn)) network_target.LETTERS).num_hidden
      = 3 ∧
    (init_mixed_net (init_letters_net (init_digits_net nn))
      network_target.LETTERS).out_L.num_neuron = letters_map.length ∧
    letters_map.length = 26 ∧
    consistent_topology
      (init_mixed_net (init_letters_net (init_digits_net nn)) network_target.MIXED) ∧
    (init_mixed_net (init_letters_net (init_digits_net nn)) network_target.MIXED).num_hidden
      = 3 ∧
    (init_mixed_net (init_letters_net (init_digits_net nn))
      network_target.MIXED).out_L.num_neuron = mixed_map.length ∧
    mixed_map.length = 47 := by
  have hD : (init_mixed_net (init_letters_net (init_digits_net nn))
      network_target.DIGITS).num_hidden = 2 := rfl
  have hL : (init_mixed_net (init_letters_net (init_digits_net nn))
      network_target.LETTERS).num_hidden = 3 := rfl
  have hM : (init_mixed_net (init_letters_net (init_digits_net nn))
      network_target.MIXED).num_hidden = 3 := rfl
  refine ⟨rfl, rfl, rfl, rfl, ?_, hD, rfl, rfl, ?_, hL, rfl, rfl, ?_, hM, rfl, rfl⟩
  · unfold consistent_topology
    rw [hD]
    refine ⟨rfl, rfl, rfl, fun k hk => ?_, rfl, rfl, by decide, by decide, fun k hk => ?_,
      Nat.le_of_ble_eq_true rfl⟩
    · have : k = 0 := by omega
      subst this
      exact ⟨rfl, rfl⟩
    · interval_cases k <;> exact Nat.le_of_ble_eq_true rfl
  · unfold consistent_topology
    rw [hL]
    refine ⟨rfl, rfl, rfl, fun k hk => ?_, rfl, rfl, by decide, by decide, fun k hk => ?_,
      Nat.le_of_ble_eq_true rfl⟩
    · have hk2 : k < 2 := hk
      interval_cases k <;> exact ⟨rfl, rfl⟩
    · interval_cases k <;> exact Nat.le_of_ble_eq_true rfl
  · unfold consistent_topology
    rw [hM]
    refine ⟨rfl, rfl, rfl, fun k hk => ?_, rfl, rfl, by decide, by decide, fun k hk => ?_,
      Nat.le_of_ble_eq_true rfl⟩
    · have hk2 : k < 2 := hk
      interval_cases k <;> exact ⟨rfl, rfl⟩
    · interval_cases k <;> exact Nat.le_of_ble_eq_true rfl

end HWR

namespace HWR

/-! ## The indices of `nn_task` -/

theorem nn_task_inv_init : nn_task_inv buffer_init := by
  simp [nn_task_inv, buffer_init]

theorem nn_task_step_keeps (s : buffer_state) (h : nn_task_inv s) :
    nn_task_inv (nn_task_step s) := by
  obtain ⟨h1, h2, h3, h4, h5, h6, h7⟩ := h
  unfold nn_task_step
  cases hpc : s.nn_at <;> simp only [hpc] at h3 h4 h5 h6 h7 ⊢
  · -- write_rec_char
    simp only [nn_task_inv, arr_set_same]
    simp_all
  · -- write_prob
    simp only [nn_task_inv, arr_set_same]
    simp_all
  · -- write_image_radius
    have e := h6 trivial
    simp only [nn_task_inv, arr_set_same]
    refine ⟨h1, h2, by simp, fun _ => h4 (by simp), by simp, by simp, fun _ => ?_⟩
    rw [e.1, e.2]
  · -- lock
    cases hm : s.current_result_mutex with
    | none =>
      simp only [nn_task_inv]
      simp_all
    | some t =>
      simp only [nn_task_inv]
      simp_all
  · -- flip
    have e := h4 (by simp)
    have hc : (s.current_result + 1) % 2 < 2 := by omega
    simp only [nn_task_inv]
    refine ⟨hc, h2, fun _ => e, by simp, by simp, by simp, fun _ => h7 (by simp)⟩
  · -- unlock
    simp only [nn_task_inv]
    simp_all
  · -- next
    have e : s.index_result = s.current_result := h3 (by simp)
    have hc2 : (s.index_result + 1) % 2 < 2 := by omega
    simp only [nn_task_inv]
    refine ⟨h1, hc2, by simp, fun _ => by rw [e], by simp, by simp, by simp⟩

theorem draw_display_step_keeps (s : buffer_state) (h : nn_task_inv s) :
    nn_task_inv (draw_display_step s) := by
  unfold draw_display_step
  cases hpc : s.display_at
  · cases hm : s.current_result_mutex <;> exact h
  all_goals exact h

theorem buffer_run_nn_task_inv (schedule : List thread) : nn_task_inv (buffer_run schedule) := by
  unfold buffer_run
  suffices H : ∀ s, nn_task_inv s → nn_task_inv (schedule.foldl buffer_step s) from
    H _ nn_task_inv_init
  induction schedule with
  | nil => intro s hs; exact hs
  | cons t ts ih =>
    intro s hs
    apply ih
    cases t
    · exact nn_task_step_keeps s hs
    · exact draw_display_step_keeps s hs

/-- The steps of `draw_display` leave `current_result` as it is. -/
theorem draw_display_step_current_result (s : buffer_state) :
    (draw_display_step s).current_result = s.current_result := by
  unfold draw_display_step
  cases hpc : s.display_at
  · cases hm : s.current_result_mutex <;> rfl
  all_goals rfl

/-- The only step of `nn_task` that changes `current_result` is the update
under the mutex. -/
theorem nn_task_step_current_result (s : buffer_state) (h : s.nn_at ≠ nn_pc.flip) :
    (nn_task_step s).current_result = s.current_result := by
  unfold nn_task_step
  cases hpc : s.nn_at
  · rfl
  · rfl
  · rfl
  · cases hm : s.current_result_mutex <;> rfl
  · exact absurd hpc h
  · rfl
  · rfl

/-- C22. Start `nn_task` with `current_result = 0` and `index_result = 1` and
let it run, interleaved in any way with `draw_display`, for any number of
steps.  Then, as long as the cycle has not updated `current_result` (from its
start to the update), the slot it writes is the other one:
`index_result = (current_result + 1) % 2`.  A step changes `current_result`
only if it is the update made by `nn_task` under the mutex, and at that point
the character, the confidence and the radius of the slot `index_result` all
hold the values of the running cycle.  Immediately after the update
`current_result` is `index_result`, the slot just written. -/
theorem nn_task_indices (schedule : List thread) :
    buffer_init.current_result = 0 ∧ buffer_init.index_result = 1 ∧
    ((buffer_run schedule).nn_at = nn_pc.write_rec_char ∨
        (buffer_run schedule).nn_at = nn_pc.write_prob ∨
        (buffer_run schedule).nn_at = nn_pc.write_image_radius ∨
        (buffer_run schedule).nn_at = nn_pc.lock ∨
        (buffer_run schedule).nn_at = nn_pc.flip →
      (buffer_run schedule).index_result = ((buffer_run schedule).current_result + 1) % 2) ∧
    (∀ t, (buffer_step (buffer_run schedule) t).current_result ≠
        (buffer_run schedule).current_result →
      t = thread.nn ∧ (buffer_run schedule).nn_at = nn_pc.flip ∧
      (buffer_run schedule).display_nn_data (buffer_run schedule).index_result =
        ⟨(buffer_run schedule).cycle, (buffer_run schedule).cycle,
          (buffer_run schedule).cycle⟩ ∧
      (buffer_step (buffer_run schedule) t).current_result =
        (buffer_run schedule).index_result) ∧
    ((buffer_run schedule).nn_at = nn_pc.unlock →
      (buffer_run schedule).current_result = (buffer_run schedule).index_result ∧
      (buffer_run schedule).display_nn_data (buffer_run schedule).current_result =
        ⟨(buffer_run schedule).cycle, (buffer_run schedule).cycle,
          (buffer_run schedule).cycle⟩) := by
  obtain ⟨h1, h2, h3, h4, h5, h6, h7⟩ := buffer_run_nn_task_inv schedule
  refine ⟨rfl, rfl, fun h => ?_, fun t ht => ?_, fun h => ?_⟩
  · apply h4
    rcases h with h | h | h | h | h <;> rw [h] <;> simp
  · cases t with
    | display => exact absurd (draw_display_step_current_result _) ht
    | nn =>
      have hflip : (buffer_run schedule).nn_at = nn_pc.flip := by
        by_contra hcon
        exact ht (nn_task_step_current_result _ hcon)
      refine ⟨rfl, hflip, h7 (Or.inr (Or.inl hflip)), ?_⟩
      have e := h4 (by rw [hflip]; simp)
      show (nn_task_step (buffer_run schedule)).current_result = _
      unfold nn_task_step
      simp only [hflip]
      exact e.symm
  · have e := h3 (Or.inl h)
    refine ⟨e.symm, ?_⟩
    rw [← e]
    exact h7 (Or.inr (Or.inr h))

/-- C22 on two schedules: `nn_task` alone for a full cycle and up to the
update of the second cycle (12 steps), where the update writes
`current_result = 0`, the slot written by cycle 2; and one step further. -/
theorem nn_task_indices_witness :
    (buffer_run (List.replicate 11 thread.nn)).nn_at = nn_pc.flip ∧
    (buffer_run (List.replicate 11 thread.nn)).index_result = 0 ∧
    (buffer_run (List.replicate 11 thread.nn)).current_result = 1 ∧
    (buffer_run (List.replicate 12 thread.nn)).current_result = 0 ∧
    (buffer_run (List.replicate 12 thread.nn)).display_nn_data 0 = ⟨2, 2, 2⟩ :=
  ⟨by decide,
    ((nn_task_indices (List.replicate 11 thread.nn)).2.2.1
      (Or.inr (Or.inr (Or.inr (Or.inr (by decide)))))).trans (by decide),
    by decide,
    ((nn_task_indices (List.replicate 12 thread.nn)).2.2.2.2 (by decide)).1.trans (by decide),
    by decide⟩

end HWR

namespace HWR

/-! ## The termination flag -/

/-- The value `key_pressed` returns is 0 or 1. -/
theorem key_pressed_ret_cases (K : key_codes) (s : user_state) (key : Int) :
    (key_pressed K s key).2 = 0 ∨ (key_pressed K s key).2 = 1 := by
  unfold key_pressed
  repeat' apply ite_ind (fun x : user_state × Int => x.2 = 0 ∨ x.2 = 1)
  all_goals simp

/-- Every routine that accesses `completed` leaves it as it is or stores 1. -/
theorem run_step_completed (K : key_codes) (s : run_state) (a : run_action) :
    (run_step K s a).completed = s.completed ∨ (run_step K s a).completed = 1 := by
  cases a with
  | user_task mouse_b mouse_x mouse_y key =>
    simp only [run_step, user_task_cycle]
    cases key with
    | none =>
      dsimp only
      split_ifs <;> exact Or.inl rfl
    | some readkey =>
      dsimp only
      rcases key_pressed_ret_cases K s.user (readkey >>> 8) with h | h
      · rw [h]
        exact Or.inl rfl
      · rw [h]
        exact Or.inr rfl
  | display_task => exact Or.inl rfl
  | cam_task => exact Or.inl rfl
  | nn_task => exact Or.inl rfl
  | display_error rv =>
    simp only [run_step, display_error]
    split_ifs
    · exact Or.inr rfl
    · exact Or.inl rfl
  | cam_error rv =>
    simp only [run_step, cam_error]
    split_ifs
    · exact Or.inr rfl
    · exact Or.inl rfl
  | nn_error rv =>
    simp only [run_step, nn_error]
    split_ifs
    · exact Or.inr rfl
    · exact Or.inl rfl

theorem run_steps_completed (K : key_codes) (actions : List run_action) (s : run_state)
    (h : s.completed ≠ 0) : (run_steps K s actions).completed ≠ 0 := by
  induction actions generalizing s with
  | nil => exact h
  | cons a rest ih =>
    refine ih (run_step K s a) ?_
    rcases run_step_completed K s a with e | e <;> rw [e]
    · exact h
    · decide

/-- C29. Every iteration of the loop of `user_task` (whatever the mouse and the
key are), every iteration of the loops of the other three workers and every
call of `display_error`, `cam_error` and `nn_error` leaves `completed` as it is
or stores 1 in it; hence once `completed` is non-zero it is non-zero after any
sequence of these routines. -/
theorem completed_never_reset (K : key_codes) (s : run_state) (actions : List run_action)
    (h : s.completed ≠ 0) :
    (∀ a, (run_step K s a).completed = s.completed ∨ (run_step K s a).completed = 1) ∧
    (run_steps K s actions).completed ≠ 0 :=
  ⟨run_step_completed K s, run_steps_completed K actions s h⟩

/-- C29 for the Allegro key codes: after ESC has set the flag, the keys X and
plus, a click on the LETTERS button, the other workers and an error handler
called with a success code leave it set. -/
theorem completed_never_reset_witness :
    (∀ a, (run_step allegro_keys
        (run_step allegro_keys ⟨0, ⟨50, 50, 50, 50, ⟨160, 150, 112⟩⟩, network_target.DIGITS⟩
          (run_action.user_task 0 0 0 (some (59 * 256)))) a).completed =
        (run_step allegro_keys ⟨0, ⟨50, 50, 50, 50, ⟨160, 150, 112⟩⟩, network_target.DIGITS⟩
          (run_action.user_task 0 0 0 (some (59 * 256)))).completed ∨
      (run_step allegro_keys
        (run_step allegro_keys ⟨0, ⟨50, 50, 50, 50, ⟨160, 150, 112⟩⟩, network_target.DIGITS⟩
          (run_action.user_task 0 0 0 (some (59 * 256)))) a).completed = 1) ∧
    (run_steps allegro_keys
      (run_step allegro_keys ⟨0, ⟨50, 50, 50, 50, ⟨160, 150, 112⟩⟩, network_target.DIGITS⟩
        (run_action.user_task 0 0 0 (some (59 * 256))))
      [run_action.user_task 0 0 0 (some (24 * 256)), run_action.nn_task,
        run_action.user_task 1 580 285 (some (89 * 256 + 43)), run_action.display_task,
        run_action.nn_error 0, run_action.cam_task,
        run_action.user_task 0 0 0 none]).completed ≠ 0 :=
  completed_never_reset allegro_keys
    (run_step allegro_keys ⟨0, ⟨50, 50, 50, 50, ⟨160, 150, 112⟩⟩, network_target.DIGITS⟩
      (run_action.user_task 0 0 0 (some (59 * 256))))
    [run_action.user_task 0 0 0 (some (24 * 256)), run_action.nn_task,
      run_action.user_task 1 580 285 (some (89 * 256 + 43)), run_action.display_task,
      run_action.nn_error 0, run_action.cam_task,
      run_action.user_task 0 0 0 none]
    (by decide)

end HWR

namespace HWR

/-! ## Lock discipline -/

/-- Running two sequences of events one after the other. -/
theorem sync_run_append (a b : List sync_event) (held held1 : List mutex)
    (h : sync_run held a = some held1) : sync_run held (a ++ b) = sync_run held1 b := by
  induction a generalizing held with
  | nil =>
    simp only [sync_run, Option.some.injEq] at h
    rw [List.nil_append, h]
  | cons e rest ih =>
    cases e with
    | lock m =>
      simp only [sync_run, List.cons_append] at h ⊢
      split_ifs at h ⊢ with hc
      exact ih _ h
    | unlock m =>
      simp only [sync_run, List.cons_append] at h ⊢
      split_ifs at h ⊢ with hc
      exact ih _ h
    | wait =>
      simp only [sync_run, List.cons_append] at h ⊢
      split_ifs at h ⊢ with hc
      exact ih _ h

theorem disciplined_append (a b : List sync_event) (ha : disciplined a) (hb : disciplined b) :
    disciplined (a ++ b) := by
  unfold disciplined at ha hb ⊢
  rw [sync_run_append a b [] [] ha]
  exact hb

/-- Under the discipline at most one lock is held at any point. -/
theorem sync_run_max_held (a : List sync_event) (held held1 : List mutex)
    (hl : held.length ≤ 1) (h : sync_run held a = some held1) :
    max_held held.length a ≤ 1 := by
  induction a generalizing held with
  | nil => simpa [max_held] using hl
  | cons e rest ih =>
    cases e with
    | lock m =>
      simp only [sync_run] at h
      split_ifs at h with hc
      have := ih [m] (by simp) h
      subst hc
      simp only [max_held, List.length_nil, Nat.zero_add]
      simpa using this
    | unlock m =>
      simp only [sync_run] at h
      split_ifs at h with hc
      have := ih [] (by simp) h
      subst hc
      simp only [max_held, List.length_singleton, Nat.sub_self]
      simpa using this
    | wait =>
      simp only [sync_run] at h
      split_ifs at h with hc
      have := ih [] (by simp) h
      subst hc
      simp only [max_held, List.length_nil]
      simpa using this

theorem disciplined_max_held (a : List sync_event) (h : disciplined a) : max_held 0 a ≤ 1 :=
  sync_run_max_held a [] [] (by simp) h

theorem key_pressed_events_disciplined (K : key_codes) (s : user_state) (key : Int) :
    disciplined (key_pressed_events K s key) := by
  unfold key_pressed_events
  repeat' apply ite_ind (fun x : List sync_event => disciplined x)
  all_goals decide

theorem mouse_touch_events_disciplined (mouse_x mouse_y : Int) :
    disciplined (mouse_touch_events mouse_x mouse_y) := by
  unfold mouse_touch_events
  split_ifs <;> decide

theorem user_task_events_disciplined (K : key_codes) (s : run_state) (mouse_b : Nat)
    (mouse_x mouse_y : Int) (key : Option Int) :
    disciplined (user_task_events K s mouse_b mouse_x mouse_y key) := by
  unfold user_task_events
  refine disciplined_append _ _ (disciplined_append _ _ (disciplined_append _ _
    (disciplined_append _ _ (by decide) ?_) ?_) ?_) (by decide)
  · split_ifs
    · exact mouse_touch_events_disciplined mouse_x mouse_y
    · decide
  · cases key with
    | none =>
      show disciplined []
      decide
    | some readkey => exact key_pressed_events_disciplined K s.user _
  · split_ifs <;> decide

/-- C30. With the locks held as explicit state (`sync_run`): each of
`key_pressed`, `mouse_touch`, `draw_display`, `raspi_cam_query_frame` and
`recognize_character`, entered with no lock held, takes a lock only when none
is held, unlocks the mutex it holds, reaches a semaphore wait with no lock
held and returns with no lock held; one iteration of the loop of
`display_task`, `user_task`, `cam_task` and `nn_task` does the same up to and
including `wait_for_activation`, for every state, mouse position and key; and
at no point of an iteration is more than one lock held. -/
theorem one_lock_at_a_time (K : key_codes) (s : run_state) (mouse_b : Nat)
    (mouse_x mouse_y : Int) (key : Option Int) (u : user_state) (k : Int) :
    disciplined (key_pressed_events K u k) ∧
    disciplined (mouse_touch_events mouse_x mouse_y) ∧
    disciplined draw_display_events ∧
    disciplined raspi_cam_query_frame_events ∧
    disciplined recognize_character_events ∧
    disciplined display_task_events ∧
    disciplined (user_task_events K s mouse_b mouse_x mouse_y key) ∧
    disciplined cam_task_events ∧
    disciplined nn_task_events ∧
    max_held 0 display_task_events ≤ 1 ∧
    max_held 0 (user_task_events K s mouse_b mouse_x mouse_y key) ≤ 1 ∧
    max_held 0 cam_task_events ≤ 1 ∧
    max_held 0 nn_task_events ≤ 1 :=
  ⟨key_pressed_events_disciplined K u k, mouse_touch_events_disciplined mouse_x mouse_y,
    by decide, by decide, by decide, by decide,
    user_task_events_disciplined K s mouse_b mouse_x mouse_y key, by decide, by decide,
    by decide,
    disciplined_max_held _ (user_task_events_disciplined K s mouse_b mouse_x mouse_y key),
    by decide, by decide⟩

end HWR

namespace HWR

/-! ## The output layer over exact arithmetic -/

/-- A loop that adds `f i` to an accumulator started at 0 computes the sum of
the `f i`. -/
theorem for_loop_sum {F : Type} [LinearOrderedField F] (f : Nat → F) (n : Nat) :
    for_loop (fun i acc => acc + f i) n (0 : F) = ∑ i in Finset.range n, f i := by
  induction n with
  | zero => simp [for_loop_zero]
  | succ k ih => rw [for_loop_succ, ih, Finset.sum_range_succ]

/-- The first loop of `propagate_to_out_layer`: it changes only the raw scores
`out_L.z_value`, and `max_softmax` ends as the maximum of 0 and the scores:
it is at least 0, at least every score, and it is 0 or one of the scores. -/
theorem out_scores_spec {F : Type} [LinearOrderedField F] (net : network_t F) :
    (out_scores net).1.out_S = net.out_S ∧
    (out_scores net).1.out_L.num_neuron = net.out_L.num_neuron ∧
    0 ≤ (out_scores net).2 ∧
    (∀ j, j < net.out_S.card_out → (out_scores net).1.out_L.z_value j ≤ (out_scores net).2) ∧
    ((out_scores net).2 = 0 ∨
      ∃ j, j < net.out_S.card_out ∧ (out_scores net).2 = (out_scores net).1.out_L.z_value j) := by
  unfold out_scores
  refine for_loop_induction (fun n (st : network_t F × F) =>
    st.1.out_S = net.out_S ∧ st.1.out_L.num_neuron = net.out_L.num_neuron ∧ 0 ≤ st.2 ∧
    (∀ j, j < n → st.1.out_L.z_value j ≤ st.2) ∧
    (st.2 = 0 ∨ ∃ j, j < n ∧ st.2 = st.1.out_L.z_value j)) _ _ _ ?_ ?_
  · exact ⟨rfl, rfl, le_refl _, fun j hj => absurd hj (Nat.not_lt_zero j), Or.inl rfl⟩
  · intro i st _ ⟨h1, h2, h3, h4, h5⟩
    dsimp only
    refine ⟨h1, h2, ?_, ?_, ?_⟩
    · split_ifs with hc
      · exact le_of_lt (lt_of_le_of_lt h3 hc)
      · exact h3
    · intro j hj
      by_cases hji : j = i
      · subst hji
        rw [arr_set_same]
        split_ifs with hc
        · exact le_refl _
        · exact not_lt.mp hc
      · rw [arr_set_other _ _ _ _ hji]
        split_ifs with hc
        · exact le_of_lt (lt_of_le_of_lt (h4 j (by omega)) hc)
        · exact h4 j (by omega)
    · split_ifs with hc
      · exact Or.inr ⟨i, Nat.lt_succ_self i, by rw [arr_set_same]⟩
      · rcases h5 with h5 | ⟨j, hj, h5⟩
        · exact Or.inl h5
        · exact Or.inr ⟨j, by omega, by rw [arr_set_other _ _ _ _ (by omega)]; exact h5⟩

/-- The third loop of `propagate_to_out_layer`: it leaves `out_S`, the size of
the output layer and the raw scores, and stores in `act_value[j]`, for every
`j < card_out`, the value `softmax(z_value[j], sum_softmax, max_softmax)`. -/
theorem propagate_to_out_layer_spec {F : Type} [LinearOrderedField F] (exp : F → F)
    (net : network_t F) :
    (propagate_to_out_layer exp net).out_S = net.out_S ∧
    (propagate_to_out_layer exp net).out_L.num_neuron = net.out_L.num_neuron ∧
    ∀ j, j < net.out_S.card_out →
      (propagate_to_out_layer exp net).out_L.act_value j =
        softmax exp ((out_scores net).1.out_L.z_value j)
          (out_sum exp (out_scores net).1 (out_scores net).2) (out_scores net).2 := by
  obtain ⟨h1, h2, _, _, _⟩ := out_scores_spec net
  unfold propagate_to_out_layer
  dsimp only
  rw [h1]
  have := for_loop_induction (fun n (st : network_t F) =>
    st.out_S = net.out_S ∧ st.out_L.num_neuron = net.out_L.num_neuron ∧
    st.out_L.z_value = (out_scores net).1.out_L.z_value ∧
    ∀ j, j < n → st.out_L.act_value j =
      softmax exp ((out_scores net).1.out_L.z_value j)
        (out_sum exp (out_scores net).1 (out_scores net).2) (out_scores net).2)
    (fun i n =>
      { n with
        out_L :=
          { n.out_L with
            act_value := arr_set n.out_L.act_value i
              (softmax exp (n.out_L.z_value i)
                (out_sum exp (out_scores net).1 (out_scores net).2) (out_scores net).2) } })
    net.out_S.card_out (out_scores net).1
    ⟨h1, h2, rfl, fun j hj => absurd hj (Nat.not_lt_zero j)⟩
    (by
      intro i st _ ⟨a1, a2, a3, a4⟩
      refine ⟨a1, a2, a3, fun j hj => ?_⟩
      dsimp only
      by_cases hji : j = i
      · subst hji
        rw [arr_set_same, a3]
      · rw [arr_set_other _ _ _ _ hji]
        exact a4 j (by omega))
  exact ⟨this.1, this.2.1, this.2.2.2⟩

end HWR

namespace HWR

/-! ## The shift of the softmax cancels -/

/-- The second loop of `propagate_to_out_layer` computes the sum of the
`exp(z_value[k] + max_softmax)` over the output neurons. -/
theorem out_sum_eq {F : Type} [LinearOrderedField F] (exp : F → F) (net : network_t F)
    (m : F) :
    out_sum exp net m = ∑ k in Finset.range net.out_S.card_out, exp (net.out_L.z_value k + m) := by
  unfold out_sum
  exact for_loop_sum (fun k => exp (net.out_L.z_value k + m)) net.out_S.card_out

/-- The output activations left by `propagate_to_out_layer`, written with the
raw scores it leaves in `z_value` and the shift `max_softmax` of its first loop. -/
theorem propagate_to_out_layer_act_value {F : Type} [LinearOrderedField F] (exp : F → F)
    (net : network_t F) (j : Nat) (hj : j < net.out_S.card_out) :
    (propagate_to_out_layer exp net).out_L.act_value j =
      shifted_softmax exp (propagate_to_out_layer exp net).out_L.z_value (out_scores net).2
        net.out_S.card_out j := by
  obtain ⟨_, _, h3⟩ := propagate_to_out_layer_spec exp net
  obtain ⟨h1, _, _, _, _⟩ := out_scores_spec net
  rw [h3 j hj, propagate_to_out_layer_z_value, out_sum_eq, h1]
  rfl

/-- When `exp` turns sums into products and is never 0, the shifted quotient
is the standard softmax. -/
theorem shifted_softmax_eq {F : Type} [LinearOrderedField F] (exp : F → F)
    (hadd : ∀ a b : F, exp (a + b) = exp a * exp b) (hpos : ∀ x : F, 0 < exp x)
    (z : Nat → F) (m : F) (n j : Nat) :
    shifted_softmax exp z m n j = standard_softmax exp z n j := by
  unfold shifted_softmax standard_softmax
  have hsum : ∑ k in Finset.range n, exp (z k + m) = (∑ k in Finset.range n, exp (z k)) * exp m := by
    rw [Finset.sum_mul]
    exact Finset.sum_congr rfl (fun k _ => hadd (z k) m)
  rw [hsum, hadd]
  exact mul_div_mul_right _ _ (ne_of_gt (hpos m))

/-- C21. Over an ordered field with a function `exp` that turns sums into
products and is positive (as the real exponential is): the shift `m` that
`propagate_to_out_layer` computes is the maximum of 0 and the raw scores (it
is at least 0 and at least every score, and it is 0 or one of the scores), and
for every output index `j` the activation stored by `propagate_to_out_layer`
is `exp(z_j + m) / sum_k exp(z_k + m)`, which equals the standard softmax
`exp(z_j) / sum_k exp(z_k)` of the raw scores. -/
theorem softmax_shift_cancels {F : Type} [LinearOrderedField F] (exp : F → F)
    (hadd : ∀ a b : F, exp (a + b) = exp a * exp b) (hpos : ∀ x : F, 0 < exp x)
    (net : network_t F) :
    0 ≤ (out_scores net).2 ∧
    (∀ j, j < net.out_S.card_out →
      (propagate_to_out_layer exp net).out_L.z_value j ≤ (out_scores net).2) ∧
    ((out_scores net).2 = 0 ∨ ∃ j, j < net.out_S.card_out ∧
      (out_scores net).2 = (propagate_to_out_layer exp net).out_L.z_value j) ∧
    ∀ j, j < net.out_S.card_out →
      (propagate_to_out_layer exp net).out_L.act_value j =
        shifted_softmax exp (propagate_to_out_layer exp net).out_L.z_value (out_scores net).2
          net.out_S.card_out j ∧
      (propagate_to_out_layer exp net).out_L.act_value j =
        standard_softmax exp (propagate_to_out_layer exp net).out_L.z_value
          net.out_S.card_out j := by
  obtain ⟨_, _, h3, h4, h5⟩ := out_scores_spec net
  rw [propagate_to_out_layer_z_value]
  refine ⟨h3, h4, h5, fun j hj => ?_⟩
  have h := propagate_to_out_layer_act_value exp net j hj
  rw [propagate_to_out_layer_z_value] at h
  exact ⟨h, h.trans (shifted_softmax_eq exp hadd hpos _ _ _ _)⟩

/-- C21 over the reals with the real exponential, on the DIGITS model with
zero weights and every output bias 2. -/
theorem softmax_shift_cancels_witness :
    0 ≤ (out_scores (digits_net_with_out_bias (2 : ℝ))).2 ∧
    (∀ j, j < (digits_net_with_out_bias (2 : ℝ)).out_S.card_out →
      (propagate_to_out_layer Real.exp (digits_net_with_out_bias (2 : ℝ))).out_L.z_value j ≤
        (out_scores (digits_net_with_out_bias (2 : ℝ))).2) ∧
    ((out_scores (digits_net_with_out_bias (2 : ℝ))).2 = 0 ∨
      ∃ j, j < (digits_net_with_out_bias (2 : ℝ)).out_S.card_out ∧
        (out_scores (digits_net_with_out_bias (2 : ℝ))).2 =
          (propagate_to_out_layer Real.exp (digits_net_with_out_bias (2 : ℝ))).out_L.z_value j) ∧
    ∀ j, j < (digits_net_with_out_bias (2 : ℝ)).out_S.card_out →
      (propagate_to_out_layer Real.exp (digits_net_with_out_bias (2 : ℝ))).out_L.act_value j =
        shifted_softmax Real.exp
          (propagate_to_out_layer Real.exp (digits_net_with_out_bias (2 : ℝ))).out_L.z_value
          (out_scores (digits_net_with_out_bias (2 : ℝ))).2
          (digits_net_with_out_bias (2 : ℝ)).out_S.card_out j ∧
      (propagate_to_out_layer Real.exp (digits_net_with_out_bias (2 : ℝ))).out_L.act_value j =
        standard_softmax Real.exp
          (propagate_to_out_layer Real.exp (digits_net_with_out_bias (2 : ℝ))).out_L.z_value
          (digits_net_with_out_bias (2 : ℝ)).out_S.card_out j :=
  softmax_shift_cancels Real.exp Real.exp_add Real.exp_pos (digits_net_with_out_bias (2 : ℝ))

end HWR

namespace HWR

/-! ## The index selected by `recognize_character` -/

end HWR

namespace HWR

/-! ## The indices of `string` written by the loaders -/

/-- A store at `char_count ≤ 10` keeps the logged indices at most 10. -/
theorem put_writes (r : reader) (c : Char) (hc : r.char_count ≤ 10)
    (hw : ∀ w, w ∈ r.writes → w ≤ 10) : ∀ w, w ∈ (r.put c).writes → w ≤ 10 := by
  intro w hin
  unfold reader.put at hin
  rcases List.mem_append.mp hin with h | h
  · exact hw w h
  · rw [List.mem_singleton.mp h]
    exact hc

/-- The weight loop of `load_input_sinapsi` and `load_out_sinapsi`, entered
with `char_count ≤ 10`: every index written is at most 10, and when the loop
ends without `return`, `char_count` is at most 10. -/
theorem weight_loop_writes (fuel : Nat) (r : reader) (hc : r.char_count ≤ 10)
    (hw : ∀ w, w ∈ r.writes → w ≤ 10) :
    (∀ w, w ∈ (weight_loop fuel r).1.writes → w ≤ 10) ∧
    ((weight_loop fuel r).2 = false → (weight_loop fuel r).1.char_count ≤ 10) := by
  induction fuel generalizing r with
  | zero => exact ⟨hw, fun h => absurd (show true = false from h) (by decide)⟩
  | succ k ih =>
    unfold weight_loop
    by_cases h1 : r.ch ≠ '_' ∧ r.ch ≠ '\n'
    · rw [if_pos h1]
      dsimp only
      split_ifs with h2
      · exact ⟨put_writes r r.ch hc hw, fun h => h.elim⟩
      · exact ih _ (Nat.le_of_not_gt h2) (put_writes r r.ch hc hw)
    · rw [if_neg h1]
      exact ⟨hw, fun _ => hc⟩

/-- The weight loop of `load_hidden_sinapsi`, entered with `char_count ≤ 10`. -/
theorem weight_loop_hidden_writes (fuel : Nat) (r : reader) (hc : r.char_count ≤ 10)
    (hw : ∀ w, w ∈ r.writes → w ≤ 10) :
    (∀ w, w ∈ (weight_loop_hidden fuel r).1.writes → w ≤ 10) ∧
    ((weight_loop_hidden fuel r).2 = false → (weight_loop_hidden fuel r).1.char_count ≤ 10) := by
  induction fuel generalizing r with
  | zero => exact ⟨hw, fun h => absurd (show true = false from h) (by decide)⟩
  | succ k ih =>
    unfold weight_loop_hidden
    by_cases h1 : r.ch ≠ '_' ∧ r.ch ≠ '\n'
    · rw [if_pos h1]
      dsimp only
      split_ifs with h2
      · exact ⟨put_writes r r.ch hc hw, fun h => h.elim⟩
      · exact ih _ (Nat.le_of_not_gt h2) (put_writes r r.ch hc hw)
    · rw [if_neg h1]
      exact ⟨hw, fun _ => hc⟩

/-- The bias loop of the three loaders, entered with `char_count ≤ 10`. -/
theorem bias_loop_writes (fuel : Nat) (r : reader) (hc : r.char_count ≤ 10)
    (hw : ∀ w, w ∈ r.writes → w ≤ 10) :
    (∀ w, w ∈ (bias_loop fuel r).1.writes → w ≤ 10) ∧
    ((bias_loop fuel r).2 = false → (bias_loop fuel r).1.char_count ≤ 10) := by
  induction fuel generalizing r with
  | zero => exact ⟨hw, fun h => absurd (show true = false from h) (by decide)⟩
  | succ k ih =>
    unfold bias_loop
    dsimp only
    by_cases h1 : r.get.ch ≠ '\n'
    · rw [if_pos h1]
      split_ifs with h2
      · exact ⟨put_writes r.get r.get.ch hc hw, fun h => h.elim⟩
      · exact ih _ (Nat.le_of_not_gt h2) (put_writes r.get r.get.ch hc hw)
    · rw [if_neg h1]
      exact ⟨hw, fun _ => hc⟩

/-- Loading of one sinapsi started between two fields (`char_count = 0`) with
a loop that keeps the written indices at most 10: every index written is at
most 10, and without `return` it ends between two fields. -/
theorem load_sinapsi_writes {F : Type} (atof : List Char → F)
    (loop : Nat → reader → reader × Bool)
    (hloop : ∀ fuel r, r.char_count ≤ 10 → (∀ w, w ∈ r.writes → w ≤ 10) →
      (∀ w, w ∈ (loop fuel r).1.writes → w ≤ 10) ∧
      ((loop fuel r).2 = false → (loop fuel r).1.char_count ≤ 10))
    (st : reader × sinapsi_t F) (hc : st.1.char_count = 0)
    (hw : ∀ w, w ∈ st.1.writes → w ≤ 10) :
    (∀ w, w ∈ (load_sinapsi atof loop st).1.1.writes → w ≤ 10) ∧
    ((load_sinapsi atof loop st).2 = false → (load_sinapsi atof loop st).1.1.char_count = 0) := by
  unfold load_sinapsi
  refine for_return_post (fun (q : (reader × sinapsi_t F) × Bool) =>
    (∀ w, w ∈ q.1.1.writes → w ≤ 10) ∧ (q.2 = false → q.1.1.char_count = 0)) _ _ _ _
    ⟨hw, fun _ => hc⟩ ?_
  intro i st1 ⟨a1, a2⟩
  have a2 : st1.1.char_count = 0 := a2 rfl
  unfold load_neuron
  dsimp only
  have hj := for_return_post (fun (q : (reader × sinapsi_t F) × Bool) =>
    (∀ w, w ∈ q.1.1.writes → w ≤ 10) ∧ (q.2 = false → q.1.1.char_count = 0))
    (load_weight atof loop i) st1.2.card_in 0 st1 ⟨a1, fun _ => a2⟩ (by
      intro j st2 ⟨b1, b2⟩
      have b2 : st2.1.char_count = 0 := b2 rfl
      unfold load_weight
      dsimp only
      obtain ⟨c1, c2⟩ := hloop (11 - st2.1.get.char_count) st2.1.get
        (by show st2.1.char_count ≤ 10; omega) b1
      by_cases hf : (loop (11 - st2.1.get.char_count) st2.1.get).2 = true
      · rw [if_pos hf]
        exact ⟨c1, fun h => absurd (show true = false from h) (by decide)⟩
      · rw [if_neg hf]
        have hf2 : (loop (11 - st2.1.get.char_count) st2.1.get).2 = false := by
          cases hv : (loop (11 - st2.1.get.char_count) st2.1.get).2
          · rfl
          · exact absurd hv hf
        split_ifs
        · exact ⟨put_writes _ (Char.ofNat 0) (c2 hf2) c1, fun h => h.elim⟩
        · exact ⟨put_writes _ (Char.ofNat 0) (c2 hf2) c1, fun _ => rfl⟩)
  obtain ⟨d1, d2⟩ := hj
  by_cases hw2 : (for_return (load_weight atof loop i) 0 st1.2.card_in st1).2 = true
  · rw [if_pos hw2]
    exact ⟨d1, d2⟩
  · rw [if_neg hw2]
    have hw3 : (for_return (load_weight atof loop i) 0 st1.2.card_in st1).2 = false := by
      cases hv : (for_return (load_weight atof loop i) 0 st1.2.card_in st1).2
      · rfl
      · exact absurd hv hw2
    have d2 : (for_return (load_weight atof loop i) 0 st1.2.card_in st1).1.1.char_count = 0 :=
      d2 hw3
    obtain ⟨e1, e2⟩ := bias_loop_writes
      (11 - (for_return (load_weight atof loop i) 0 st1.2.card_in st1).1.1.char_count)
      (for_return (load_weight atof loop i) 0 st1.2.card_in st1).1.1 (by omega) d1
    by_cases hb : (bias_loop
        (11 - (for_return (load_weight atof loop i) 0 st1.2.card_in st1).1.1.char_count)
        (for_return (load_weight atof loop i) 0 st1.2.card_in st1).1.1).2 = true
    · rw [if_pos hb]
      exact ⟨e1, fun h => absurd (show true = false from h) (by decide)⟩
    · rw [if_neg hb]
      have hb2 : (bias_loop
          (11 - (for_return (load_weight atof loop i) 0 st1.2.card_in st1).1.1.char_count)
          (for_return (load_weight atof loop i) 0 st1.2.card_in st1).1.1).2 = false := by
        cases hv : (bias_loop
          (11 - (for_return (load_weight atof loop i) 0 st1.2.card_in st1).1.1.char_count)
          (for_return (load_weight atof loop i) 0 st1.2.card_in st1).1.1).2
        · rfl
        · exact absurd hv hb
      split_ifs
      · exact ⟨put_writes _ (Char.ofNat 0) (e2 hb2) e1, fun h => h.elim⟩
      · exact ⟨put_writes _ (Char.ofNat 0) (e2 hb2) e1, fun _ => rfl⟩

/-- C25. What the loaders do: for every file and every model, every index of
`string` that `load_input_sinapsi`, `load_hidden_sinapsi` and
`load_out_sinapsi` use in a store is at most 10; and index 10, one past the 10
cells of the array, is used: on the file `0123456789_1_2` followed by a
newline, read for a model with two inputs and one neuron, `load_input_sinapsi`
stores the terminating NUL of the first field at index 10, on the file
`0123456789_2` followed by a newline so do `load_hidden_sinapsi` and
`load_out_sinapsi`, and on a file of eleven `7` `load_input_sinapsi` stores
the eleventh at index 10.  At that store the defined behaviour of the loader
ends (it has no return value). -/
theorem loaders_write_index_ten :
    (∀ (F : Type) (atof : List Char → F) (fp : stream) (net : network_t F) (w : Nat),
      w ∈ (load_input_sinapsi atof fp net).writes → w ≤ 10) ∧
    (∀ (F : Type) (atof : List Char → F) (string0 : Nat → Char) (fp : stream)
      (net : network_t F) (w : Nat),
      w ∈ (load_hidden_sinapsi atof string0 fp net).writes → w ≤ 10) ∧
    (∀ (F : Type) (atof : List Char → F) (string0 : Nat → Char) (fp : stream)
      (net : network_t F) (w : Nat),
      w ∈ (load_out_sinapsi atof string0 fp net).writes → w ≤ 10) ∧
    ((load_input_sinapsi count_chars
        ['0', '1', '2', '3', '4', '5', '6', '7', '8', '9', '_', '1', '_', '2', '\n']
        tiny_net).writes = [0, 1, 2, 3, 4, 5, 6, 7, 8, 9, 10] ∧
      (load_input_sinapsi count_chars
        ['0', '1', '2', '3', '4', '5', '6', '7', '8', '9', '_', '1', '_', '2', '\n']
        tiny_net).ret = none) ∧
    ((load_hidden_sinapsi count_chars (fun _ => 'x')
        ['0', '1', '2', '3', '4', '5', '6', '7', '8', '9', '_', '2', '\n']
        tiny_net).writes = [0, 1, 2, 3, 4, 5, 6, 7, 8, 9, 10] ∧
      (load_hidden_sinapsi count_chars (fun _ => 'x')
        ['0', '1', '2', '3', '4', '5', '6', '7', '8', '9', '_', '2', '\n']
        tiny_net).ret = none) ∧
    ((load_out_sinapsi count_chars (fun _ => 'x')
        ['0', '1', '2', '3', '4', '5', '6', '7', '8', '9', '_', '2', '\n']
        tiny_net).writes = [0, 1, 2, 3, 4, 5, 6, 7, 8, 9, 10] ∧
      (load_out_sinapsi count_chars (fun _ => 'x')
        ['0', '1', '2', '3', '4', '5', '6', '7', '8', '9', '_', '2', '\n']
        tiny_net).ret = none) ∧
    ((load_input_sinapsi count_chars (sevens 11) tiny_net).writes =
        [0, 1, 2, 3, 4, 5, 6, 7, 8, 9, 10] ∧
      (load_input_sinapsi count_chars (sevens 11) tiny_net).ret = none) := by
  refine ⟨?_, ?_, ?_, ⟨rfl, rfl⟩, ⟨rfl, rfl⟩, ⟨rfl, rfl⟩, ⟨rfl, rfl⟩⟩
  · intro F atof fp net w hin
    exact (load_sinapsi_writes atof weight_loop weight_loop_writes
      (reader_init fp (fun _ => Char.ofNat 0), net.in_S) rfl
      (fun w h => absurd h (List.not_mem_nil w))).1 w hin
  · intro F atof string0 fp net w hin
    have h := for_return_post (fun (q : (reader × (Nat → sinapsi_t F)) × Bool) =>
      (∀ w, w ∈ q.1.1.writes → w ≤ 10) ∧ (q.2 = false → q.1.1.char_count = 0))
      (load_hidden_k atof) (net.num_hidden - 1) 0 (reader_init fp string0, net.hid_S)
      ⟨fun w h => absurd h (List.not_mem_nil w), fun _ => rfl⟩ (by
        intro k st ⟨a1, a2⟩
        exact load_sinapsi_writes atof weight_loop_hidden weight_loop_hidden_writes
          (st.1, st.2 k) (a2 rfl) a1)
    exact h.1 w hin
  · intro F atof string0 fp net w hin
    exact (load_sinapsi_writes atof weight_loop weight_loop_writes
      (reader_init fp string0, net.out_S) rfl
      (fun w h => absurd h (List.not_mem_nil w))).1 w hin

end HWR
